import Mathlib

/-!
# tiffscan: value grammar and capture pipeline

A shallow embedding of the parts of `tiffscan.c` that the specification
talks about, followed by the properties established for them.

Conventions of the embedding:

* C `int` / `SANE_Word` / `SANE_Int` values are `Int`; where the source
  computes in 32-bit words the result is wrapped with `wrap32`.
* C `double` values are IEEE 754 binary64 with every operation rounded to
  nearest (no extended intermediate precision); see the section on binary64.
* `sane.h` is not part of the repository sources; its enumerations are
  modelled with the values of the SANE standard and marked as such.
  `strtol` and `strtod` are the C library functions.
* `exit(1)` and undefined conversions are explicit outcomes of the functions
  that can reach them.
* The device is a script of answers: the answers to successive
  `sane_start` calls and the results of successive `sane_read` calls.
-/

namespace Tiffscan

/-! ## Types from `sane.h` -/

/-- Modelled from the spec: the `SANE_Status` enumeration of `sane.h`
(section 6 lists Good, WarmingUp, NoDocuments, EndOfPage, Cancelled,
InvalidArgument, OutOfMemory, IOError); the remaining members follow the SANE
standard.  `WARMING_UP` exists in the builds that define
`SANE_HAS_WARMING_UP`, which is the configuration embedded here. -/
inductive SANE_Status where
  | GOOD
  | UNSUPPORTED
  | CANCELLED
  | DEVICE_BUSY
  | INVAL
  | EOF
  | JAMMED
  | NO_DOCS
  | COVER_OPEN
  | IO_ERROR
  | NO_MEM
  | ACCESS_DENIED
  | WARMING_UP
  deriving DecidableEq, Repr

/-- Modelled from the spec: frame tag `SANE_FRAME_GRAY` of `sane.h` (grayscale). -/
def SANE_FRAME_GRAY : Int := 0
/-- Modelled from the spec: frame tag `SANE_FRAME_RGB` of `sane.h`
(combined multichannel). -/
def SANE_FRAME_RGB : Int := 1
/-- Modelled from the spec: frame tag `SANE_FRAME_RED` of `sane.h`. -/
def SANE_FRAME_RED : Int := 2
/-- Modelled from the spec: frame tag `SANE_FRAME_GREEN` of `sane.h`. -/
def SANE_FRAME_GREEN : Int := 3
/-- Modelled from the spec: frame tag `SANE_FRAME_BLUE` of `sane.h`. -/
def SANE_FRAME_BLUE : Int := 4
/-- Frame tag of single-channel infrared, `#define SANE_FRAME_IR 0x0F`. -/
def SANE_FRAME_IR : Int := 0x0F
/-- Frame tag of the infrared-augmented layout, `#define SANE_FRAME_RGBI 0x10`. -/
def SANE_FRAME_RGBI : Int := 0x10

/-- The fields of `SANE_Parameters` that the pipeline reads. -/
structure SANE_Parameters where
  format : Int
  lines : Int
  depth : Int
  pixels_per_line : Int
  bytes_per_line : Int
  deriving DecidableEq, Repr

/-! ## Machine words -/

/-- Two's-complement wrap of an integer into the 32-bit signed range. -/
def wrap32 (x : Int) : Int := (x + 2147483648) % 4294967296 - 2147483648

/-! ## IEEE 754 binary64 arithmetic

The value grammar computes in C `double`.  Every finite double is an integer
multiple of 2^-1074, so a double is represented by that integer; the
operations are the correctly rounded ones (round to nearest, ties to even, 53
significant bits, gradual underflow).  Infinities and NaN have no
representation of their own: a result beyond the binary64 range keeps its
magnitude, an infinity or a NaN that `strtod` reads is the magnitude
`HUGE_VAL` beyond that range, and the only consumer of such a value in this
program is the conversion to a 32-bit word, which is undefined for it in any
case.  Negative zero is not distinguished from zero; no operation used here
can observe the difference.

In the definitions below a value of C type `double` is therefore an `Int`:
its count of units of 2^-1074. -/

/-- Two to the power `s`, as a shift. -/
def pow2 (s : Nat) : Nat := 1 <<< s

/-- The double 1.0: 2^1074 units. -/
def UNIT : Nat := pow2 1074

/-- Number of binary digits of `n`, by repeated halving (`fuel` bounds the
number of halvings; `n` itself is always enough). -/
def bit_length_aux : Nat → Nat → Nat
  | 0, _ => 0
  | fuel + 1, n => if n = 0 then 0 else bit_length_aux fuel (n / 2) + 1

/-- Number of binary digits of `n` (0 for 0). -/
def bit_length (n : Nat) : Nat := bit_length_aux n n

/-- The integer nearest to `n / d`, ties to the even one. -/
def round_half_even (n : Int) (d : Nat) : Int :=
  let q := n / (d : Int)
  let r := n % (d : Int)
  if 2 * r < d then q
  else if 2 * r > d then q + 1
  else if q % 2 = 0 then q else q + 1

/-- The double nearest to `n / d` units: `n / d` rounded to 53 significant
bits, ties to even.  Quotients below 2^53 units are rounded to a whole number
of units, which is the gradual underflow of binary64. -/
def round_double (n : Int) (d : Nat) : Int :=
  let s := bit_length (n.natAbs / d) - 53
  round_half_even n (d * pow2 s) * (pow2 s : Int)

/-- Conversion of an integer to `double`. -/
def of_int (n : Int) : Int := round_double (n * UNIT) 1

/-- Addition of doubles. -/
def fadd (x y : Int) : Int := round_double (x + y) 1

/-- Subtraction of doubles. -/
def fsub (x y : Int) : Int := round_double (x - y) 1

/-- Multiplication of doubles. -/
def fmul (x y : Int) : Int := round_double (x * y) UNIT

/-- Division of doubles.  IEEE gives an infinity or NaN for a zero divisor; the
model gives 0, and the one division in this program (the slope in
`parse_vector`) is used only when its divisor is at least 2. -/
def fdiv (x y : Int) : Int :=
  if y = 0 then 0
  else if 0 < y then round_double (x * UNIT) y.natAbs
  else round_double (-(x * UNIT)) y.natAbs

/-- The double nearest to the decimal `m * 10^e`, as a correctly rounding
`strtod` produces it. -/
def of_decimal (m : Int) (e : Int) : Int :=
  if 0 ≤ e then round_double (m * (10 ^ e.toNat : Nat) * UNIT) 1
  else round_double (m * UNIT) (10 ^ (-e).toNat)

/-- The constant `0.5`. -/
def half : Int := of_decimal 5 (-1)

/-- Conversion of a double to `SANE_Word` (C `int`): truncation toward zero.
C leaves the conversion undefined when the truncated value does not fit;
that case is `none`. -/
def to_word (x : Int) : Option Int :=
  let t := Int.tdiv x UNIT
  if -2147483648 ≤ t ∧ t < 2147483648 then some t else none

/-! ## The C library: `strtol`, `strtod`

Strings are lists of characters without the terminating NUL; `*str` of the
empty list is NUL. -/

/-- The character `*str`. -/
def peek (str : List Char) : Char := str.headD (Char.ofNat 0)

/-- `isspace` in the C locale. -/
def isspace (c : Char) : Bool :=
  c = ' ' || c = '\t' || c = '\n' || c = Char.ofNat 11 || c = Char.ofNat 12 || c = '\r'

/-- Skip leading white space. -/
def skip_space : List Char → List Char
  | [] => []
  | c :: cs => if isspace c then skip_space cs else c :: cs

/-- Read decimal digits: the accumulated value (starting from `acc`), the
number of digits read (starting from `k`) and the rest of the string. -/
def take_digits : List Char → Nat → Nat → Nat × Nat × List Char
  | [], acc, k => (acc, k, [])
  | c :: cs, acc, k =>
    if c.isDigit then take_digits cs (acc * 10 + (c.toNat - 48)) (k + 1)
    else (acc, k, c :: cs)

/-- An optional sign: whether it is a minus, and the rest. -/
def take_sign : List Char → Bool × List Char
  | '-' :: cs => (true, cs)
  | '+' :: cs => (false, cs)
  | cs => (false, cs)

/-- `LONG_MAX` of an LP64 platform. -/
def LONG_MAX : Int := 9223372036854775807

/-- `strtol(str, &end, 10)` on an LP64 platform: the value and `end`, or
`none` when no conversion is performed (`end == str`). -/
def strtol (str : List Char) : Option (Int × List Char) :=
  let (neg, s) := take_sign (skip_space str)
  let (m, k, rest) := take_digits s 0 0
  if k = 0 then none
  else
    let v : Int := if neg then -(m : Int) else m
    some (max (-LONG_MAX - 1) (min LONG_MAX v), rest)

/-- The exponent part of a decimal floating literal: `e` or `E`, an optional
sign and at least one digit; otherwise nothing is consumed. -/
def take_exponent (str : List Char) : Int × List Char :=
  match str with
  | c :: cs =>
    if c = 'e' ∨ c = 'E' then
      let (neg, s) := take_sign cs
      let (m, k, rest) := take_digits s 0 0
      if k = 0 then (0, str) else (if neg then -(m : Int) else m, rest)
    else (0, str)
  | [] => (0, [])

/-- Value of a hexadecimal digit, `none` for any other character. -/
def hex_digit (c : Char) : Option Nat :=
  if c.isDigit then some (c.toNat - 48)
  else if 'a' ≤ c ∧ c ≤ 'f' then some (c.toNat - 87)
  else if 'A' ≤ c ∧ c ≤ 'F' then some (c.toNat - 55)
  else none

/-- Read hexadecimal digits: the accumulated value (starting from `acc`), the
number of digits read (starting from `k`) and the rest of the string. -/
def take_hex_digits : List Char → Nat → Nat → Nat × Nat × List Char
  | [], acc, k => (acc, k, [])
  | c :: cs, acc, k =>
    match hex_digit c with
    | some d => take_hex_digits cs (acc * 16 + d) (k + 1)
    | none => (acc, k, c :: cs)

/-- The binary exponent part of a hexadecimal floating literal: `p` or `P`, an
optional sign and at least one decimal digit; otherwise nothing is consumed. -/
def take_binary_exponent (str : List Char) : Int × List Char :=
  match str with
  | c :: cs =>
    if c = 'p' ∨ c = 'P' then
      let (neg, s) := take_sign cs
      let (m, k, rest) := take_digits s 0 0
      if k = 0 then (0, str) else (if neg then -(m : Int) else m, rest)
    else (0, str)
  | [] => (0, [])

/-- The double nearest to `m * 2^e`. -/
def of_binary (m : Int) (e : Int) : Int :=
  if 0 ≤ e then round_double (m * (2 ^ e.toNat : Nat) * UNIT) 1
  else round_double (m * UNIT) (2 ^ (-e).toNat)

/-- A hexadecimal floating literal at the start of `s` (the text after the
sign): `0x` or `0X`, hexadecimal digits with an optional radix point (at least
one digit) and an optional binary exponent; its magnitude and the rest, or
`none` when `s` does not start with such a literal. -/
def hex_literal (s : List Char) : Option (Int × List Char) :=
  match s with
  | '0' :: x :: t =>
    if x = 'x' ∨ x = 'X' then
      let (m1, k1, r1) := take_hex_digits t 0 0
      let (m, kf, r2) :=
        match r1 with
        | '.' :: u => take_hex_digits u m1 0
        | _ => (m1, 0, r1)
      if k1 + kf = 0 then none
      else
        let (e, rest) := take_binary_exponent r2
        some (of_binary m (e - 4 * kf), rest)
    else none
  | _ => none

/-- The magnitude that stands for an infinity and for a NaN: 2^1024, beyond
every finite double.  Like every value beyond the binary64 range it can only
end in the conversion to a 32-bit word, which C leaves undefined for an
infinity and for a NaN alike. -/
def HUGE_VAL : Int := pow2 2098

/-- The spellings `INF`, `INFINITY`, `NAN` and `NAN(n-char-sequence)` at the
start of `s` (the text after the sign), letter case ignored: the magnitude and
the rest, or `none` when `s` starts with none of them. -/
def special_literal (s : List Char) : Option (Int × List Char) :=
  if (s.take 8).map Char.toLower = "infinity".toList then some (HUGE_VAL, s.drop 8)
  else if (s.take 3).map Char.toLower = "inf".toList then some (HUGE_VAL, s.drop 3)
  else if (s.take 3).map Char.toLower = "nan".toList then
    match s.drop 3 with
    | '(' :: u =>
      match u.dropWhile (fun c => c.isAlphanum || c = '_') with
      | ')' :: r => some (HUGE_VAL, r)
      | _ => some (HUGE_VAL, s.drop 3)
    | r => some (HUGE_VAL, r)
  else none

/-- A decimal floating literal at the start of `s` (the text after the sign,
`neg` telling whether the sign was a minus): digits with an optional radix
point (at least one digit) and an optional exponent; the signed value and the
rest, or `none` when `s` does not start with such a literal. -/
def decimal_literal (neg : Bool) (s : List Char) : Option (Int × List Char) :=
  let (m1, k1, r1) := take_digits s 0 0
  let (m, kf, r2) :=
    match r1 with
    | '.' :: t => take_digits t m1 0
    | _ => (m1, 0, r1)
  if k1 + kf = 0 then none
  else
    let (e, rest) := take_exponent r2
    let v : Int := if neg then -(m : Int) else m
    some (of_decimal v (e - kf), rest)

/-- `strtod(str, &end)`: optional white space and sign, then the longest text
of one of the forms infinity or NaN, hexadecimal floating literal, decimal
floating literal; the value and `end`, or `none` when no conversion is
performed. -/
def strtod (str : List Char) : Option (Int × List Char) :=
  let (neg, s) := take_sign (skip_space str)
  match special_literal s with
  | some (v, rest) => some (if neg then -v else v, rest)
  | none =>
    match hex_literal s with
    | some (v, rest) => some (if neg then -v else v, rest)
    | none => decimal_literal neg s

/-- The decimal spelling of an integer, as `printf("%d")` writes it. -/
def int_literal (i : Int) : List Char :=
  if i < 0 then '-' :: Nat.toDigits 10 i.natAbs else Nat.toDigits 10 i.natAbs

/-- Value of a list of decimal digits read left to right, starting from `acc`. -/
def digits_value (ds : List Nat) (acc : Nat) : Nat :=
  ds.foldl (fun a d => a * 10 + d) acc

/-! ## Option descriptors -/

/-- Modelled from the spec: the `SANE_Value_Type` enumeration of `sane.h`
(kinds Bool, Int, Fixed, String, Button, and the grouping marker). -/
inductive SANE_Value_Type where
  | BOOL
  | INT
  | FIXED
  | STRING
  | BUTTON
  | GROUP
  deriving DecidableEq, Repr

/-- Modelled from the spec: the `SANE_Unit` enumeration of `sane.h`
(None, Pixel, Bit, Millimeter, DPI, Percent, Microsecond). -/
inductive SANE_Unit where
  | NONE
  | PIXEL
  | BIT
  | MM
  | DPI
  | PERCENT
  | MICROSECOND
  deriving DecidableEq, Repr

/-- The fields of `SANE_Option_Descriptor` that the value grammar reads. -/
structure SANE_Option_Descriptor where
  type : SANE_Value_Type
  unit : SANE_Unit
  deriving DecidableEq, Repr

/-- `SANE_FIXED_SCALE_SHIFT` of `sane.h`. -/
def SANE_FIXED_SCALE_SHIFT : Nat := 16

/-! ## `parse_scalar` -/

/-- The ways `parse_scalar` ends. -/
inductive Scalar where
  /-- Returns the rest of the string, with `*value` stored. -/
  | ok (value : Int) (rest : List Char)
  /-- "bad option value", `exit(1)`. -/
  | bad_value
  /-- "illegal unit", returns 0. -/
  | illegal_unit
  /-- The conversion of `v + 0.5` to `SANE_Word` is out of range. -/
  | undefined
  deriving DecidableEq, Repr

/-- The `switch (opt->unit)` of `parse_scalar`: the scaled value and the
advanced string, or `none` for the "illegal unit" return. -/
def apply_unit (unit : SANE_Unit) (v : Int) (str : List Char) :
    Option (Int × List Char) :=
  match unit with
  | SANE_Unit.NONE => some (v, str)
  | SANE_Unit.PIXEL => some (v, str)
  | SANE_Unit.BIT =>
    if peek str = 'b' ∨ peek str = 'B' then
      if peek str = 'B' then some (fmul v (of_int 8), str.tail)
      else some (v, str.tail)
    else some (v, str)
  | SANE_Unit.MM =>
    if str = [] then some (fmul v (of_decimal 1 0), str)
    else if str = ['m', 'm'] then some (v, str.drop 2)
    else if str = ['c', 'm'] then some (fmul v (of_decimal 10 0), str.drop 2)
    else if str = ['i', 'n'] ∨ peek str = '"' then
      some (fmul v (of_decimal 254 (-1)),
        if peek str ≠ '"' then str.tail.tail else str.tail)
    else none
  | SANE_Unit.DPI =>
    if str = ['d', 'p', 'i'] then some (v, str.drop 3) else some (v, str)
  | SANE_Unit.PERCENT =>
    if peek str = '%' then some (v, str.tail) else some (v, str)
  | SANE_Unit.MICROSECOND =>
    if str = ['u', 's'] then some (v, str.drop 2) else some (v, str)

/-- The function `parse_scalar`. -/
def parse_scalar (opt : SANE_Option_Descriptor) (str : List Char) : Scalar :=
  let conv : Option (Int × List Char) :=
    if opt.type = SANE_Value_Type.FIXED then
      (strtod str).map (fun r => (fmul r.1 (of_int (1 <<< SANE_FIXED_SCALE_SHIFT)), r.2))
    else
      (strtol str).map (fun r => (of_int r.1, r.2))
  match conv with
  | none => Scalar.bad_value
  | some (v, s) =>
    match apply_unit opt.unit v s with
    | none => Scalar.illegal_unit
    | some (v, s) =>
      match to_word (fadd v half) with
      | none => Scalar.undefined
      | some value => Scalar.ok value s

/-! ## `parse_vector` -/

/-- The ways `parse_vector` ends. -/
inductive Outcome where
  /-- The function returns. -/
  | returned
  /-- "closing bracket missing", `exit(1)`. -/
  | closing_bracket
  /-- "index out of range", `exit(1)`. -/
  | out_of_range
  /-- `parse_scalar` printed "bad option value" and called `exit(1)`. -/
  | bad_value
  /-- `parse_scalar` returned 0 ("illegal unit"), `exit(1)`. -/
  | illegal_unit
  /-- "illegal separator", `exit(1)`. -/
  | illegal_separator
  /-- A double-to-word conversion was out of range. -/
  | undefined
  /-- The iteration bound of the model was reached (it never is, since every
  iteration consumes at least one character). -/
  | out_of_fuel
  deriving DecidableEq, Repr

/-- The interpolation loop `for (i = prev_index + 1; i < index; ++i)`,
as `count` iterations starting at `i`: each adds `slope` to `v` and stores
the converted sum at `i`. -/
def interpolate (slope : Int) : (count : Nat) → (i : Nat) → (v : Int) →
    List Int → Option (List Int)
  | 0, _, _, vector => some vector
  | count + 1, i, v, vector =>
    let v := fadd v slope
    match to_word v with
    | none => none
    | some w => interpolate slope count (i + 1) v (vector.set i w)

/-- The double that the interpolation loop holds in `v` after `k` iterations:
`v` with `slope` added `k` times, each sum rounded. -/
def ramp (slope v : Int) : Nat → Int
  | 0 => v
  | k + 1 => fadd (ramp slope v k) slope

/-- The slope that `parse_vector` computes between the endpoint values `a`
(at `p`) and `b` (at `q`): the double quotient of `b - a` by `q - p`. -/
def slope_of (a b p q : Int) : Int :=
  fdiv (fsub (of_int b) (of_int a)) (of_int (q - p))

/-- The "read index" part of the loop body of `parse_vector`: the new `index`
and the advanced string, or `none` for the "closing bracket missing" exit. -/
def read_index (str : List Char) (index : Int) : Option (Int × List Char) :=
  if peek str = '[' then
    match strtol str.tail with
    | none => none
    | some (i, e) => if peek e ≠ ']' then none else some (wrap32 i, e.tail)
  else some (wrap32 (index + 1), str)

/-- The "store value" part of the loop body of `parse_vector`: the store at
`index` and, after a dash, the interpolation between `prev_index` and
`index`; `none` when a conversion in the interpolation is out of range. -/
def store_value (vector : List Int) (separator : Char)
    (prev_index prev_value index value : Int) : Option (List Int) :=
  let vector := vector.set index.toNat value
  if separator = '-' then
    let v := of_int prev_value
    let slope := fdiv (fsub (of_int value) v) (of_int (index - prev_index))
    interpolate slope (index - (prev_index + 1)).toNat (prev_index + 1).toNat v vector
  else some vector

/-- The `do ... while` loop of `parse_vector`.  The arguments after the fuel
are the locals `str`, `index`, `prev_index`, `prev_value`, `separator` and
the vector memory; the result is the memory and the way the function ends. -/
def vector_loop (opt : SANE_Option_Descriptor) : Nat → List Char → Int → Int → Int →
    Char → List Int → List Int × Outcome
  | 0, _, _, _, _, _, vector => (vector, Outcome.out_of_fuel)
  | fuel + 1, str, index, prev_index, prev_value, separator, vector =>
    match read_index str index with
    | none => (vector, Outcome.closing_bracket)
    | some (index, str) =>
      if index < 0 ∨ index ≥ wrap32 vector.length then (vector, Outcome.out_of_range)
      else
        -- read value
        match parse_scalar opt str with
        | Scalar.bad_value => (vector, Outcome.bad_value)
        | Scalar.illegal_unit => (vector, Outcome.illegal_unit)
        | Scalar.undefined => (vector, Outcome.undefined)
        | Scalar.ok value str =>
          if peek str ≠ Char.ofNat 0 ∧ peek str ≠ '-' ∧ peek str ≠ ',' then
            (vector, Outcome.illegal_separator)
          else
            match store_value vector separator prev_index prev_value index value with
            | none => (vector.set index.toNat value, Outcome.undefined)
            | some vector =>
              let separator := peek str
              if separator = ',' ∨ separator = '-' then
                vector_loop opt fuel str.tail index index value separator vector
              else (vector, Outcome.returned)

/-- The function `parse_vector`: `vector` is the destination as it is before
the call (its length is `vector_length`); the result is the destination as
the function leaves it and the way the function ends. -/
def parse_vector (opt : SANE_Option_Descriptor) (str : List Char) (vector : List Int) :
    List Int × Outcome :=
  vector_loop opt (str.length + 1) str (-1) 0 0 (Char.ofNat 0)
    (List.replicate vector.length 0)

/-- The locals of the loop of `parse_vector` at the head of an iteration, with
the vector memory. -/
structure Cursor where
  str : List Char
  index : Int
  prev_index : Int
  prev_value : Int
  separator : Char
  vector : List Int
  deriving DecidableEq, Repr

/-- The locals when `parse_vector` enters its loop on the literal `str`: the
initializers of the source and the zero-filled destination. -/
def loop_start (str : List Char) (vector : List Int) : Cursor :=
  ⟨str, -1, 0, 0, Char.ofNat 0, List.replicate vector.length 0⟩

/-- The relation `loop_reaches opt c d`: the loop of `parse_vector`, at the
head of an iteration with the locals `c`, is after zero or more complete
iterations at the head of an iteration with the locals `d`.  An iteration is
complete when the index is read and in range, `parse_scalar` accepts the
value, the value is stored (with the interpolation after a dash) and a comma
or a dash follows. -/
inductive loop_reaches (opt : SANE_Option_Descriptor) : Cursor → Cursor → Prop where
  | here (c : Cursor) : loop_reaches opt c c
  | next (c d : Cursor) (i v : Int) (s1 s2 : List Char) (vec : List Int) :
      loop_reaches opt c d →
      read_index d.str d.index = some (i, s1) →
      ¬ (i < 0 ∨ i ≥ wrap32 d.vector.length) →
      parse_scalar opt s1 = Scalar.ok v s2 →
      (peek s2 = ',' ∨ peek s2 = '-') →
      store_value d.vector d.separator d.prev_index d.prev_value i v = some vec →
      loop_reaches opt c ⟨s2.tail, i, i, v, peek s2, vec⟩

/-! ## `check_sane_format` -/

/-- The body of `check_sane_format`: a `switch` on the frame tag.  The
per-channel case ends in `break`; the RGBI/RGB case has no `break` after its
test, so control falls through into the IR/GRAY test, and that one falls
through into `default: break`.  Result 1 accepts, 0 rejects. -/
def check_sane_format (parm : SANE_Parameters) : Int :=
  if parm.format = SANE_FRAME_RED ∨ parm.format = SANE_FRAME_GREEN
      ∨ parm.format = SANE_FRAME_BLUE then
    if parm.depth = 8 then 1 else 0
  else if parm.format = SANE_FRAME_RGBI ∨ parm.format = SANE_FRAME_RGB then
    if parm.depth = 16 ∨ parm.depth = 8 then 1
    -- no break: falls through into the next case
    else if parm.depth = 16 ∨ parm.depth = 8 ∨ parm.depth = 1 then 1
    else 0
  else if parm.format = SANE_FRAME_IR ∨ parm.format = SANE_FRAME_GRAY then
    if parm.depth = 16 ∨ parm.depth = 8 ∨ parm.depth = 1 then 1 else 0
  else 0

/-! ## `scan_to_tiff` -/

/-- The device and allocator as seen by one call of `scan_to_tiff`. -/
structure Capture where
  /-- Answer of the k-th call of `sane_start` (k = 0, 1, ...). -/
  start : Nat → SANE_Status
  /-- Result of `sane_get_parameters`. -/
  parm_status : SANE_Status
  parm : SANE_Parameters
  /-- Whether `malloc` of the chunk buffer succeeds. -/
  malloc_ok : Bool
  /-- Results of the successive `sane_read` calls: status and `len`. -/
  reads : List (SANE_Status × Int)

/-- What one call of `scan_to_tiff` did. -/
structure Page where
  /-- The returned status. -/
  status : SANE_Status
  /-- Number of `sane_start` calls. -/
  starts : Nat
  /-- Number of `sane_read` calls. -/
  read_calls : Nat
  /-- Row arguments of the `TIFFWriteScanline` calls, in call order. -/
  rows : List Int
  /-- Final `total_bytes`. -/
  total_bytes : Int
  /-- Number of times the "read more data than announced" line was printed. -/
  warnings : Nat
  deriving DecidableEq, Repr

/-- Ways a run leaves the modelled behaviour. -/
inductive Fault where
  /-- An integer division by zero (`bytes_per_line` or `pixels_per_line`). -/
  | div_by_zero
  /-- The read script ended while the loop was still asking for data. -/
  | reads_exhausted
  deriving DecidableEq, Repr

/-- The `scan:` label up to the test of the start status: the retry loop of
`scan_to_tiff`.  `tries` is the local of that name, `k` counts the
`sane_start` calls made so far.  The result is `Sum.inl` of the status
returned from the function, or `Sum.inr ()` when control passes on to
`sane_get_parameters`; the second component is the number of calls. -/
def negotiate (start : Nat → SANE_Status) : (tries : Nat) → (k : Nat) →
    (SANE_Status ⊕ Unit) × Nat
  | 0, k => (Sum.inl SANE_Status.IO_ERROR, k)
  | tries + 1, k =>
    let status := start k
    if status = SANE_Status.NO_DOCS then (Sum.inl status, k + 1)
    else if status = SANE_Status.WARMING_UP then negotiate start tries (k + 1)
    else if status ≠ SANE_Status.GOOD then (Sum.inl status, k + 1)
    else (Sum.inr (), k + 1)

/-- The inner `for` loop writing `lines` scanlines: the row arguments
`rows, rows+1, ...` handed to `TIFFWriteScanline`, appended to `acc`. -/
def write_scanlines (lines : Int) (rows : Int) (acc : List Int) : List Int × Int :=
  let n := lines.toNat
  (acc ++ (List.range n).map (fun i => wrap32 (rows + i)), wrap32 (rows + n))

/-- State of the `while (1)` read loop. -/
structure Stream where
  status : SANE_Status
  read_calls : Nat
  rows : Int
  written : List Int
  total_bytes : Int
  deriving DecidableEq, Repr

/-- The `while (1)` loop of `scan_to_tiff` run against the read script. -/
def read_loop (bytes_per_line : Int) : List (SANE_Status × Int) → Stream →
    Except Fault Stream
  | [], _ => Except.error Fault.reads_exhausted
  | (status, len) :: rest, s =>
    if status = SANE_Status.EOF then
      Except.ok { s with status := status, read_calls := s.read_calls + 1 }
    else if status ≠ SANE_Status.GOOD then
      Except.ok { s with status := status, read_calls := s.read_calls + 1 }
    else if bytes_per_line = 0 then Except.error Fault.div_by_zero
    else
      let total := wrap32 (s.total_bytes + len)
      let lines := Int.tdiv len bytes_per_line
      let w := write_scanlines lines s.rows s.written
      read_loop bytes_per_line rest
        { status := status, read_calls := s.read_calls + 1, rows := w.2,
          written := w.1, total_bytes := total }

/-- The initial state of the read loop in `scan_to_tiff`. -/
def stream_init : Stream :=
  { status := SANE_Status.GOOD, read_calls := 0, rows := 0, written := [],
    total_bytes := 0 }

/-- The tail of `scan_to_tiff` after the loop: number of overrun warnings
printed for the given parameters and byte count. -/
def overrun_warnings (parm : SANE_Parameters) (total_bytes : Int) : Nat :=
  let expected_bytes := wrap32 (parm.bytes_per_line * parm.lines)
  let expected_bytes := if parm.lines < 0 then 0 else expected_bytes
  if total_bytes > expected_bytes ∧ expected_bytes ≠ 0 then 1 else 0

/-- One call of `scan_to_tiff` (built with `SANE_HAS_WARMING_UP`).  `verbose`
is the global of that name; the TIFF field setters are calls into the encoder
and leave no trace here except their integer divisions. -/
def scan_to_tiff (verbose : Int) (c : Capture) : Except Fault Page :=
  match negotiate c.start 4 0 with
  | (Sum.inl status, k) =>
    Except.ok { status := status, starts := k, read_calls := 0, rows := [],
                total_bytes := 0, warnings := 0 }
  | (Sum.inr (), k) =>
    let early (status : SANE_Status) : Page :=
      { status := status, starts := k, read_calls := 0, rows := [],
        total_bytes := 0, warnings := 0 }
    if c.parm_status ≠ SANE_Status.GOOD then Except.ok (early c.parm_status)
    else if verbose ≠ 0 ∧ c.parm.pixels_per_line = 0 then
      Except.error Fault.div_by_zero
    else if check_sane_format c.parm = 0 then Except.ok (early SANE_Status.INVAL)
    else if c.parm.depth ≠ 1 ∧
        (c.parm.pixels_per_line = 0 ∨ c.parm.depth = 0) then
      -- tiff_set_fields: ((8 * bytes_per_line) / pixels_per_line) / depth
      Except.error Fault.div_by_zero
    else if c.malloc_ok = false then Except.ok (early SANE_Status.NO_MEM)
    else
      match read_loop c.parm.bytes_per_line c.reads stream_init with
      | Except.error f => Except.error f
      | Except.ok s =>
        Except.ok { status := s.status, starts := k, read_calls := s.read_calls,
                    rows := s.written, total_bytes := s.total_bytes,
                    warnings := overrun_warnings c.parm s.total_bytes }

/-! ## `scan` -/

/-- `#define BATCH_COUNT_UNLIMITED -1`. -/
def BATCH_COUNT_UNLIMITED : Int := -1

/-- The option globals read by `scan`. -/
structure Config where
  verbose : Int
  batch : Int
  batch_prompt : Int
  batch_amount : Int
  batch_start_at : Int
  batch_increment : Int
  multi : Int
  deriving DecidableEq, Repr

/-- What the outside world answers during one iteration of the page loop:
whether `tiff_open` returns a handle (asked only when no container is open),
whether `fgets` returns a line (asked only when prompting), and the device
script for `scan_to_tiff`. -/
structure PageEnv where
  open_ok : Bool
  line : Bool
  capture : Capture

/-- Observable actions of `scan`, in order. -/
inductive Event where
  /-- `tiff_open(output_file, icc_profile, n)`. -/
  | tiff_open (n : Int)
  /-- "Batch terminated, %d pages scanned". -/
  | terminated (pages : Int)
  /-- `scan_to_tiff(image, n, ...)` and the `Page` it produced. -/
  | capture (n : Int) (page : Page)
  /-- `TIFFWriteDirectory(image)`. -/
  | write_directory
  /-- `TIFFClose(image)`. -/
  | close
  /-- `unlink(TIFFFileName(image))`. -/
  | unlink
  /-- "Scanned %d pages". -/
  | scanned (pages : Int)
  deriving DecidableEq, Repr

/-- Locals and globals that the page loop of `scan` updates. -/
structure Loop where
  /-- Whether `image` is non-NULL. -/
  image : Bool
  n : Int
  count : Int
  batch_count : Int
  status : SANE_Status
  events : List Event
  deriving DecidableEq, Repr

/-- The `do ... while` page loop of `scan`, one `PageEnv` per iteration.  The
result is the state on leaving the loop. -/
def page_loop (cfg : Config) : List PageEnv → Loop → Except Fault Loop
  | [], _ => Except.error Fault.reads_exhausted
  | env :: rest, s =>
    -- open file if necessary
    let opened := s.image = false
    let image := if opened then env.open_ok else true
    let ev := if opened then s.events ++ [Event.tiff_open s.n] else s.events
    if image = false then Except.ok { s with image := false, events := ev }
    else if cfg.batch_prompt ≠ 0 ∧ env.line = false then
      Except.ok { s with image := true,
                         events := ev ++ [Event.terminated
                           (wrap32 (s.n - cfg.batch_increment))] }
    else
      match scan_to_tiff cfg.verbose env.capture with
      | Except.error f => Except.error f
      | Except.ok page =>
        let ev := ev ++ [Event.capture s.n page]
        if page.status = SANE_Status.NO_DOCS then
          Except.ok { s with image := true, status := page.status, events := ev }
        else
          -- continue reading when EOF
          let status :=
            if page.status = SANE_Status.EOF then SANE_Status.GOOD else page.status
          if status ≠ SANE_Status.GOOD then
            Except.ok { s with image := true, status := status, events := ev }
          else
            let ev := ev ++ [Event.write_directory]
            let closing := cfg.batch ≠ 0 ∧ cfg.multi = 0
            let s1 : Loop :=
              { image := if closing then false else true,
                n := wrap32 (s.n + cfg.batch_increment),
                count := wrap32 (s.count - 1),
                batch_count := wrap32 (s.batch_count + 1),
                status := status,
                events := if closing then ev ++ [Event.close] else ev }
            if cfg.batch ≠ 0 ∧
                (cfg.batch_amount = BATCH_COUNT_UNLIMITED ∨ s1.count ≠ 0) then
              page_loop cfg rest s1
            else Except.ok s1

/-- The function `scan`: returned status, final `batch_count` and the
actions performed.  `batch_count` is a global that starts at 0. -/
def scan (cfg : Config) (envs : List PageEnv) :
    Except Fault (SANE_Status × Int × List Event) :=
  match page_loop cfg envs
      { image := false, n := cfg.batch_start_at, count := cfg.batch_amount,
        batch_count := 0, status := SANE_Status.GOOD, events := [] } with
  | Except.error f => Except.error f
  | Except.ok s =>
    let ev := if cfg.batch ≠ 0 then s.events ++ [Event.scanned s.batch_count]
              else s.events
    let ev :=
      if s.image then
        (if s.status = SANE_Status.NO_DOCS ∧ (cfg.multi = 0 ∨ s.batch_count = 0)
         then ev ++ [Event.unlink] else ev) ++ [Event.close]
      else ev
    Except.ok (s.status, s.batch_count, ev)

/-! ## Capabilities and the option table -/

/-- Modelled from the spec: capability bit `SANE_CAP_SOFT_SELECT` of `sane.h`
(the option is settable). -/
def SANE_CAP_SOFT_SELECT : Nat := 1
/-- Modelled from the spec: capability bit `SANE_CAP_AUTOMATIC` of `sane.h`
(the option supports automatic mode). -/
def SANE_CAP_AUTOMATIC : Nat := 16
/-- Modelled from the spec: capability bit `SANE_CAP_INACTIVE` of `sane.h`. -/
def SANE_CAP_INACTIVE : Nat := 32

/-- `SANE_OPTION_IS_ACTIVE(cap)` of `sane.h`. -/
def SANE_OPTION_IS_ACTIVE (cap : Nat) : Bool := cap &&& SANE_CAP_INACTIVE = 0

/-- `SANE_OPTION_IS_SETTABLE(cap)` of `sane.h`. -/
def SANE_OPTION_IS_SETTABLE (cap : Nat) : Bool := cap &&& SANE_CAP_SOFT_SELECT ≠ 0

/-- `SANE_NAME_SCAN_RESOLUTION` of `saneopts.h`. -/
def SANE_NAME_SCAN_RESOLUTION : List Char := "resolution".toList
/-- `SANE_NAME_SCAN_SOURCE` of `saneopts.h`. -/
def SANE_NAME_SCAN_SOURCE : List Char := "source".toList
/-- `SANE_NAME_SCAN_TL_X` of `saneopts.h`. -/
def SANE_NAME_SCAN_TL_X : List Char := "tl-x".toList
/-- `SANE_NAME_SCAN_TL_Y` of `saneopts.h`. -/
def SANE_NAME_SCAN_TL_Y : List Char := "tl-y".toList
/-- `SANE_NAME_SCAN_BR_X` of `saneopts.h`. -/
def SANE_NAME_SCAN_BR_X : List Char := "br-x".toList
/-- `SANE_NAME_SCAN_BR_Y` of `saneopts.h`. -/
def SANE_NAME_SCAN_BR_Y : List Char := "br-y".toList

/-- `#define ADF_STR "Automatic Document Feeder"`. -/
def ADF_STR : List Char := "Automatic Document Feeder".toList

/-- An option descriptor as the registry and the option engine read it: the
type and unit of `SANE_Option_Descriptor` together with its `name` (taken to
be non-NULL where `strcmp` reads it), `size` in bytes and `cap` bits. -/
structure Capability extends SANE_Option_Descriptor where
  name : List Char
  size : Int
  cap : Nat
  deriving DecidableEq, Repr

/-- What `fetch_options` leaves behind: the globals `resolution_optind` and
`corners[4]`, and for each table entry its `longName` and `val`. -/
structure Registry where
  resolution_optind : Int
  corners : List Int
  table : List (List Char × Int)
  deriving DecidableEq, Repr

/-- The function `track_corners`. -/
def track_corners (index : Int) (opt : Capability) (corners : List Int) : List Int :=
  if opt.type ≠ SANE_Value_Type.FIXED then corners
  else if opt.size ≠ 4 then corners
  else if opt.unit ≠ SANE_Unit.MM then corners
  else if opt.name = SANE_NAME_SCAN_TL_X then corners.set 0 index
  else if opt.name = SANE_NAME_SCAN_TL_Y then corners.set 1 index
  else if opt.name = SANE_NAME_SCAN_BR_X then corners.set 2 index
  else if opt.name = SANE_NAME_SCAN_BR_Y then corners.set 3 index
  else corners

/-- The table-building loop of `fetch_options`, from option number `i` on. -/
def fetch_loop : List Capability → Int → Registry → Registry
  | [], _, r => r
  | opt :: rest, i, r =>
    if SANE_OPTION_IS_SETTABLE opt.cap = false then fetch_loop rest (i + 1) r
    else if opt.type = SANE_Value_Type.GROUP then fetch_loop rest (i + 1) r
    else
      -- search and save resolution
      let resolution_optind :=
        if (opt.type = SANE_Value_Type.FIXED ∨ opt.type = SANE_Value_Type.INT)
            ∧ opt.size = 4 ∧ opt.unit = SANE_Unit.DPI
            ∧ opt.name = SANE_NAME_SCAN_RESOLUTION
        then i else r.resolution_optind
      fetch_loop rest (i + 1)
        { resolution_optind := resolution_optind,
          corners := track_corners i opt r.corners,
          table := r.table ++ [(opt.name, 1000 + i)] }

/-- The function `fetch_options`: `count_status` answers the query for the
number of options, `malloc_ok` tells whether the table is allocated, `opts`
are the descriptors in enumeration order and `resolution_optind` is the
global before the call (-1 at program start).  `none` is the NULL return. -/
def fetch_options (count_status : SANE_Status) (malloc_ok : Bool)
    (opts : List Capability) (resolution_optind : Int) : Option Registry :=
  if count_status ≠ SANE_Status.GOOD then none
  else if malloc_ok = false then none
  else some (fetch_loop opts 0
    { resolution_optind := resolution_optind, corners := [-1, -1, -1, -1], table := [] })

/-- The options that `fetch_options` records as the resolution knob: those
that pass its two `continue` tests (settable, not a group) and its
"search and save resolution" test. -/
def records_resolution (opt : Capability) : Bool :=
  SANE_OPTION_IS_SETTABLE opt.cap
    ∧ (opt.type = SANE_Value_Type.FIXED ∨ opt.type = SANE_Value_Type.INT)
    ∧ opt.size = 4 ∧ opt.unit = SANE_Unit.DPI ∧ opt.name = SANE_NAME_SCAN_RESOLUTION

/-! ## The option engine -/

/-- The memory `valuep` points to: words or a C string. -/
inductive Value where
  | words (v : List Int)
  | string (s : List Char)
  deriving DecidableEq, Repr

/-- Calls of `sane_control_option` that change the device. -/
inductive Action where
  /-- `SANE_ACTION_SET_AUTO`. -/
  | set_auto (optnum : Int)
  /-- `SANE_ACTION_SET_VALUE`. -/
  | set_value (optnum : Int) (value : Value)
  deriving DecidableEq, Repr

/-- The ways the option engine ends. -/
inductive Applied where
  /-- It returns this status. -/
  | status (s : SANE_Status)
  /-- `parse_vector` ended the process with `exit(1)`. -/
  | exit (o : Outcome)
  /-- Undefined behaviour: a NULL argument is read or a conversion is out of
  range. -/
  | undefined
  deriving DecidableEq, Repr

/-- The bytes at `valuep` as `strncmp` reads them: the characters of a string,
or the bytes of the words, least significant first. -/
def value_bytes : Value → List Char
  | Value.string s => s
  | Value.words v =>
    v.flatMap (fun w =>
      let u := (w % 4294967296).toNat
      [Char.ofNat (u % 256), Char.ofNat (u / 256 % 256),
       Char.ofNat (u / 65536 % 256), Char.ofNat (u / 16777216 % 256)])

/-- The function `sane_set_opt_word`: `v` is the double argument.  The macro
`SANE_FIX(v)` of `sane.h` is `(SANE_Word) (v * (1 << SANE_FIXED_SCALE_SHIFT))`. -/
def sane_set_opt_word (control : Action → SANE_Status) (opt : Option Capability)
    (index : Int) (v : Int) : Applied × List Action :=
  match opt with
  | none => (Applied.status SANE_Status.INVAL, [])
  | some opt =>
    let value : Option Int :=
      if opt.type = SANE_Value_Type.FIXED then
        to_word (fmul v (of_int (1 <<< SANE_FIXED_SCALE_SHIFT)))
      else to_word v
    match value with
    | none => (Applied.undefined, [])
    | some value =>
      let a := Action.set_value index (Value.words [value])
      (Applied.status (control a), [a])

/-- The C string at `valuep` as `strcmp` reads it: the bytes up to the first
NUL. -/
def value_string (valuep : Value) : List Char :=
  (value_bytes valuep).takeWhile (fun c => c ≠ Char.ofNat 0)

/-- The function `set_option` of the source (the name is reserved in Lean):
the result, the global `batch` afterwards and the device calls made.  The
macro `SANE_UNFIX(w)` of `sane.h` is `(double) w / (1 << SANE_FIXED_SCALE_SHIFT)`. -/
def set_backend_option (control : Action → SANE_Status) (opt : Option Capability)
    (optnum : Int) (valuep : Value) (batch : Int) : Applied × Int × List Action :=
  match opt with
  | none => (Applied.status SANE_Status.INVAL, batch, [])
  | some opt =>
    -- auto batch mode
    let batch :=
      if SANE_NAME_SCAN_SOURCE.isPrefixOf opt.name then
        if ADF_STR.isPrefixOf (value_bytes valuep) then 1 else batch
      else batch
    let word : Int := match valuep with
      | Value.words (w :: _) => w
      | _ => 0
    if opt.type = SANE_Value_Type.INT ∧ opt.size = 4 then
      let r := sane_set_opt_word control (some opt) optnum (of_int word)
      (r.1, batch, r.2)
    else if opt.type = SANE_Value_Type.FIXED ∧ opt.size = 4 then
      let r := sane_set_opt_word control (some opt) optnum
        (fdiv (of_int word) (of_int (1 <<< SANE_FIXED_SCALE_SHIFT)))
      (r.1, batch, r.2)
    else
      let a := Action.set_value optnum valuep
      let status := control a
      if status ≠ SANE_Status.GOOD ∧ opt.name = "mode".toList
          ∧ value_string valuep = "binary".toList then
        let a2 := Action.set_value optnum (Value.string "lineart".toList)
        (Applied.status (control a2), batch, [a, a2])
      else (Applied.status status, batch, [a])

/-- `strncasecmp(optarg, word, strlen(optarg)) == 0`: the argument, letters
folded to lower case, is a prefix of the lower-case `word`. -/
def abbreviates (optarg word : List Char) : Bool :=
  (optarg.map Char.toLower).isPrefixOf word

/-- What one call of `process_backend_option` leaves: the way it ends, the
global `batch`, the static `vector_size` and the device calls made. -/
structure Engine where
  result : Applied
  batch : Int
  vector_size : Nat
  actions : List Action
  deriving DecidableEq, Repr

/-- The function `process_backend_option`.  `opt` is the descriptor of option
`optnum` (`none` for NULL), `optarg` the argument text (`none` for NULL),
`alloc_ok` tells whether the `realloc` or `malloc` the call may attempt
succeeds, `batch` is the global and `vector_size` the static of that name
(the scratch vector is only reallocated when it has to grow). -/
def process_backend_option (control : Action → SANE_Status) (alloc_ok : Bool)
    (opt : Option Capability) (optnum : Int) (optarg : Option (List Char))
    (batch : Int) (vector_size : Nat) : Engine :=
  let apply (valuep : Value) (vector_size : Nat) : Engine :=
    let r := set_backend_option control opt optnum valuep batch
    { result := r.1, batch := r.2.1, vector_size := vector_size, actions := r.2.2 }
  let ended (a : Applied) : Engine :=
    { result := a, batch := batch, vector_size := vector_size, actions := [] }
  match opt with
  | none => ended (Applied.status SANE_Status.INVAL)
  | some d =>
    if SANE_OPTION_IS_ACTIVE d.cap = false then ended (Applied.status SANE_Status.GOOD)
    else if d.cap &&& SANE_CAP_AUTOMATIC ≠ 0 ∧ optarg.isSome
        ∧ ((optarg.getD []).take 4).map Char.toLower = "auto".toList then
      let a := Action.set_auto optnum
      { result := Applied.status (control a), batch := batch,
        vector_size := vector_size, actions := [a] }
    else
      match d.type with
      | SANE_Value_Type.BOOL =>
        match optarg with
        | none => apply (Value.words [1]) vector_size
        | some arg =>
          if abbreviates arg "yes".toList then apply (Value.words [1]) vector_size
          else if abbreviates arg "no".toList then apply (Value.words [0]) vector_size
          else ended (Applied.status SANE_Status.INVAL)
      | SANE_Value_Type.INT | SANE_Value_Type.FIXED =>
        -- ensure vector is long enough
        let vector_length := (Int.tdiv d.size 4).toNat
        if vector_size < vector_length ∧ alloc_ok = false then
          { result := Applied.status SANE_Status.NO_MEM, batch := batch,
            vector_size := vector_length, actions := [] }
        else
          let vector_size := max vector_size vector_length
          match optarg with
          | none =>
            { result := Applied.undefined, batch := batch, vector_size := vector_size,
              actions := [] }
          | some arg =>
            let parsed := parse_vector d.toSANE_Option_Descriptor arg
              (List.replicate vector_length 0)
            match parsed.2 with
            | Outcome.returned => apply (Value.words parsed.1) vector_size
            | Outcome.undefined =>
              { result := Applied.undefined, batch := batch, vector_size := vector_size,
                actions := [] }
            | o =>
              { result := Applied.exit o, batch := batch, vector_size := vector_size,
                actions := [] }
      | SANE_Value_Type.STRING =>
        if alloc_ok = false then ended (Applied.status SANE_Status.NO_MEM)
        else
          match optarg with
          | none => ended Applied.undefined
          | some arg => apply (Value.string (arg.take (d.size - 1).toNat)) vector_size
      | SANE_Value_Type.BUTTON => apply (Value.words [0]) vector_size
      | SANE_Value_Type.GROUP => ended (Applied.status SANE_Status.INVAL)

/-! ## `process_backend_options` and `main` -/

/-- The `enum modes` of the source. -/
inductive Mode where
  | MODE_NONE
  | MODE_SCAN
  | MODE_LIST
  | MODE_ERROR
  | MODE_STOP
  | MODE_VERSION
  deriving DecidableEq, Repr

/-- `OPT_HELP` of `enum optio`. -/
def OPT_HELP : Int := 1
/-- `OPT_SCAN` of `enum optio`. -/
def OPT_SCAN : Int := 4
/-- `OPT_DEVICE` of `enum optio`. -/
def OPT_DEVICE : Int := 6

/-- State of the option loop of `process_backend_options`. -/
structure Options where
  mode : Mode
  batch : Int
  vector_size : Nat
  actions : List Action
  deriving DecidableEq, Repr

/-- The `while ((optrc = poptGetNextOpt(optc)) > 0)` loop of
`process_backend_options` and the test after it.  `popt` lists what
`poptGetNextOpt` returns with the argument `poptGetOptArg` gives; an empty
list stands for the final -1.  The result is `Sum.inl` of the `parse_vector`
outcome when that function ended the process, else the state at return. -/
def option_loop (control : Action → SANE_Status) (alloc_ok : Bool)
    (opts : List Capability) (devname : List Char) :
    List (Int × Option (List Char)) → Options → Outcome ⊕ Option Options
  | [], s => Sum.inr (some s)
  | (optrc, arg) :: rest, s =>
    if optrc ≤ 0 then
      if optrc < -1 then Sum.inr (some { s with mode := Mode.MODE_STOP })
      else Sum.inr (some s)
    else
      let applied : Option Engine :=
        if optrc ≥ 1000 then
          some (process_backend_option control alloc_ok
            (if 0 ≤ optrc - 1000 then opts[(optrc - 1000).toNat]? else none)
            (optrc - 1000) arg s.batch s.vector_size)
        else none
      match applied with
      | some { result := Applied.exit o, .. } => Sum.inl o
      | some { result := Applied.undefined, .. } => Sum.inr none
      | some { result := Applied.status st, batch := b, vector_size := vs, actions := as } =>
        let s := { s with batch := b, vector_size := vs, actions := s.actions ++ as }
        if st ≠ SANE_Status.GOOD then Sum.inr (some { s with mode := Mode.MODE_STOP })
        else option_loop control alloc_ok opts devname rest s
      | none =>
        if optrc = OPT_HELP then Sum.inr (some { s with mode := Mode.MODE_STOP })
        else
          let s := if optrc = OPT_SCAN then { s with mode := Mode.MODE_SCAN } else s
          if optrc = OPT_DEVICE ∧ arg.isSome ∧ arg ≠ some devname then
            Sum.inr (some { s with mode := Mode.MODE_STOP })
          else option_loop control alloc_ok opts devname rest s

/-- The function `process_backend_options`: `none` when a NULL argument was
read or a conversion was undefined, `Sum.inl` when `parse_vector` ended the
process, else the returned mode with the globals and the registry (`none`
when `fetch_options` returned NULL). -/
def process_backend_options (count_status : SANE_Status) (table_ok : Bool)
    (control : Action → SANE_Status) (alloc_ok : Bool) (opts : List Capability)
    (devname : List Char) (popt : List (Int × Option (List Char)))
    (mode : Mode) (batch : Int) (resolution_optind : Int) :
    Outcome ⊕ Option (Options × Option Registry) :=
  match fetch_options count_status table_ok opts resolution_optind with
  | none =>
    Sum.inr (some ({ mode := Mode.MODE_STOP, batch := batch, vector_size := 0,
                     actions := [] }, none))
  | some reg =>
    match option_loop control alloc_ok opts devname popt
        { mode := mode, batch := batch, vector_size := 0, actions := [] } with
    | Sum.inl o => Sum.inl o
    | Sum.inr none => Sum.inr none
    | Sum.inr (some s) => Sum.inr (some (s, some reg))

/-- Everything `main` takes from outside. -/
structure Run where
  /-- The mode returned by `process_cmd_line`. -/
  cmd_mode : Mode
  /-- The globals after the command line has been read. -/
  cfg : Config
  /-- `devname` after `find_suitable_device` (`none` for NULL). -/
  devname : Option (List Char)
  /-- Status of `sane_open`. -/
  open_status : SANE_Status
  /-- Status of the query for the number of options. -/
  count_status : SANE_Status
  /-- Whether the option table is allocated. -/
  table_ok : Bool
  /-- Status the device gives to each setting call. -/
  control : Action → SANE_Status
  /-- Whether the allocations of the option engine succeed. -/
  alloc_ok : Bool
  /-- The option descriptors of the device, in enumeration order. -/
  opts : List Capability
  /-- The options `poptGetNextOpt` delivers in the second pass. -/
  popt : List (Int × Option (List Char))
  /-- The global `paper`. -/
  paper : Option (List Char)
  /-- Width and height in points that `paperinfo` finds for `paper`, as
  doubles (`none` for an unknown name). -/
  paper_size : Option (Int × Int)
  /-- The pages offered to `scan`. -/
  envs : List PageEnv

/-- How `main` ends. -/
inductive Ended where
  /-- `exit(rc)`; `scan` is the result of `scan` when it was called. -/
  | exit (rc : Int) (batch : Int) (actions : List Action)
      (scan : Option (SANE_Status × Int × List Event))
  /-- A fault inside `scan`. -/
  | fault (f : Fault)
  /-- A NULL argument was read or a conversion was undefined. -/
  | undefined
  deriving DecidableEq, Repr

/-- The function `set_scanning_area`: the two device calls, or `none` when a
conversion is undefined.  The statuses are discarded by the source. -/
def set_scanning_area (control : Action → SANE_Status) (opts : List Capability)
    (corners : List Int) (width height : Int) : Option (List Action) :=
  let mm (points : Int) : Option Int :=
    to_word (fmul (fmul (fdiv points (of_decimal 720 (-1))) (of_int 10))
      (of_decimal 254 (-2)))
  let descriptor (index : Int) : Option Capability :=
    if 0 ≤ index then opts[index.toNat]? else none
  match mm width, mm height with
  | some w, some h =>
    let c2 := corners.getD 2 (-1)
    let c3 := corners.getD 3 (-1)
    let r1 := sane_set_opt_word control (descriptor c2) c2 (of_int w)
    let r2 := sane_set_opt_word control (descriptor c3) c3 (of_int h)
    if r1.1 = Applied.undefined ∨ r2.1 = Applied.undefined then none
    else some (r1.2 ++ r2.2)
  | _, _ => none

/-- The `if (paper)` block of `main`, given the corner slots: `none` when
`main` leaves through `goto end` (unknown paper name, or a bottom-right
corner slot missing), `some none` when a conversion in `set_scanning_area` is
undefined, else the device calls made (none when no paper was requested). -/
def requested_area (r : Run) (corners : List Int) : Option (Option (List Action)) :=
  match r.paper with
  | none => some (some [])
  | some _ =>
    match r.paper_size with
    | none => none
    | some (width, height) =>
      if corners.getD 2 (-1) = -1 ∨ corners.getD 3 (-1) = -1 then none
      else some (set_scanning_area r.control r.opts corners width height)

/-- The function `main`, from the call of `process_cmd_line` on. -/
def main (r : Run) : Ended :=
  if r.cmd_mode = Mode.MODE_VERSION then Ended.exit 0 r.cfg.batch [] none
  else if r.cmd_mode = Mode.MODE_STOP then Ended.exit 0 r.cfg.batch [] none
  else
    match r.devname with
    | none => Ended.exit 0 r.cfg.batch [] none
    | some devname =>
      -- open
      if r.open_status ≠ SANE_Status.GOOD then Ended.exit 0 r.cfg.batch [] none
      else
        -- handle backend options
        match process_backend_options r.count_status r.table_ok r.control r.alloc_ok
            r.opts devname r.popt r.cmd_mode r.cfg.batch (-1) with
        | Sum.inl _ => Ended.exit 1 r.cfg.batch [] none
        | Sum.inr none => Ended.undefined
        | Sum.inr (some (s, reg)) =>
          if s.mode = Mode.MODE_STOP then Ended.exit 0 s.batch s.actions none
          else if s.mode ≠ Mode.MODE_SCAN then Ended.exit 0 s.batch s.actions none
          else
            let corners := match reg with
              | some reg => reg.corners
              | none => [-1, -1, -1, -1]
            -- set scanning area size
            match requested_area r corners with
            | none => Ended.exit 0 s.batch s.actions none
            | some none => Ended.undefined
            | some (some area_actions) =>
              -- scan
              match scan { r.cfg with batch := s.batch } r.envs with
              | Except.error f => Ended.fault f
              | Except.ok (status, batch_count, events) =>
                let rc : Int :=
                  if s.batch ≠ 0 ∧ batch_count = 0 ∧ status = SANE_Status.NO_DOCS
                  then 2 else 0
                Ended.exit rc s.batch (s.actions ++ area_actions)
                  (some (status, batch_count, events))

/-! ## Reading the actions of `scan` -/

/-- The page numbers handed to `scan_to_tiff`, in call order. -/
def captured_pages : List Event → List Int
  | [] => []
  | Event.capture n _ :: rest => n :: captured_pages rest
  | _ :: rest => captured_pages rest

/-- The statuses returned by the calls of `scan_to_tiff`, in call order. -/
def captured_statuses : List Event → List SANE_Status
  | [] => []
  | Event.capture _ p :: rest => p.status :: captured_statuses rest
  | _ :: rest => captured_statuses rest

/-- Number of pages finalized (`TIFFWriteDirectory`) into the container that
was opened last, counted from `acc` pages before the first event. -/
def container_pages : List Event → Nat → Nat
  | [], acc => acc
  | Event.tiff_open _ :: rest, _ => container_pages rest 0
  | Event.write_directory :: rest, acc => container_pages rest (acc + 1)
  | _ :: rest, acc => container_pages rest acc

/-- A page that is captured: the container opens, the operator confirms when
prompting is enabled, and `scan_to_tiff` returns a page with the end-of-data
status. -/
def page_succeeds (cfg : Config) (env : PageEnv) : Prop :=
  env.open_ok = true ∧ (cfg.batch_prompt ≠ 0 → env.line = true)
    ∧ ∃ p, scan_to_tiff cfg.verbose env.capture = Except.ok p ∧ p.status = SANE_Status.EOF

/-- State of the page loop of `scan` at the end of an iteration that wrote
page `page`: the container is closed in one-file-per-page batch mode, and
`n`, `count` and `batch_count` are updated. -/
def next_page (cfg : Config) (s : Loop) (page : Page) : Loop :=
  let opened := if s.image = false then s.events ++ [Event.tiff_open s.n] else s.events
  let ev := opened ++ [Event.capture s.n page] ++ [Event.write_directory]
  { image := if cfg.batch ≠ 0 ∧ cfg.multi = 0 then false else true,
    n := wrap32 (s.n + cfg.batch_increment),
    count := wrap32 (s.count - 1),
    batch_count := wrap32 (s.batch_count + 1),
    status := SANE_Status.GOOD,
    events := if cfg.batch ≠ 0 ∧ cfg.multi = 0 then ev ++ [Event.close] else ev }

/-- The stores `vector[i] = v0; vector[i + 1] = v1; ...` of consecutive value
specs. -/
def store_from (vector : List Int) (i : Nat) : List Int → List Int
  | [] => vector
  | v :: vs => store_from (vector.set i v) (i + 1) vs

/-- The whole numbers `n`, `ns` written in decimal and joined by commas. -/
def comma_literal (n : Nat) : List Nat → List Char
  | [] => int_literal n
  | k :: ks => int_literal n ++ ',' :: comma_literal k ks

/-- A comma-separated list of scalars as the loop of `parse_vector` meets it:
`comma_list opt str vals` holds when `parse_scalar` reads the first value of
`vals` at the start of `str` and stops either at the end of the text or at a
comma that is followed by the rest of the list. -/
inductive comma_list (opt : SANE_Option_Descriptor) : List Char → List Int → Prop where
  | last (str : List Char) (v : Int) :
      parse_scalar opt str = Scalar.ok v [] → comma_list opt str [v]
  | next (str rest : List Char) (v : Int) (vals : List Int) :
      parse_scalar opt str = Scalar.ok v (',' :: rest) → comma_list opt rest vals →
      comma_list opt str (v :: vals)

/-! ## Concrete device scripts -/

/-- A device that answers WARMING_UP to every `sane_start`. -/
def frozen_capture : Capture :=
  { start := fun _ => SANE_Status.WARMING_UP, parm_status := SANE_Status.GOOD,
    parm := ⟨SANE_FRAME_GRAY, 100, 8, 10, 10⟩, malloc_ok := true,
    reads := [(SANE_Status.GOOD, 500), (SANE_Status.GOOD, 500), (SANE_Status.EOF, 0)] }

/-- A device that warms up twice and then starts; 100 rows of 10 bytes are
declared and `reads` is the read script. -/
def page_capture (reads : List (SANE_Status × Int)) : Capture :=
  { start := fun k => if k < 2 then SANE_Status.WARMING_UP else SANE_Status.GOOD,
    parm_status := SANE_Status.GOOD,
    parm := ⟨SANE_FRAME_GRAY, 100, 8, 10, 10⟩, malloc_ok := true,
    reads := reads }

/-- A device that declares zero rows of 10 bytes and then delivers 10 bytes. -/
def zero_rows_capture : Capture :=
  { start := fun _ => SANE_Status.GOOD, parm_status := SANE_Status.GOOD,
    parm := ⟨SANE_FRAME_GRAY, 0, 8, 10, 10⟩, malloc_ok := true,
    reads := [(SANE_Status.GOOD, 10), (SANE_Status.EOF, 0)] }

/-- A single-page run: batch mode off. -/
def single_page_config : Config :=
  { verbose := 0, batch := 0, batch_prompt := 0, batch_amount := BATCH_COUNT_UNLIMITED,
    batch_start_at := 1, batch_increment := 1, multi := 1 }

/-- A page that is delivered in full: 100 rows of 10 bytes in two chunks. -/
def full_page : PageEnv :=
  ⟨true, true,
    page_capture [(SANE_Status.GOOD, 500), (SANE_Status.GOOD, 500), (SANE_Status.EOF, 0)]⟩

/-- A feeder that has run out of documents: `sane_start` answers NO_DOCS. -/
def empty_feeder : PageEnv :=
  ⟨true, true,
    { start := fun _ => SANE_Status.NO_DOCS, parm_status := SANE_Status.GOOD,
      parm := ⟨SANE_FRAME_GRAY, 100, 8, 10, 10⟩, malloc_ok := true, reads := [] }⟩

/-- What `scan_to_tiff` returns for `empty_feeder`. -/
def no_docs_page : Page :=
  { status := SANE_Status.NO_DOCS, starts := 1, read_calls := 0, rows := [],
    total_bytes := 0, warnings := 0 }

/-- An operator who ends the input at the prompt. -/
def end_of_input : PageEnv := ⟨true, false, frozen_capture⟩

/-- A batch run of three pages numbered from 1 in steps of 2. -/
def three_page_config : Config :=
  { verbose := 0, batch := 1, batch_prompt := 0, batch_amount := 3,
    batch_start_at := 1, batch_increment := 2, multi := 1 }

/-- A batch run of three pages, one container per page. -/
def one_per_page_config : Config :=
  { verbose := 0, batch := 1, batch_prompt := 0, batch_amount := 3,
    batch_start_at := 1, batch_increment := 2, multi := 0 }

/-- A batch run with the amount 0. -/
def zero_amount_config : Config :=
  { verbose := 0, batch := 1, batch_prompt := 0, batch_amount := 0,
    batch_start_at := 1, batch_increment := 1, multi := 1 }

/-- A prompting batch run whose pages are numbered from 5. -/
def prompting_config : Config :=
  { verbose := 0, batch := 1, batch_prompt := 1, batch_amount := BATCH_COUNT_UNLIMITED,
    batch_start_at := 5, batch_increment := 1, multi := 1 }

/-- A run of `main` that reaches `scan`: the device opens and has no options,
the command line asks for a scan and names no paper. -/
def scan_run (cfg : Config) (envs : List PageEnv) : Run :=
  { cmd_mode := Mode.MODE_SCAN, cfg := cfg, devname := some "test:0".toList,
    open_status := SANE_Status.GOOD, count_status := SANE_Status.GOOD, table_ok := true,
    control := fun _ => SANE_Status.GOOD, alloc_ok := true, opts := [], popt := [],
    paper := none, paper_size := none, envs := envs }

/-- A settable Int-typed option of one word with unit DPI. -/
def dpi_option (name : String) : Capability :=
  { type := SANE_Value_Type.INT, unit := SANE_Unit.DPI, name := name.toList, size := 4,
    cap := SANE_CAP_SOFT_SELECT }

/-- The capture-source option of a device: a string of up to 31 characters,
with the capability bits `cap`. -/
def source_option (cap : Nat) : Capability :=
  { type := SANE_Value_Type.STRING, unit := SANE_Unit.NONE, name := SANE_NAME_SCAN_SOURCE,
    size := 32, cap := cap }

/-- A run whose device has the one option "resolution" and rejects every
value; the command line sets that option to `arg`. -/
def option_run (arg : String) : Run :=
  { scan_run single_page_config [full_page] with
    opts := [dpi_option "resolution"], popt := [(1000, some arg.toList)],
    control := fun _ => SANE_Status.INVAL }

/-- A settable word-sized option with the given type, unit and name. -/
def word_option (type : SANE_Value_Type) (unit : SANE_Unit) (name : String) : Capability :=
  { type := type, unit := unit, name := name.toList, size := 4,
    cap := SANE_CAP_SOFT_SELECT }

/-! ## Rounding to binary64 -/

theorem pow2_eq (s : Nat) : pow2 s = 2 ^ s := by
  simp [pow2, Nat.shiftLeft_eq]

theorem pow2_pos (s : Nat) : 0 < pow2 s := by
  rw [pow2_eq]; positivity

theorem UNIT_eq : UNIT = 2 ^ 1074 := pow2_eq 1074

theorem bit_length_aux_le_iff (fuel n k : Nat) (h : n ≤ fuel) :
    bit_length_aux fuel n ≤ k ↔ n < 2 ^ k := by
  induction fuel generalizing n k with
  | zero =>
    have : n = 0 := by omega
    subst this
    simp [bit_length_aux]
  | succ f ih =>
    unfold bit_length_aux
    by_cases h0 : n = 0
    · subst h0; simp
    · simp only [h0, if_false]
      cases k with
      | zero => simp; omega
      | succ k =>
        have hf : n / 2 ≤ f := by omega
        rw [Nat.add_le_add_iff_right, ih (n / 2) k hf, pow_succ]
        omega

theorem bit_length_le_iff (n k : Nat) : bit_length n ≤ k ↔ n < 2 ^ k :=
  bit_length_aux_le_iff n n k le_rfl

theorem round_half_even_error (n : Int) (d : Nat) (hd : 0 < d) :
    -(d : Int) ≤ 2 * (round_half_even n d * d - n)
    ∧ 2 * (round_half_even n d * d - n) ≤ d := by
  have hd' : (0 : Int) < d := by exact_mod_cast hd
  have h1 := Int.ediv_add_emod n d
  have h2 := Int.emod_nonneg n (ne_of_gt hd')
  have h3 := Int.emod_lt_of_pos n hd'
  unfold round_half_even
  simp only
  generalize n / (d : Int) = q at *
  generalize n % (d : Int) = r at *
  have e1 : (q + 1) * (d : Int) = d * q + d := by ring
  have e0 : q * (d : Int) = d * q := by ring
  generalize hx : (d : Int) * q = x at *
  split_ifs
  · rw [e0]; omega
  · rw [e1]; omega
  · rw [e0]; omega
  · rw [e1]; omega

theorem round_half_even_exact (m : Int) (d : Nat) (hd : 0 < d) :
    round_half_even (m * d) d = m := by
  have hd' : (0 : Int) < d := by exact_mod_cast hd
  unfold round_half_even
  have h1 : m * (d : Int) / d = m := Int.mul_ediv_cancel m (ne_of_gt hd')
  have h2 : m * (d : Int) % d = 0 := Int.mul_emod_left m d
  simp only [h1, h2]
  simp [hd']

theorem round_double_shift_le (n : Int) (d k : Nat) (hd : 0 < d)
    (hn : n.natAbs < d * 2 ^ k) : bit_length (n.natAbs / d) - 53 ≤ k - 53 := by
  have h1 : n.natAbs / d < 2 ^ k := by
    rw [Nat.div_lt_iff_lt_mul hd]; rwa [Nat.mul_comm]
  have h2 := (bit_length_le_iff (n.natAbs / d) k).mpr h1
  omega

theorem round_double_error (n : Int) (d k : Nat) (hd : 0 < d)
    (hn : n.natAbs < d * 2 ^ k) :
    -((d : Int) * 2 ^ (k - 53)) ≤ 2 * (round_double n d * d - n)
    ∧ 2 * (round_double n d * d - n) ≤ (d : Int) * 2 ^ (k - 53) := by
  have hs := round_double_shift_le n d k hd hn
  unfold round_double
  simp only
  generalize bit_length (n.natAbs / d) - 53 = s at *
  have hD : 0 < d * pow2 s := Nat.mul_pos hd (pow2_pos s)
  have he := round_half_even_error n (d * pow2 s) hD
  have hle : ((d * pow2 s : Nat) : Int) ≤ (d : Int) * 2 ^ (k - 53) := by
    rw [pow2_eq]
    push_cast
    have : (2 : Int) ^ s ≤ 2 ^ (k - 53) := pow_le_pow_right₀ (by norm_num) hs
    have hd' : (0 : Int) ≤ d := by positivity
    nlinarith
  have e : round_half_even n (d * pow2 s) * (pow2 s : Int) * (d : Int)
      = round_half_even n (d * pow2 s) * ((d * pow2 s : Nat) : Int) := by
    push_cast; ring
  rw [e]
  constructor <;> linarith [he.1, he.2]

theorem round_double_exact (m : Int) (j d : Nat) (hd : 0 < d)
    (hm : m.natAbs < 2 ^ 53) : round_double (m * 2 ^ j * d) d = m * 2 ^ j := by
  have hn : (m * 2 ^ j * (d : Int)).natAbs = m.natAbs * 2 ^ j * d := by
    simp [Int.natAbs_mul, Int.natAbs_pow]
  have hlt : (m * 2 ^ j * (d : Int)).natAbs < d * 2 ^ (53 + j) := by
    rw [hn, pow_add]
    have : m.natAbs * 2 ^ j < 2 ^ 53 * 2 ^ j :=
      Nat.mul_lt_mul_of_pos_right hm (by positivity)
    calc m.natAbs * 2 ^ j * d = d * (m.natAbs * 2 ^ j) := by ring
      _ < d * (2 ^ 53 * 2 ^ j) := Nat.mul_lt_mul_of_pos_left this hd
  have hs := round_double_shift_le _ d (53 + j) hd hlt
  unfold round_double
  simp only
  generalize bit_length ((m * 2 ^ j * (d : Int)).natAbs / d) - 53 = s at *
  have hsj : s ≤ j := by omega
  have e : m * 2 ^ j * (d : Int) = (m * 2 ^ (j - s)) * ((d * pow2 s : Nat) : Int) := by
    rw [pow2_eq]; push_cast
    have : (2 : Int) ^ j = 2 ^ (j - s) * 2 ^ s := by
      rw [← pow_add]; congr 1; omega
    rw [this]; ring
  rw [e, round_half_even_exact _ _ (Nat.mul_pos hd (pow2_pos s)), pow2_eq]
  push_cast
  rw [mul_assoc, ← pow_add]
  congr 2; omega

theorem UNIT_cast : (UNIT : Int) = 2 ^ 1074 := by
  rw [UNIT_eq]; simp only [Nat.cast_pow, Nat.cast_ofNat]

theorem of_int_exact (n : Int) (h : n.natAbs < 2 ^ 53) : of_int n = n * 2 ^ 1074 := by
  have := round_double_exact n 1074 1 (by norm_num) h
  unfold of_int
  rw [UNIT_cast]
  rwa [Nat.cast_one, mul_one] at this

theorem half_eq : half = 2 ^ 1073 := by
  have := round_double_exact 1 1073 10 (by norm_num) (by norm_num)
  unfold half of_decimal
  simp only [show ¬ ((0 : Int) ≤ -1) by norm_num, if_false, UNIT_cast]
  have e : (5 : Int) * 2 ^ 1074 = 1 * 2 ^ 1073 * ((10 : Nat) : Int) := by
    rw [show (1074 : Nat) = 1073 + 1 by norm_num, pow_succ]
    generalize (2 : Int) ^ 1073 = x
    push_cast; ring
  have e2 : (10 : Nat) ^ (-(-1 : Int)).toNat = 10 := by decide
  rw [e, e2, this, one_mul]

theorem inch_eq : of_decimal 254 (-1) = 7149464408450662 * 2 ^ 1026 := by
  have h : of_decimal 254 (-1) = 7149464408450662 * (pow2 1026 : Int) := by decide!
  rw [h, pow2_eq]
  simp only [Nat.cast_pow, Nat.cast_ofNat]

set_option exponentiation.threshold 2000 in
theorem inch_arith (N p s : Int) (hN : 0 ≤ N) (hN2 : N ≤ 84546600)
    (h1 : -(2 ^ 1053) ≤ 2 * (p - N * (7149464408450662 * 2 ^ 1026)))
    (h1b : 2 * (p - N * (7149464408450662 * 2 ^ 1026)) ≤ 2 ^ 1053)
    (h2 : -(2 ^ 1054) ≤ 2 * (s - (p + 2 ^ 1073)))
    (h2b : 2 * (s - (p + 2 ^ 1073)) ≤ 2 ^ 1054) :
    s / 2 ^ 1074 = (254 * N + 5) / 10 ∧ 0 ≤ s := by
  norm_num at h1 h1b h2 h2b ⊢
  omega

/-- Error of a double product one of whose factors is a whole number. -/
theorem fmul_int_error (a y : Int) (k : Nat) (h : (a * y).natAbs < 2 ^ k) :
    -(2 ^ (k - 53)) ≤ 2 * (fmul (a * 2 ^ 1074) y - a * y)
    ∧ 2 * (fmul (a * 2 ^ 1074) y - a * y) ≤ 2 ^ (k - 53) := by
  have hU : (0 : Nat) < UNIT := pow2_pos 1074
  have hU' : (0 : Int) < (UNIT : Int) := by exact_mod_cast hU
  have hn : (a * 2 ^ 1074 * y).natAbs < UNIT * 2 ^ k := by
    have e : a * 2 ^ 1074 * y = (UNIT : Int) * (a * y) := by rw [UNIT_cast]; ring
    rw [e, Int.natAbs_mul, Int.natAbs_ofNat]
    exact Nat.mul_lt_mul_of_pos_left h hU
  have e1 := round_double_error (a * 2 ^ 1074 * y) UNIT k hU hn
  have hp : fmul (a * 2 ^ 1074) y = round_double (a * 2 ^ 1074 * y) UNIT := rfl
  rw [← hp] at e1
  generalize fmul (a * 2 ^ 1074) y = p at *
  have e2 : 2 * (p * (UNIT : Int) - a * 2 ^ 1074 * y)
      = (UNIT : Int) * (2 * (p - a * y)) := by rw [UNIT_cast]; ring
  rw [e2] at e1
  constructor
  · have := e1.1
    rw [← mul_neg] at this
    exact le_of_mul_le_mul_left this hU'
  · exact le_of_mul_le_mul_left e1.2 hU'

/-- Error of a double sum. -/
theorem fadd_error (x y : Int) (k : Nat) (h : (x + y).natAbs < 2 ^ k) :
    -(2 ^ (k - 53)) ≤ 2 * (fadd x y - (x + y))
    ∧ 2 * (fadd x y - (x + y)) ≤ 2 ^ (k - 53) := by
  have e1 := round_double_error (x + y) 1 k (by norm_num) (by simpa using h)
  have hs : fadd x y = round_double (x + y) 1 := rfl
  rw [← hs] at e1
  simpa using e1

set_option exponentiation.threshold 2000 in
theorem inch_value (N : Int) (hN : 0 ≤ N) (hN2 : N ≤ 84546600) :
    to_word (fadd (fmul (of_int N) (of_decimal 254 (-1))) half)
      = some ((254 * N + 5) / 10) := by
  have hv : of_int N = N * 2 ^ 1074 := of_int_exact N (by norm_num; omega)
  rw [hv, inch_eq, half_eq]
  obtain ⟨h1a, h1b⟩ :=
    fmul_int_error N (7149464408450662 * 2 ^ 1026) 1106 (by norm_num; omega)
  generalize fmul (N * 2 ^ 1074) (7149464408450662 * 2 ^ 1026) = p at *
  simp only [Nat.reduceSub] at h1a h1b
  have hsum : (p + 2 ^ 1073).natAbs < 2 ^ 1107 := by
    norm_num at h1a h1b ⊢
    omega
  obtain ⟨h2a, h2b⟩ := fadd_error p (2 ^ 1073) 1107 hsum
  generalize fadd p (2 ^ 1073) = s at *
  simp only [Nat.reduceSub] at h2a h2b
  have key := inch_arith N p s hN hN2 h1a h1b h2a h2b
  unfold to_word
  simp only
  rw [Int.tdiv_eq_ediv key.2 (Int.ofNat_nonneg UNIT), UNIT_cast, key.1]
  have : -2147483648 ≤ (254 * N + 5) / 10 ∧ (254 * N + 5) / 10 < 2147483648 := by omega
  simp [this]

theorem to_word_int (x : Int) (h1 : -2147483648 ≤ x) (h2 : x < 2147483648) :
    to_word (x * 2 ^ 1074) = some x := by
  unfold to_word
  simp only
  have hU : ((UNIT : Nat) : Int) ≠ 0 := by rw [UNIT_cast]; positivity
  have e : Int.tdiv (x * 2 ^ 1074) (UNIT : Int) = x := by
    rw [← UNIT_cast]; exact Int.mul_tdiv_cancel x hU
  rw [e]
  simp [h1, h2]

theorem fadd_exact (x y : Int) (h : (x + y).natAbs < 2 ^ 53) :
    fadd (x * 2 ^ 1074) (y * 2 ^ 1074) = (x + y) * 2 ^ 1074 := by
  have := round_double_exact (x + y) 1074 1 (by norm_num) h
  unfold fadd
  rw [← this]
  congr 1
  generalize (2 : Int) ^ 1074 = u
  push_cast; ring

theorem fsub_exact (x y : Int) (h : (x - y).natAbs < 2 ^ 53) :
    fsub (x * 2 ^ 1074) (y * 2 ^ 1074) = (x - y) * 2 ^ 1074 := by
  have := round_double_exact (x - y) 1074 1 (by norm_num) h
  unfold fsub
  rw [← this]
  congr 1
  generalize (2 : Int) ^ 1074 = u
  push_cast; ring

theorem fdiv_exact (c n : Int) (hn : 0 < n) (hc : c.natAbs < 2 ^ 53) :
    fdiv (c * n * 2 ^ 1074) (n * 2 ^ 1074) = c * 2 ^ 1074 := by
  have hy : (0 : Int) < n * 2 ^ 1074 := by positivity
  have hd : 0 < (n * 2 ^ 1074 : Int).natAbs := Int.natAbs_pos.mpr (ne_of_gt hy)
  have := round_double_exact c 1074 (n * 2 ^ 1074 : Int).natAbs hd hc
  unfold fdiv
  simp only [ne_of_gt hy, hy, if_true, if_false]
  rw [← this]
  congr 1
  rw [Int.natAbs_of_nonneg (le_of_lt hy), UNIT_cast]
  generalize (2 : Int) ^ 1074 = u
  ring

/-- With an integral slope every sum of the interpolation is exact. -/
theorem ramp_exact (a c : Int) (k : Nat)
    (h : ∀ j, j ≤ k → (a + c * j).natAbs < 2 ^ 53) :
    ramp (c * 2 ^ 1074) (a * 2 ^ 1074) k = (a + c * k) * 2 ^ 1074 := by
  induction k with
  | zero => simp only [ramp, Nat.cast_zero, mul_zero, add_zero]
  | succ k ih =>
    have h1 := ih (fun j hj => h j (by omega))
    have h2 := h (k + 1) le_rfl
    simp only [ramp, h1]
    have e : a + c * ((k + 1 : Nat) : Int) = (a + c * k) + c := by push_cast; ring
    rw [e] at h2 ⊢
    exact fadd_exact _ _ h2

/-! ## Reading integers -/

theorem digitChar_isDigit (d : Nat) (h : d < 10) :
    (Nat.digitChar d).isDigit = true ∧ (Nat.digitChar d).toNat - 48 = d
    ∧ isspace (Nat.digitChar d) = false ∧ Nat.digitChar d ≠ '-' ∧ Nat.digitChar d ≠ '+' := by
  interval_cases d <;> decide

theorem toDigitsCore_digits (fuel n : Nat) (h : n < fuel) (cs : List Char) :
    ∃ ds : List Nat, ds ≠ [] ∧ (∀ d ∈ ds, d < 10)
      ∧ Nat.toDigitsCore 10 fuel n cs = ds.map Nat.digitChar ++ cs
      ∧ digits_value ds 0 = n := by
  induction fuel generalizing n cs with
  | zero => omega
  | succ f ih =>
    unfold Nat.toDigitsCore
    by_cases h0 : n / 10 = 0
    · refine ⟨[n % 10], by simp, ?_, ?_, ?_⟩
      · intro d hd; simp at hd; omega
      · simp [h0]
      · simp [digits_value]; omega
    · obtain ⟨ds, h1, h2, h3, h4⟩ := ih (n / 10) (by omega) (Nat.digitChar (n % 10) :: cs)
      refine ⟨ds ++ [n % 10], by simp, ?_, ?_, ?_⟩
      · intro d hd
        rcases List.mem_append.mp hd with hd | hd
        · exact h2 d hd
        · simp at hd; omega
      · simp [h0, h3]
      · simp only [digits_value, List.foldl_append, List.foldl_cons, List.foldl_nil] at h4 ⊢
        rw [h4]; omega

theorem take_digits_map (ds : List Nat) (hd : ∀ d ∈ ds, d < 10) (rest : List Char)
    (hr : (peek rest).isDigit = false) (acc k : Nat) :
    take_digits (ds.map Nat.digitChar ++ rest) acc k
      = (digits_value ds acc, k + ds.length, rest) := by
  induction ds generalizing acc k with
  | nil =>
    cases rest with
    | nil => simp [take_digits, digits_value]
    | cons c cs =>
      have : c.isDigit = false := by simpa [peek] using hr
      simp [take_digits, digits_value, this]
  | cons d ds ih =>
    have hd0 := digitChar_isDigit d (hd d (by simp))
    have := ih (fun x hx => hd x (by simp [hx])) (acc * 10 + d) (k + 1)
    simp only [List.map_cons, List.cons_append, take_digits, hd0.1, if_true, hd0.2.1]
    have e : (List.map Nat.digitChar ds).append rest = List.map Nat.digitChar ds ++ rest :=
      rfl
    rw [e, this]
    simp only [digits_value, List.foldl_cons, List.length_cons, Prod.mk.injEq, true_and,
      and_true]
    omega

theorem toDigits_spec (n : Nat) :
    ∃ d ds, (∀ x ∈ d :: ds, x < 10)
      ∧ Nat.toDigits 10 n = (d :: ds).map Nat.digitChar
      ∧ digits_value (d :: ds) 0 = n := by
  obtain ⟨ds, h1, h2, h3, h4⟩ := toDigitsCore_digits (n + 1) n (by omega) []
  cases ds with
  | nil => exact absurd rfl h1
  | cons d ds => exact ⟨d, ds, h2, by simpa [Nat.toDigits] using h3, h4⟩

/-- `strtol` reads back a printed integer that fits a `long`. -/
theorem strtol_int_literal (i : Int) (h1 : -LONG_MAX - 1 ≤ i) (h2 : i ≤ LONG_MAX)
    (rest : List Char) (hr : (peek rest).isDigit = false) :
    strtol (int_literal i ++ rest) = some (i, rest) := by
  obtain ⟨d, ds, hd, hds, hv⟩ := toDigits_spec i.natAbs
  have hd0 := digitChar_isDigit d (hd d (by simp))
  have ht := take_digits_map (d :: ds) hd rest hr 0 0
  have hsign : take_sign ((d :: ds).map Nat.digitChar ++ rest)
      = (false, (d :: ds).map Nat.digitChar ++ rest) := by
    simp only [List.map_cons, List.cons_append]
    unfold take_sign
    split
    · rename_i h; simp at h; exact absurd h.1 hd0.2.2.2.1
    · rename_i h; simp at h; exact absurd h.1 hd0.2.2.2.2
    · rfl
  have hlen : ¬ (0 + (d :: ds).length = 0) := by simp
  unfold LONG_MAX at h1 h2
  unfold int_literal
  by_cases hneg : i < 0
  · simp only [hneg, if_true, hds]
    unfold strtol
    have hskip : skip_space ('-' :: (List.map Nat.digitChar (d :: ds)) ++ rest)
        = '-' :: (List.map Nat.digitChar (d :: ds) ++ rest) := by
      have : isspace '-' = false := by decide
      simp [skip_space, this]
    rw [hskip]
    have hs2 : take_sign ('-' :: (List.map Nat.digitChar (d :: ds) ++ rest))
        = (true, List.map Nat.digitChar (d :: ds) ++ rest) := rfl
    rw [hs2]
    simp only [ht, hv, hlen, if_false, if_true, LONG_MAX]
    simp only [Option.some.injEq, Prod.mk.injEq, and_true]
    omega
  · simp only [hneg, if_false, hds]
    unfold strtol
    have hskip : skip_space ((d :: ds).map Nat.digitChar ++ rest)
        = (d :: ds).map Nat.digitChar ++ rest := by
      simp [skip_space, hd0.2.2.1]
    rw [hskip, hsign]
    simp only [ht, hv, hlen, if_false, LONG_MAX]
    simp only [Bool.false_eq_true, if_false, Option.some.injEq, Prod.mk.injEq, and_true]
    omega

theorem peek_bracket (rest : List Char) : (peek (']' :: rest)).isDigit = false := by
  simp [peek]

theorem read_index_explicit (i : Int) (h1 : -2147483648 ≤ i) (h2 : i < 2147483648)
    (rest : List Char) (index : Int) :
    read_index ('[' :: (int_literal i ++ ']' :: rest)) index = some (i, rest) := by
  have hs := strtol_int_literal i (by unfold LONG_MAX; omega) (by unfold LONG_MAX; omega)
    (']' :: rest) (peek_bracket rest)
  have hwi : wrap32 i = i := by unfold wrap32; omega
  have hp : peek ('[' :: (int_literal i ++ ']' :: rest)) = '[' := rfl
  have hp2 : peek (']' :: rest) = ']' := rfl
  unfold read_index
  rw [hp]
  simp only [if_true, List.cons_append, List.tail_cons, hs, hp2, hwi]
  simp

/-! ## The vector loop -/

theorem to_word_range (x w : Int) (h : to_word x = some w) :
    -2147483648 ≤ w ∧ w < 2147483648 := by
  unfold to_word at h
  simp only at h
  split_ifs at h with hc
  simp only [Option.some.injEq] at h
  rw [← h]; exact hc

theorem parse_scalar_range (opt : SANE_Option_Descriptor) (s r : List Char) (v : Int)
    (h : parse_scalar opt s = Scalar.ok v r) : -2147483648 ≤ v ∧ v < 2147483648 := by
  unfold parse_scalar at h
  simp only at h
  split at h
  · exact absurd h (by simp)
  · split at h
    · exact absurd h (by simp)
    · split at h
      · exact absurd h (by simp)
      · rename_i hw
        simp only [Scalar.ok.injEq] at h
        rw [← h.1]
        exact to_word_range _ _ hw

theorem ramp_shift (slope v : Int) (k : Nat) :
    ramp slope (fadd v slope) k = ramp slope v (k + 1) := by
  induction k with
  | zero => rfl
  | succ k ih => simp only [ramp] at ih ⊢; rw [ih]

/-- The interpolation loop: when every sum converts, it stores the converted
sum number `k + 1` at `i + k` and leaves the other entries alone. -/
theorem interpolate_spec (slope : Int) (count i : Nat) (v : Int) (vector : List Int)
    (hr : ∀ k, k < count → ∃ w, to_word (ramp slope v (k + 1)) = some w) :
    ∃ out, interpolate slope count i v vector = some out
      ∧ out.length = vector.length
      ∧ (∀ j, j < i ∨ i + count ≤ j → out[j]? = vector[j]?)
      ∧ (∀ k, k < count → i + k < vector.length →
          out[i + k]? = to_word (ramp slope v (k + 1))) := by
  induction count generalizing i v vector with
  | zero =>
    exact ⟨vector, rfl, rfl, fun _ _ => rfl, fun k hk => absurd hk (by omega)⟩
  | succ c ih =>
    obtain ⟨w, hw⟩ := hr 0 (by omega)
    have hw' : to_word (fadd v slope) = some w := hw
    have hr' : ∀ k, k < c → ∃ w, to_word (ramp slope (fadd v slope) (k + 1)) = some w := by
      intro k hk
      rw [ramp_shift]
      exact hr (k + 1) (by omega)
    obtain ⟨out, h1, h2, h3, h4⟩ := ih (i + 1) (fadd v slope) (vector.set i w) hr'
    refine ⟨out, ?_, ?_, ?_, ?_⟩
    · simp only [interpolate, hw', h1]
    · rw [h2, List.length_set]
    · intro j hj
      rw [h3 j (by omega), List.getElem?_set_ne (by omega)]
    · intro k hk hlt
      cases k with
      | zero =>
        have hlt' : i < vector.length := by omega
        rw [Nat.add_zero, h3 i (by omega), List.getElem?_set_eq_of_lt _ hlt']
        exact hw.symm
      | succ k =>
        have := h4 k (by omega) (by rw [List.length_set]; omega)
        rw [ramp_shift] at this
        rw [← this]
        congr 1
        omega

/-- The text of a value spec with an explicit index: `[i]` followed by the
scalar text. -/
theorem parse_vector_two_specs (opt : SANE_Option_Descriptor) (vector : List Int)
    (p q : Nat) (a b : Int) (sa sb : List Char)
    (hpq : p < q) (hq : q < vector.length) (hlen : vector.length < 2147483648)
    (ha : parse_scalar opt (sa ++ '-' :: '[' :: (int_literal q ++ ']' :: sb))
            = Scalar.ok a ('-' :: '[' :: (int_literal q ++ ']' :: sb)))
    (hb : parse_scalar opt sb = Scalar.ok b []) :
    parse_vector opt
        ('[' :: (int_literal p ++ ']' :: (sa ++ '-' :: '[' :: (int_literal q ++ ']' :: sb))))
        vector
      = match interpolate (slope_of a b p q) (q - (p + 1)) (p + 1) (of_int a)
                (((List.replicate vector.length 0).set p a).set q b) with
        | none => (((List.replicate vector.length 0).set p a).set q b, Outcome.undefined)
        | some out => (out, Outcome.returned) := by
  have hw : wrap32 (vector.length : Int) = vector.length := by
    unfold wrap32; omega
  have h1 := read_index_explicit (p : Int) (by omega) (by omega)
    (sa ++ '-' :: '[' :: (int_literal q ++ ']' :: sb)) (-1)
  have h2 := read_index_explicit (q : Int) (by omega) (by omega) sb (p : Int)
  have hp1 : peek ('-' :: '[' :: (int_literal q ++ ']' :: sb)) = '-' := rfl
  have hp2 : peek ([] : List Char) = Char.ofNat 0 := rfl
  have hr1 : ¬ ((p : Int) < 0 ∨ (p : Int) ≥ (vector.length : Int)) := by omega
  have hr2 : ¬ ((q : Int) < 0 ∨ (q : Int) ≥ (vector.length : Int)) := by omega
  have hc1 : ¬ (Char.ofNat 0 = '-') := by decide
  have hc2 : ¬ ('-' ≠ Char.ofNat 0 ∧ '-' ≠ '-' ∧ '-' ≠ ',') := by decide
  have hc3 : ('-' = ',' ∨ '-' = '-') := by decide
  have hc4 : ¬ (Char.ofNat 0 = ',' ∨ Char.ofNat 0 = '-') := by decide
  obtain ⟨m, hm⟩ : ∃ m, ('[' :: (int_literal p ++ ']' ::
      (sa ++ '-' :: '[' :: (int_literal q ++ ']' :: sb)))).length = m + 1 :=
    ⟨(int_literal p ++ ']' :: (sa ++ '-' :: '[' :: (int_literal q ++ ']' :: sb))).length, rfl⟩
  unfold parse_vector
  rw [hm]
  unfold vector_loop
  rw [h1]
  simp only [List.length_replicate, hw, hr1, if_false, ha, hp1, hc2, store_value, hc1,
    hc3, if_true, List.tail_cons]
  unfold vector_loop
  simp only [List.tail_cons, Int.toNat_ofNat, or_true, if_true]
  rw [h2]
  simp only [List.length_set, List.length_replicate, hw, hr2, if_false, hb, hp2,
    store_value, if_true, Int.toNat_ofNat, ne_eq, not_true_eq_false, false_and]
  have e1 : ((q : Int) - ((p : Int) + 1)).toNat = q - (p + 1) := by omega
  have e2 : ((p : Int) + 1).toNat = p + 1 := by omega
  rw [e1, e2]
  rfl

/-! ## Termination of the vector loop -/

theorem skip_space_length (s : List Char) : (skip_space s).length ≤ s.length := by
  induction s with
  | nil => simp [skip_space]
  | cons c cs ih =>
    unfold skip_space
    split_ifs
    · simp only [List.length_cons]; omega
    · exact le_rfl

theorem take_sign_length (s : List Char) : (take_sign s).2.length ≤ s.length := by
  unfold take_sign
  split <;> simp

theorem take_digits_length (s : List Char) (acc k : Nat) :
    (take_digits s acc k).2.2.length ≤ s.length := by
  induction s generalizing acc k with
  | nil => simp [take_digits]
  | cons c cs ih =>
    unfold take_digits
    split_ifs
    · have := ih (acc * 10 + (c.toNat - 48)) (k + 1)
      simp only [List.length_cons]; omega
    · exact le_rfl

theorem strtol_length (s r : List Char) (v : Int) (h : strtol s = some (v, r)) :
    r.length ≤ s.length := by
  have h1 := skip_space_length s
  have h2 := take_sign_length (skip_space s)
  have h3 := take_digits_length (take_sign (skip_space s)).2 0 0
  unfold strtol at h
  simp only at h
  split_ifs at h
  all_goals
    simp only [Option.some.injEq, Prod.mk.injEq] at h
    rw [← h.2]
    exact le_trans h3 (le_trans h2 h1)

theorem take_exponent_length (s : List Char) : (take_exponent s).2.length ≤ s.length := by
  unfold take_exponent
  split
  · rename_i c cs
    have h2 := take_sign_length cs
    have h3 := take_digits_length (take_sign cs).2 0 0
    simp only
    split_ifs
    all_goals first
      | exact Nat.le_refl _
      | (simp only [List.length_cons]
         exact Nat.le_succ_of_le (Nat.le_trans h3 h2))
  · exact Nat.le_refl _

theorem decimal_literal_length (neg : Bool) (s r : List Char) (v : Int)
    (h : decimal_literal neg s = some (v, r)) : r.length ≤ s.length := by
  have h3 := take_digits_length s 0 0
  unfold decimal_literal at h
  simp only at h
  split_ifs at h
  all_goals
    simp only [Option.some.injEq, Prod.mk.injEq] at h
    rw [← h.2]
    refine le_trans (take_exponent_length _) ?_
    split
    · rename_i t heq
      have h4 := take_digits_length t (take_digits s 0 0).1 0
      rw [heq, List.length_cons] at h3
      exact le_trans h4 (le_trans (Nat.le_succ _) h3)
    · exact h3

theorem take_hex_digits_length (s : List Char) (acc k : Nat) :
    (take_hex_digits s acc k).2.2.length ≤ s.length := by
  induction s generalizing acc k with
  | nil => simp [take_hex_digits]
  | cons c cs ih =>
    unfold take_hex_digits
    split
    · rename_i d _
      have := ih (acc * 16 + d) (k + 1)
      simp only [List.length_cons]; omega
    · exact le_rfl

theorem take_binary_exponent_length (s : List Char) :
    (take_binary_exponent s).2.length ≤ s.length := by
  unfold take_binary_exponent
  split
  · rename_i c cs
    have h2 := take_sign_length cs
    have h3 := take_digits_length (take_sign cs).2 0 0
    simp only
    split_ifs
    all_goals first
      | exact Nat.le_refl _
      | (simp only [List.length_cons]
         exact Nat.le_succ_of_le (Nat.le_trans h3 h2))
  · exact Nat.le_refl _

theorem hex_literal_length (s r : List Char) (v : Int)
    (h : hex_literal s = some (v, r)) : r.length ≤ s.length := by
  unfold hex_literal at h
  split at h
  · rename_i x t
    have h3 := take_hex_digits_length t 0 0
    simp only at h
    split_ifs at h
    simp only [Option.some.injEq, Prod.mk.injEq] at h
    rw [← h.2]
    refine le_trans (take_binary_exponent_length _) ?_
    simp only [List.length_cons]
    split
    · rename_i u heq
      have h4 := take_hex_digits_length u (take_hex_digits t 0 0).1 0
      rw [heq, List.length_cons] at h3
      exact le_trans h4 (by omega)
    · exact le_trans h3 (by omega)
  · exact absurd h (by simp)

theorem special_literal_length (s r : List Char) (v : Int)
    (h : special_literal s = some (v, r)) : r.length ≤ s.length := by
  unfold special_literal at h
  split_ifs at h
  · simp only [Option.some.injEq, Prod.mk.injEq] at h
    rw [← h.2, List.length_drop]; omega
  · simp only [Option.some.injEq, Prod.mk.injEq] at h
    rw [← h.2, List.length_drop]; omega
  · have hd : (s.drop 3).length ≤ s.length := by rw [List.length_drop]; omega
    split at h
    · rename_i u heq
      split at h
      · rename_i r2 heq2
        simp only [Option.some.injEq, Prod.mk.injEq] at h
        rw [← h.2]
        have h1 := (List.dropWhile_sublist
          (fun c => c.isAlphanum || decide (c = '_')) (l := u)).length_le
        rw [heq2, List.length_cons] at h1
        rw [heq, List.length_cons] at hd
        omega
      · simp only [Option.some.injEq, Prod.mk.injEq] at h
        rw [← h.2]; exact hd
    · simp only [Option.some.injEq, Prod.mk.injEq] at h
      rw [← h.2]; exact hd

theorem strtod_length (s r : List Char) (v : Int) (h : strtod s = some (v, r)) :
    r.length ≤ s.length := by
  have h1 := skip_space_length s
  have h2 := take_sign_length (skip_space s)
  have h12 := le_trans h2 h1
  unfold strtod at h
  simp only at h
  split at h
  · rename_i v1 r1 heq
    simp only [Option.some.injEq, Prod.mk.injEq] at h
    rw [← h.2]
    exact le_trans (special_literal_length _ _ _ heq) h12
  · split at h
    · rename_i v1 r1 heq
      simp only [Option.some.injEq, Prod.mk.injEq] at h
      rw [← h.2]
      exact le_trans (hex_literal_length _ _ _ heq) h12
    · exact le_trans (decimal_literal_length _ _ _ _ h) h12

theorem apply_unit_length (unit : SANE_Unit) (v v2 : Int) (s r : List Char)
    (h : apply_unit unit v s = some (v2, r)) : r.length ≤ s.length := by
  unfold apply_unit at h
  cases unit <;> simp only at h
  all_goals (try split_ifs at h)
  all_goals
    cases h
    try split_ifs
  all_goals
    try simp only [List.length_tail, List.length_drop]
    omega

theorem parse_scalar_length (opt : SANE_Option_Descriptor) (s r : List Char) (v : Int)
    (h : parse_scalar opt s = Scalar.ok v r) : r.length ≤ s.length := by
  unfold parse_scalar at h
  simp only at h
  split at h
  · exact absurd h (by simp)
  · rename_i v1 s1 hconv
    have hs1 : s1.length ≤ s.length := by
      split_ifs at hconv
      · cases hd : strtod s with
        | none => rw [hd] at hconv; exact absurd hconv (by simp)
        | some x =>
          rw [hd] at hconv
          simp only [Option.map_some', Option.some.injEq, Prod.mk.injEq] at hconv
          rw [← hconv.2]
          exact strtod_length s x.2 x.1 hd
      · cases hd : strtol s with
        | none => rw [hd] at hconv; exact absurd hconv (by simp)
        | some x =>
          rw [hd] at hconv
          simp only [Option.map_some', Option.some.injEq, Prod.mk.injEq] at hconv
          rw [← hconv.2]
          exact strtol_length s x.2 x.1 hd
    split at h
    · exact absurd h (by simp)
    · rename_i v2 s2 hunit
      have hs2 := apply_unit_length _ _ _ _ _ hunit
      split at h
      · exact absurd h (by simp)
      · simp only [Scalar.ok.injEq] at h
        rw [← h.2]
        exact Nat.le_trans hs2 hs1

theorem read_index_length (s r : List Char) (index j : Int)
    (h : read_index s index = some (j, r)) : r.length ≤ s.length := by
  unfold read_index at h
  split_ifs at h
  · cases hd : strtol s.tail with
    | none => rw [hd] at h; exact absurd h (by simp)
    | some x =>
      rw [hd] at h
      simp only at h
      split_ifs at h
      simp only [Option.some.injEq, Prod.mk.injEq] at h
      rw [← h.2]
      have := strtol_length s.tail x.2 x.1 hd
      simp only [List.length_tail] at this ⊢
      omega
  · simp only [Option.some.injEq, Prod.mk.injEq] at h
    rw [h.2]

/-- The loop of `parse_vector` never reaches the iteration bound: every
iteration that continues has consumed at least one character. -/
theorem vector_loop_fuel (opt : SANE_Option_Descriptor) (fuel : Nat) (str : List Char)
    (index prev_index prev_value : Int) (separator : Char) (vector : List Int)
    (h : str.length < fuel) :
    (vector_loop opt fuel str index prev_index prev_value separator vector).2
      ≠ Outcome.out_of_fuel := by
  induction fuel generalizing str index prev_index prev_value separator vector with
  | zero => omega
  | succ f ih =>
    unfold vector_loop
    split
    · simp
    · rename_i i s1 hread
      have hl1 := read_index_length _ _ _ _ hread
      split_ifs
      · simp
      · split
        · simp
        · simp
        · simp
        · rename_i value s2 hscalar
          have hl2 := parse_scalar_length _ _ _ _ hscalar
          split_ifs
          · simp
          · split
            · simp
            · rename_i out _
              simp only
              split_ifs with hsep
              · apply ih
                have hne : s2 ≠ [] := by
                  intro he
                  rw [he] at hsep
                  revert hsep
                  decide
                have : 0 < s2.length := List.length_pos.mpr hne
                simp only [List.length_tail]
                omega
              · simp

/-- The model of `parse_vector` is total: the function always ends in one of
the ways of the source. -/
theorem parse_vector_total (opt : SANE_Option_Descriptor) (str : List Char)
    (vector : List Int) : (parse_vector opt str vector).2 ≠ Outcome.out_of_fuel :=
  vector_loop_fuel opt _ str _ _ _ _ _ (Nat.lt_succ_self _)

/-! ## The scalar value -/

/-- Parsing a whole-number literal against an Int-typed descriptor: the
converted value and the rest of the text. -/
theorem strtol_conv (opt : SANE_Option_Descriptor) (h : opt.type = SANE_Value_Type.INT)
    (str : List Char) :
    parse_scalar opt str =
      match strtol str with
      | none => Scalar.bad_value
      | some (n, s) =>
        match apply_unit opt.unit (of_int n) s with
        | none => Scalar.illegal_unit
        | some (v, s) =>
          match to_word (fadd v half) with
          | none => Scalar.undefined
          | some value => Scalar.ok value s := by
  unfold parse_scalar
  simp only [h]
  cases strtol str with
  | none => rfl
  | some r => rfl

set_option exponentiation.threshold 2000 in
theorem half_arith (x t : Int) (h1 : -2147483648 ≤ x) (h2 : x < 2147483648)
    (ht : t = (2 * x + 1) * 2 ^ 1073) :
    Int.tdiv t (2 ^ 1074) = if 0 ≤ x then x else x + 1 := by
  by_cases hx : 0 ≤ x
  · simp only [hx, if_true]
    rw [Int.tdiv_eq_ediv (by rw [ht]; positivity) (by positivity)]
    norm_num at ht ⊢
    omega
  · simp only [hx, if_false]
    have hneg : 0 ≤ -t := by
      rw [ht]
      have : (2 * x + 1) ≤ 0 := by omega
      have h2 : (0 : Int) ≤ 2 ^ 1073 := by positivity
      nlinarith
    have e : Int.tdiv t (2 ^ 1074) = -(Int.tdiv (-t) (2 ^ 1074)) := by
      rw [Int.neg_tdiv, neg_neg]
    rw [e, Int.tdiv_eq_ediv hneg (by positivity)]
    norm_num at ht ⊢
    omega

/-- The statement `*value = v + 0.5` for a whole number `v`: adding 0.5 is
exact and the conversion truncates toward zero, so a non-negative `x` is
stored as `x` and a negative `x` as `x + 1`. -/
theorem to_word_add_half (x : Int) (h1 : -2147483648 ≤ x) (h2 : x < 2147483648) :
    to_word (fadd (of_int x) half) = some (if 0 ≤ x then x else x + 1) := by
  have hx : of_int x = x * 2 ^ 1074 := of_int_exact x (by norm_num; omega)
  have hs : fadd (x * 2 ^ 1074) (2 ^ 1073) = (2 * x + 1) * 2 ^ 1073 := by
    have := round_double_exact (2 * x + 1) 1073 1 (by norm_num) (by norm_num; omega)
    unfold fadd
    rw [← this]
    congr 1
    rw [show (1074 : Nat) = 1073 + 1 by norm_num, pow_succ]
    generalize (2 : Int) ^ 1073 = u
    push_cast; ring
  rw [hx, half_eq, hs]
  unfold to_word
  simp only
  rw [UNIT_cast, half_arith x _ h1 h2 rfl]
  by_cases h0 : 0 ≤ x
  · simp only [h0, if_true]
    have : -2147483648 ≤ x ∧ x < 2147483648 := ⟨h1, h2⟩
    simp [this]
  · simp only [h0, if_false]
    have : -2147483648 ≤ x + 1 ∧ x + 1 < 2147483648 := by omega
    simp [this]

/-! ## The two-spec literal -/

/-- The vector left by the two-spec literal `[p]A-[q]B` when every
interpolated sum converts. -/
theorem dash_literal_stored (opt : SANE_Option_Descriptor) (vector : List Int)
    (p q : Nat) (a b : Int) (sa sb : List Char)
    (hpq : p < q) (hq : q < vector.length) (hlen : vector.length < 2147483648)
    (ha : parse_scalar opt (sa ++ '-' :: '[' :: (int_literal q ++ ']' :: sb))
            = Scalar.ok a ('-' :: '[' :: (int_literal q ++ ']' :: sb)))
    (hb : parse_scalar opt sb = Scalar.ok b [])
    (hr : ∀ i, p < i → i < q →
        ∃ w, to_word (ramp (slope_of a b p q) (of_int a) (i - p)) = some w) :
    ∃ out, parse_vector opt
          ('[' :: (int_literal p ++ ']' :: (sa ++ '-' :: '[' :: (int_literal q ++ ']' :: sb))))
          vector = (out, Outcome.returned)
      ∧ out.length = vector.length
      ∧ out[p]? = some a ∧ out[q]? = some b
      ∧ (∀ i, p < i → i < q →
          out[i]? = to_word (ramp (slope_of a b p q) (of_int a) (i - p)))
      ∧ (∀ i, i < p ∨ q < i → i < vector.length → out[i]? = some 0) := by
  have hr' : ∀ k, k < q - (p + 1) →
      ∃ w, to_word (ramp (slope_of a b p q) (of_int a) (k + 1)) = some w := by
    intro k hk
    have := hr (p + 1 + k) (by omega) (by omega)
    rwa [show p + 1 + k - p = k + 1 by omega] at this
  obtain ⟨out, h1, h2, h3, h4⟩ := interpolate_spec (slope_of a b p q) (q - (p + 1)) (p + 1)
    (of_int a) (((List.replicate vector.length 0).set p a).set q b) hr'
  have hl : (((List.replicate vector.length 0).set p a).set q b).length = vector.length := by
    simp
  refine ⟨out, ?_, ?_, ?_, ?_, ?_, ?_⟩
  · rw [parse_vector_two_specs opt vector p q a b sa sb hpq hq hlen ha hb, h1]
  · rw [h2, hl]
  · rw [h3 p (by omega), List.getElem?_set_ne (by omega),
      List.getElem?_set_eq_of_lt _ (by simp; omega)]
  · rw [h3 q (by omega), List.getElem?_set_eq_of_lt _ (by simp; omega)]
  · intro i hi1 hi2
    have := h4 (i - (p + 1)) (by omega) (by rw [hl]; omega)
    rw [show p + 1 + (i - (p + 1)) = i by omega,
      show i - (p + 1) + 1 = i - p by omega] at this
    exact this
  · intro i hi hlt
    rw [h3 i (by omega), List.getElem?_set_ne (by omega), List.getElem?_set_ne (by omega)]
    simp [hlt]

/-- The two-spec literal `[p]A-[q]B` when q - p divides b - a: every double
operation of the interpolation is exact and the stored values are the
closed form. -/
theorem dash_literal_exact (opt : SANE_Option_Descriptor) (vector : List Int)
    (p q : Nat) (a b : Int) (sa sb : List Char)
    (hpq : p < q) (hq : q < vector.length) (hlen : vector.length < 2147483648)
    (ha : parse_scalar opt (sa ++ '-' :: '[' :: (int_literal q ++ ']' :: sb))
            = Scalar.ok a ('-' :: '[' :: (int_literal q ++ ']' :: sb)))
    (hb : parse_scalar opt sb = Scalar.ok b [])
    (hdvd : ((q : Int) - p) ∣ (b - a)) :
    ∃ out, parse_vector opt
          ('[' :: (int_literal p ++ ']' ::
            (sa ++ '-' :: '[' :: (int_literal q ++ ']' :: sb)))) vector
        = (out, Outcome.returned)
      ∧ out.length = vector.length
      ∧ (∀ i, p ≤ i → i ≤ q →
          out[i]? = some (a + (b - a) / ((q : Int) - p) * ((i : Int) - p)))
      ∧ (∀ i, i < p ∨ q < i → i < vector.length → out[i]? = some 0) := by
  have hra := parse_scalar_range _ _ _ _ ha
  have hrb := parse_scalar_range _ _ _ _ hb
  obtain ⟨c, hc⟩ := hdvd
  have hn : (0 : Int) < (q : Int) - p := by omega
  have hdiv : (b - a) / ((q : Int) - p) = c := by
    rw [hc]; exact Int.mul_ediv_cancel_left c (ne_of_gt hn)
  -- every point of the line lies between the endpoints
  have hbetween : ∀ k : Nat, k ≤ q - p →
      -2147483648 ≤ a + c * k ∧ a + c * k < 2147483648 := by
    intro k hk
    have hk' : (k : Int) ≤ (q : Int) - p := by omega
    have hk0 : (0 : Int) ≤ k := by omega
    rcases le_or_lt 0 c with h0 | h0
    · have h1 : c * k ≤ c * ((q : Int) - p) := mul_le_mul_of_nonneg_left hk' h0
      have h2 : 0 ≤ c * k := mul_nonneg h0 hk0
      have h3 : c * ((q : Int) - p) = b - a := by rw [hc]; ring
      constructor <;> linarith
    · have h1 : c * ((q : Int) - p) ≤ c * k :=
        mul_le_mul_of_nonpos_left hk' (le_of_lt h0)
      have h2 : c * k ≤ 0 := mul_nonpos_of_nonpos_of_nonneg (le_of_lt h0) hk0
      have h3 : c * ((q : Int) - p) = b - a := by rw [hc]; ring
      constructor <;> linarith
  have hc53 : c.natAbs < 2 ^ 53 := by
    have h1 := hbetween 1 (by omega)
    norm_num at h1 ⊢
    omega
  have hslope : slope_of a b p q = c * 2 ^ 1074 := by
    unfold slope_of
    rw [of_int_exact a (by norm_num; omega), of_int_exact b (by norm_num; omega),
      of_int_exact ((q : Int) - p) (by norm_num; omega),
      fsub_exact b a (by norm_num; omega)]
    have : b - a = c * ((q : Int) - p) := by rw [hc]; ring
    rw [this]
    exact fdiv_exact c _ hn hc53
  have hramp : ∀ k : Nat, k ≤ q - p →
      ramp (slope_of a b p q) (of_int a) k = (a + c * k) * 2 ^ 1074 := by
    intro k hk
    rw [hslope, of_int_exact a (by norm_num; omega)]
    apply ramp_exact
    intro j hj
    have := hbetween j (by omega)
    norm_num
    omega
  have hword : ∀ k : Nat, k ≤ q - p →
      to_word (ramp (slope_of a b p q) (of_int a) k) = some (a + c * k) := by
    intro k hk
    rw [hramp k hk]
    exact to_word_int _ (hbetween k hk).1 (hbetween k hk).2
  obtain ⟨out, h1, h2, h3, h4, h5, h6⟩ :=
    dash_literal_stored opt vector p q a b sa sb hpq hq hlen ha hb
      (fun i _ _ => ⟨_, hword (i - p) (by omega)⟩)
  refine ⟨out, h1, h2, ?_, h6⟩
  intro i hi1 hi2
  rw [hdiv]
  rcases Nat.lt_or_ge p i with hlt | hge
  · rcases Nat.lt_or_ge i q with hlt2 | hge2
    · have hcast : ((i - p : Nat) : Int) = (i : Int) - p := by omega
      rw [h5 i hlt hlt2, hword (i - p) (by omega), hcast]
    · have : i = q := by omega
      subst this
      rw [h4]
      congr 1
      have : c * ((i : Int) - p) = b - a := by rw [hc]; ring
      linarith
  · have : i = p := by omega
    subst this
    rw [h3]
    simp

/-! ## Progress of the vector loop -/

/-- A complete iteration of the loop of `parse_vector`. -/
theorem vector_loop_step (opt : SANE_Option_Descriptor) (fuel : Nat) (d : Cursor)
    (i v : Int) (s1 s2 : List Char) (vec : List Int)
    (h1 : read_index d.str d.index = some (i, s1))
    (h2 : ¬ (i < 0 ∨ i ≥ wrap32 d.vector.length))
    (h3 : parse_scalar opt s1 = Scalar.ok v s2)
    (h4 : peek s2 = ',' ∨ peek s2 = '-')
    (h5 : store_value d.vector d.separator d.prev_index d.prev_value i v = some vec) :
    vector_loop opt (fuel + 1) d.str d.index d.prev_index d.prev_value d.separator d.vector
      = vector_loop opt fuel s2.tail i i v (peek s2) vec := by
  have h6 : ¬ (peek s2 ≠ Char.ofNat 0 ∧ peek s2 ≠ '-' ∧ peek s2 ≠ ',') := by
    rcases h4 with h | h <;> rw [h] <;> decide
  rw [vector_loop]
  simp only [h1, h2, if_false, h3, h6, h5, h4, if_true]

/-- The last iteration of the loop of `parse_vector`: the text ends after the
scalar. -/
theorem vector_loop_last (opt : SANE_Option_Descriptor) (fuel : Nat) (d : Cursor)
    (i v : Int) (s1 s2 : List Char) (vec : List Int)
    (h1 : read_index d.str d.index = some (i, s1))
    (h2 : ¬ (i < 0 ∨ i ≥ wrap32 d.vector.length))
    (h3 : parse_scalar opt s1 = Scalar.ok v s2)
    (h4 : peek s2 = Char.ofNat 0)
    (h5 : store_value d.vector d.separator d.prev_index d.prev_value i v = some vec) :
    vector_loop opt (fuel + 1) d.str d.index d.prev_index d.prev_value d.separator d.vector
      = (vec, Outcome.returned) := by
  have h6 : ¬ (peek s2 ≠ Char.ofNat 0 ∧ peek s2 ≠ '-' ∧ peek s2 ≠ ',') := by
    rw [h4]; decide
  have h7 : ¬ (peek s2 = ',' ∨ peek s2 = '-') := by
    rw [h4]; decide
  rw [vector_loop]
  simp only [h1, h2, if_false, h3, h6, h5, h7]

/-- An iteration of the loop of `parse_vector` whose index is out of range. -/
theorem vector_loop_out_of_range (opt : SANE_Option_Descriptor) (fuel : Nat) (d : Cursor)
    (i : Int) (s1 : List Char)
    (h1 : read_index d.str d.index = some (i, s1))
    (h2 : i < 0 ∨ i ≥ wrap32 d.vector.length) :
    vector_loop opt (fuel + 1) d.str d.index d.prev_index d.prev_value d.separator d.vector
      = (d.vector, Outcome.out_of_range) := by
  rw [vector_loop]
  simp only [h1, h2, if_true]

/-- The loop run from `c` is the loop run from any point it reaches, and the
iteration bound is never in the way. -/
theorem loop_reaches_run (opt : SANE_Option_Descriptor) (c d : Cursor)
    (h : loop_reaches opt c d) :
    ∀ fuel, c.str.length < fuel →
      ∃ fuel2, d.str.length < fuel2 + 1
        ∧ vector_loop opt fuel c.str c.index c.prev_index c.prev_value c.separator c.vector
          = vector_loop opt (fuel2 + 1) d.str d.index d.prev_index d.prev_value
              d.separator d.vector := by
  induction h with
  | here =>
    intro fuel hf
    match fuel, hf with
    | f + 1, hf => exact ⟨f, hf, rfl⟩
  | next d i v s1 s2 vec _ h1 h2 h3 h4 h5 ih =>
    intro fuel hf
    obtain ⟨f2, hlen, heq⟩ := ih fuel hf
    have hl1 := read_index_length _ _ _ _ h1
    have hl2 := parse_scalar_length _ _ _ _ h3
    have hne : s2 ≠ [] := by
      intro he
      rw [he] at h4
      revert h4
      decide
    have hpos : 0 < s2.length := List.length_pos.mpr hne
    have hlt : s2.tail.length < f2 := by
      simp only [List.length_tail]; omega
    match f2, hlt with
    | f3 + 1, hlt =>
      refine ⟨f3, hlt, ?_⟩
      rw [heq, vector_loop_step opt (f3 + 1) d i v s1 s2 vec h1 h2 h3 h4 h5]

/-- `parse_vector` is its loop run from any point that the loop reaches. -/
theorem parse_vector_reaches (opt : SANE_Option_Descriptor) (str : List Char)
    (vector : List Int) (d : Cursor) (h : loop_reaches opt (loop_start str vector) d) :
    ∃ fuel, d.str.length < fuel + 1
      ∧ parse_vector opt str vector
        = vector_loop opt (fuel + 1) d.str d.index d.prev_index d.prev_value
            d.separator d.vector :=
  loop_reaches_run opt (loop_start str vector) d h (str.length + 1) (Nat.lt_succ_self _)

/-- The interpolation loop leaves the length and the entries outside its range
alone. -/
theorem interpolate_frame (slope : Int) (count i : Nat) (v : Int) (vector out : List Int)
    (h : interpolate slope count i v vector = some out) :
    out.length = vector.length
    ∧ ∀ j, j < i ∨ i + count ≤ j → out[j]? = vector[j]? := by
  induction count generalizing i v vector with
  | zero =>
    simp only [interpolate, Option.some.injEq] at h
    subst h
    exact ⟨rfl, fun _ _ => rfl⟩
  | succ c ih =>
    simp only [interpolate] at h
    cases hw : to_word (fadd v slope) with
    | none => rw [hw] at h; exact absurd h (by simp)
    | some w =>
      rw [hw] at h
      obtain ⟨h1, h2⟩ := ih (i + 1) (fadd v slope) (vector.set i w) h
      refine ⟨by rw [h1, List.length_set], ?_⟩
      intro j hj
      rw [h2 j (by omega), List.getElem?_set_ne (by omega)]

/-- The store of a value spec: the length is kept and the value is at its
index afterwards. -/
theorem store_value_frame (vector vec : List Int) (separator : Char)
    (prev_index prev_value i v : Int)
    (h : store_value vector separator prev_index prev_value i v = some vec)
    (h0 : 0 ≤ i) (h1 : i < vector.length) (hp : separator = '-' → 0 ≤ prev_index) :
    vec.length = vector.length ∧ vec[i.toNat]? = some v := by
  unfold store_value at h
  simp only at h
  split_ifs at h with hs
  · obtain ⟨e1, e2⟩ := interpolate_frame _ _ _ _ _ _ h
    have hp0 := hp hs
    refine ⟨by rw [e1, List.length_set], ?_⟩
    rw [e2 i.toNat (by omega), List.getElem?_set_eq_of_lt _ (by omega)]
  · simp only [Option.some.injEq] at h
    subst h
    exact ⟨by rw [List.length_set], List.getElem?_set_eq_of_lt _ (by omega)⟩

/-- What holds at every point the loop of `parse_vector` reaches: the memory
has the length of the destination, and after the first iteration the previous
index is in range, the previous value is a 32-bit word and is what the memory
holds at the previous index, and the separator is a comma or a dash. -/
theorem loop_reaches_invariant (opt : SANE_Option_Descriptor) (str : List Char)
    (vector : List Int) (hlen : vector.length < 2147483648) (d : Cursor)
    (h : loop_reaches opt (loop_start str vector) d) :
    d.vector.length = vector.length
    ∧ (d = loop_start str vector
        ∨ (0 ≤ d.prev_index ∧ d.prev_index < vector.length ∧ d.index = d.prev_index
            ∧ -2147483648 ≤ d.prev_value ∧ d.prev_value < 2147483648
            ∧ d.vector[d.prev_index.toNat]? = some d.prev_value
            ∧ (d.separator = ',' ∨ d.separator = '-'))) := by
  induction h with
  | here =>
    exact ⟨by simp [loop_start], Or.inl rfl⟩
  | next d i v s1 s2 vec _ h1 h2 h3 h4 h5 ih =>
    obtain ⟨hl, hinv⟩ := ih
    have hw : wrap32 (d.vector.length : Int) = vector.length := by
      rw [hl]; unfold wrap32; omega
    rw [hw] at h2
    have hsep : d.separator = '-' → 0 ≤ d.prev_index := by
      intro hs
      rcases hinv with hi | hi
      · rw [hi] at hs
        have : (loop_start str vector).separator = Char.ofNat 0 := rfl
        rw [this] at hs
        exact absurd hs (by decide)
      · exact hi.1
    obtain ⟨e1, e2⟩ := store_value_frame _ _ _ _ _ _ _ h5 (by omega) (by rw [hl]; omega) hsep
    have hr := parse_scalar_range _ _ _ _ h3
    refine ⟨by rw [e1, hl], Or.inr ⟨by show 0 ≤ i; omega, by show i < _; omega, rfl,
      hr.1, hr.2, e2, h4⟩⟩

/-- With endpoint values a and b (32-bit words) at indices p < q whose distance
divides b - a, every double operation of the interpolation is exact: the sum
number k converts to the closed form a + (b - a) / (q - p) * k. -/
theorem ramp_closed_form (a b p q : Int)
    (ha1 : -2147483648 ≤ a) (ha2 : a < 2147483648)
    (hb1 : -2147483648 ≤ b) (hb2 : b < 2147483648)
    (hpq : p < q) (hq : q - p < 2147483648) (hdvd : (q - p) ∣ (b - a)) :
    ∀ k : Nat, (k : Int) ≤ q - p →
      to_word (ramp (slope_of a b p q) (of_int a) k)
        = some (a + (b - a) / (q - p) * k) := by
  obtain ⟨c, hc⟩ := hdvd
  have hn : (0 : Int) < q - p := by omega
  have hdiv : (b - a) / (q - p) = c := by
    rw [hc]; exact Int.mul_ediv_cancel_left c (ne_of_gt hn)
  have hbetween : ∀ k : Nat, (k : Int) ≤ q - p →
      -2147483648 ≤ a + c * k ∧ a + c * k < 2147483648 := by
    intro k hk
    have hk0 : (0 : Int) ≤ k := by omega
    rcases le_or_lt 0 c with h0 | h0
    · have h1 : c * k ≤ c * (q - p) := mul_le_mul_of_nonneg_left hk h0
      have h2 : 0 ≤ c * k := mul_nonneg h0 hk0
      have h3 : c * (q - p) = b - a := by rw [hc]; ring
      constructor <;> linarith
    · have h1 : c * (q - p) ≤ c * k :=
        mul_le_mul_of_nonpos_left hk (le_of_lt h0)
      have h2 : c * k ≤ 0 := mul_nonpos_of_nonpos_of_nonneg (le_of_lt h0) hk0
      have h3 : c * (q - p) = b - a := by rw [hc]; ring
      constructor <;> linarith
  have hc53 : c.natAbs < 2 ^ 53 := by
    have h1 := hbetween 1 (by omega)
    norm_num at h1 ⊢
    omega
  have hslope : slope_of a b p q = c * 2 ^ 1074 := by
    unfold slope_of
    rw [of_int_exact a (by norm_num; omega), of_int_exact b (by norm_num; omega),
      of_int_exact (q - p) (by norm_num; omega),
      fsub_exact b a (by norm_num; omega)]
    have : b - a = c * (q - p) := by rw [hc]; ring
    rw [this]
    exact fdiv_exact c _ hn hc53
  intro k hk
  rw [hdiv, hslope, of_int_exact a (by norm_num; omega)]
  have hr := ramp_exact a c k (by
    intro j hj
    have := hbetween j (by omega)
    norm_num
    omega)
  rw [hr]
  exact to_word_int _ (hbetween k hk).1 (hbetween k hk).2

/-- The store of a value spec after a dash, when every interpolated sum
converts: the endpoint b is at q, the interpolated entries lie strictly
between p and q, and every other entry is left alone. -/
theorem store_value_dash (vector : List Int) (p q : Nat) (a b : Int)
    (hpq : p < q) (hq : q < vector.length)
    (hr : ∀ i : Nat, p < i → i < q →
        ∃ w, to_word (ramp (slope_of a b p q) (of_int a) (i - p)) = some w) :
    ∃ out, store_value vector '-' p a q b = some out
      ∧ out.length = vector.length
      ∧ out[q]? = some b
      ∧ (∀ i : Nat, p < i → i < q →
          out[i]? = to_word (ramp (slope_of a b p q) (of_int a) (i - p)))
      ∧ (∀ j : Nat, j ≤ p ∨ q < j → out[j]? = vector[j]?) := by
  have hr' : ∀ k, k < q - (p + 1) →
      ∃ w, to_word (ramp (slope_of a b p q) (of_int a) (k + 1)) = some w := by
    intro k hk
    have := hr (p + 1 + k) (by omega) (by omega)
    rwa [show p + 1 + k - p = k + 1 by omega] at this
  obtain ⟨out, h1, h2, h3, h4⟩ := interpolate_spec (slope_of a b p q) (q - (p + 1)) (p + 1)
    (of_int a) (vector.set q b) hr'
  have e1 : ((q : Int) - ((p : Int) + 1)).toNat = q - (p + 1) := by omega
  have e2 : ((p : Int) + 1).toNat = p + 1 := by omega
  refine ⟨out, ?_, ?_, ?_, ?_, ?_⟩
  · unfold store_value
    simp only [if_true, Int.toNat_ofNat, e1, e2]
    exact h1
  · rw [h2, List.length_set]
  · rw [h3 q (by omega), List.getElem?_set_eq_of_lt _ hq]
  · intro i hi1 hi2
    have := h4 (i - (p + 1)) (by omega) (by rw [List.length_set]; omega)
    rw [show p + 1 + (i - (p + 1)) = i by omega,
      show i - (p + 1) + 1 = i - p by omega] at this
    exact this
  · intro j hj
    rw [h3 j (by omega), List.getElem?_set_ne (by omega)]

/-! ## Properties of the value grammar -/

/-- C1, as stated, fails: against a Millimeter-unit descriptor the literal
"2.5in" does not yield 64.  For a Fixed-typed descriptor it yields the
fixed-point word 4161536 (63.5 * 65536); for an Int-typed descriptor
`strtol` stops at the decimal point and the rest ".5in" is an illegal unit. -/
theorem parse_scalar_two_and_a_half_inch :
    parse_scalar ⟨SANE_Value_Type.FIXED, SANE_Unit.MM⟩ "2.5in".toList
      = Scalar.ok 4161536 []
    ∧ parse_scalar ⟨SANE_Value_Type.INT, SANE_Unit.MM⟩ "2.5in".toList
      = Scalar.illegal_unit := by
  constructor <;> decide!

/-- C2: `parse_scalar` at the failing input "-2" (Int-typed descriptor without
unit) stores -1, although round-half-up of -2 is -2; and so for every
negative whole number: the literal of -N, 1 ≤ N ≤ 2147483648, is accepted and
stored as -N + 1, because `v + 0.5` is converted by truncation toward zero. -/
theorem parse_scalar_negative (N : Nat) (h1 : 1 ≤ N) (h2 : N ≤ 2147483648) :
    parse_scalar ⟨SANE_Value_Type.INT, SANE_Unit.NONE⟩ (int_literal (-(N : Int)))
      = Scalar.ok (-(N : Int) + 1) []
    ∧ parse_scalar ⟨SANE_Value_Type.INT, SANE_Unit.NONE⟩ "-2".toList
      = Scalar.ok (-1) [] := by
  refine ⟨?_, by decide!⟩
  have hs := strtol_int_literal (-(N : Int)) (by unfold LONG_MAX; omega)
    (by unfold LONG_MAX; omega) [] (by decide)
  rw [List.append_nil] at hs
  have hv := to_word_add_half (-(N : Int)) (by omega) (by omega)
  have hneg : ¬ (0 ≤ -(N : Int)) := by omega
  simp only [hneg, if_false] at hv
  rw [strtol_conv _ rfl, hs]
  simp only [apply_unit, hv]

/-- C2, at N = 2. -/
theorem parse_scalar_negative_witness :
    parse_scalar ⟨SANE_Value_Type.INT, SANE_Unit.NONE⟩ (int_literal (-((2 : Nat) : Int)))
      = Scalar.ok (-((2 : Nat) : Int) + 1) [] :=
  (parse_scalar_negative 2 (by decide) (by decide)).1

/-- C3, as stated, fails: "[0]0-[9]3" on a vector of length 10 stores 1 at
index 6, whereas the closed form 0 + (3 - 0)/(9 - 0) * (6 - 0) is exactly 2:
six double additions of the rounded slope 1/3 give a sum just below 2. -/
theorem interpolation_differs_from_closed_form :
    parse_vector ⟨SANE_Value_Type.INT, SANE_Unit.NONE⟩ "[0]0-[9]3".toList
        (List.replicate 10 0)
      = ([0, 0, 0, 1, 1, 1, 1, 2, 2, 3], Outcome.returned)
    ∧ ((0 : ℚ) + (3 - 0) / (9 - 0) * (6 - 0) = 2) := by
  constructor
  · decide!
  · norm_num

/-- C3, amended: let the loop of `parse_vector` stand, after zero or more
accepted specs of the literal, behind a dash that follows the endpoint value
a accepted at index p (so `parse_scalar` stopped exactly at that dash), and
let the spec after the dash have the in-range index q > p (explicit or
defaulted) and the scalar value b followed by the end of the text, a comma or
a dash.  Then a is in the memory at p and, provided each interpolated sum
fits a 32-bit word, `parse_vector` stores b at q and, at every index i
strictly between, the truncation toward zero of the double obtained from a by
i - p successive double additions of the slope, the slope being the double
quotient of b - a by q - p; every other entry is left alone, and the function
returns at the end of the text or goes on with the next spec.  When q - p
divides b - a all these operations are exact and the stored value is the
closed form a + (b - a)/(q - p) * (i - p). -/
theorem parse_vector_dash (opt : SANE_Option_Descriptor) (str : List Char)
    (vector : List Int) (hlen : vector.length < 2147483648)
    (c : Cursor) (hreach : loop_reaches opt (loop_start str vector) c)
    (hsep : c.separator = '-')
    (q b : Int) (s1 s2 : List Char)
    (hidx : read_index c.str c.index = some (q, s1))
    (hpq : c.prev_index < q) (hq : q < vector.length)
    (hb : parse_scalar opt s1 = Scalar.ok b s2)
    (hend : peek s2 = Char.ofNat 0 ∨ peek s2 = ',' ∨ peek s2 = '-') :
    c.vector[c.prev_index.toNat]? = some c.prev_value
    ∧ 0 ≤ c.prev_index
    ∧ ((∀ i : Nat, c.prev_index < i → (i : Int) < q →
          ∃ w, to_word (ramp (slope_of c.prev_value b c.prev_index q) (of_int c.prev_value)
            (i - c.prev_index.toNat)) = some w) →
        ∃ out, store_value c.vector '-' c.prev_index c.prev_value q b = some out
          ∧ out.length = vector.length
          ∧ out[c.prev_index.toNat]? = some c.prev_value
          ∧ out[q.toNat]? = some b
          ∧ (∀ i : Nat, c.prev_index < i → (i : Int) < q →
              out[i]? = to_word (ramp (slope_of c.prev_value b c.prev_index q)
                (of_int c.prev_value) (i - c.prev_index.toNat)))
          ∧ (∀ j : Nat, (j : Int) < c.prev_index ∨ q < j → out[j]? = c.vector[j]?)
          ∧ ((peek s2 = Char.ofNat 0
                ∧ parse_vector opt str vector = (out, Outcome.returned))
              ∨ ((peek s2 = ',' ∨ peek s2 = '-')
                ∧ loop_reaches opt (loop_start str vector)
                    ⟨s2.tail, q, q, b, peek s2, out⟩)))
    ∧ ((q - c.prev_index) ∣ (b - c.prev_value) →
        ∃ out, store_value c.vector '-' c.prev_index c.prev_value q b = some out
          ∧ (∀ i : Nat, c.prev_index ≤ i → (i : Int) ≤ q →
              out[i]? = some (c.prev_value
                + (b - c.prev_value) / (q - c.prev_index) * ((i : Int) - c.prev_index)))
          ∧ (∀ j : Nat, (j : Int) < c.prev_index ∨ q < j → out[j]? = c.vector[j]?)
          ∧ ((peek s2 = Char.ofNat 0
                ∧ parse_vector opt str vector = (out, Outcome.returned))
              ∨ ((peek s2 = ',' ∨ peek s2 = '-')
                ∧ loop_reaches opt (loop_start str vector)
                    ⟨s2.tail, q, q, b, peek s2, out⟩))) := by
  obtain ⟨hl, hinv⟩ := loop_reaches_invariant opt str vector hlen c hreach
  have hne : c ≠ loop_start str vector := by
    intro he
    rw [he] at hsep
    have : (loop_start str vector).separator = Char.ofNat 0 := rfl
    rw [this] at hsep
    exact absurd hsep (by decide)
  rcases hinv with hi | ⟨hp0, hp1, _, ha1, ha2, hmem, _⟩
  · exact absurd hi hne
  have hw : wrap32 (c.vector.length : Int) = vector.length := by
    rw [hl]; unfold wrap32; omega
  have hin : ¬ (q < 0 ∨ q ≥ wrap32 c.vector.length) := by
    rw [hw]; omega
  have hr := parse_scalar_range _ _ _ _ hb
  -- the indices as natural numbers
  obtain ⟨p, hp⟩ : ∃ p : Nat, c.prev_index = p := ⟨c.prev_index.toNat, by omega⟩
  obtain ⟨qn, hqn⟩ : ∃ qn : Nat, q = qn := ⟨q.toNat, by omega⟩
  have hpt : c.prev_index.toNat = p := by omega
  have hqt : q.toNat = qn := by omega
  -- the continuation after the store
  have hcont : ∀ out, store_value c.vector '-' c.prev_index c.prev_value q b = some out →
      (peek s2 = Char.ofNat 0 ∧ parse_vector opt str vector = (out, Outcome.returned))
      ∨ ((peek s2 = ',' ∨ peek s2 = '-')
          ∧ loop_reaches opt (loop_start str vector) ⟨s2.tail, q, q, b, peek s2, out⟩) := by
    intro out hs
    have hs' : store_value c.vector c.separator c.prev_index c.prev_value q b = some out := by
      rw [hsep]; exact hs
    rcases hend with h0 | h1
    · left
      obtain ⟨fuel, _, heq⟩ := parse_vector_reaches opt str vector c hreach
      rw [heq]
      exact ⟨h0, vector_loop_last opt fuel c q b s1 s2 out hidx hin hb h0 hs'⟩
    · right
      exact ⟨h1, loop_reaches.next _ c q b s1 s2 out hreach hidx hin hb h1 hs'⟩
  refine ⟨hmem, hp0, ?_, ?_⟩
  · intro hconv
    rw [hpt] at hconv ⊢
    rw [hqt]
    rw [hp, hqn] at hconv ⊢
    have hconv' : ∀ i : Nat, p < i → i < qn →
        ∃ w, to_word (ramp (slope_of c.prev_value b p qn) (of_int c.prev_value) (i - p))
          = some w := by
      intro i h1 h2
      exact hconv i (by omega) (by omega)
    obtain ⟨out, h1, h2, h3, h4, h5⟩ := store_value_dash c.vector p qn c.prev_value b
      (by omega) (by omega) hconv'
    have hc := hcont out (by rw [hp, hqn]; exact h1)
    rw [hqn] at hc
    refine ⟨out, h1, by rw [h2, hl], ?_, h3, ?_, ?_, hc⟩
    · rw [h5 p (Or.inl le_rfl), ← hpt]; exact hmem
    · intro i hi1 hi2
      exact h4 i (by omega) (by omega)
    · intro j hj
      exact h5 j (by omega)
  · intro hdvd
    have hclosed := ramp_closed_form c.prev_value b c.prev_index q ha1 ha2 hr.1 hr.2 hpq
      (by omega) hdvd
    rw [hp, hqn] at hclosed hdvd ⊢
    have hconv' : ∀ i : Nat, p < i → i < qn →
        ∃ w, to_word (ramp (slope_of c.prev_value b p qn) (of_int c.prev_value) (i - p))
          = some w := by
      intro i h1 h2
      exact ⟨_, hclosed (i - p) (by omega)⟩
    obtain ⟨out, h1, h2, h3, h4, h5⟩ := store_value_dash c.vector p qn c.prev_value b
      (by omega) (by omega) hconv'
    have hc := hcont out (by rw [hp, hqn]; exact h1)
    rw [hqn] at hc
    refine ⟨out, h1, ?_, ?_, hc⟩
    · intro i hi1 hi2
      rcases Nat.lt_or_ge p i with hlt | hge
      · rcases Nat.lt_or_ge i qn with hlt2 | hge2
        · have e : ((i - p : Nat) : Int) = (i : Int) - p := by omega
          rw [h4 i hlt hlt2, hclosed (i - p) (by omega), e]
        · have hiq : i = qn := by omega
          have e : b = c.prev_value
              + (b - c.prev_value) / ((qn : Int) - p) * ((qn : Int) - p) := by
            rw [Int.ediv_mul_cancel hdvd]; ring
          rw [hiq, h3]
          exact congrArg some e
      · have hip : i = p := by omega
        rw [hip, h5 p (Or.inl le_rfl), ← hpt, hmem]
        simp
    · intro j hj
      exact h5 j (by omega)

/-- C3, amended, at the literal "5,[1]2-[4]8" on a destination of length 6:
behind the dash the loop has 2 at index 1; the spec "[4]8" ends the text, the
slope is the whole number 2 and the entries 1..4 are 2, 4, 6, 8. -/
theorem parse_vector_dash_witness :
    ∃ out, parse_vector ⟨SANE_Value_Type.INT, SANE_Unit.NONE⟩ "5,[1]2-[4]8".toList
          (List.replicate 6 7) = (out, Outcome.returned)
      ∧ ∀ i : Nat, (1 : Int) ≤ i → (i : Int) ≤ 4 →
          out[i]? = some (2 + (8 - 2) / (4 - 1) * ((i : Int) - 1)) := by
  obtain ⟨out, _, h2, _, h4⟩ :=
    (parse_vector_dash ⟨SANE_Value_Type.INT, SANE_Unit.NONE⟩ "5,[1]2-[4]8".toList
      (List.replicate 6 7) (by decide)
      ⟨"[4]8".toList, 1, 1, 2, '-', [5, 2, 0, 0, 0, 0]⟩
      (loop_reaches.next _ ⟨"[1]2-[4]8".toList, 0, 0, 5, ',', [5, 0, 0, 0, 0, 0]⟩ 1 2
        "2-[4]8".toList "-[4]8".toList [5, 2, 0, 0, 0, 0]
        (loop_reaches.next _ (loop_start "5,[1]2-[4]8".toList (List.replicate 6 7)) 0 5
          "5,[1]2-[4]8".toList ",[1]2-[4]8".toList [5, 0, 0, 0, 0, 0]
          (loop_reaches.here _) (by decide!) (by decide) (by decide!) (by decide)
          (by decide!))
        (by decide!) (by decide) (by decide!) (by decide) (by decide!))
      rfl 4 8 "8".toList [] (by decide!) (by decide) (by decide) (by decide!)
      (by decide)).2.2.2 (by decide)
  rcases h4 with ⟨_, h⟩ | ⟨h, _⟩
  · exact ⟨out, h, h2⟩
  · exact absurd h (by decide)

/-- C4: `parse_vector` at the failing input "[0]-2-[1]0": the endpoint value
-2 is stored as -1 (the rounding `v + 0.5` truncates toward zero), so entry 0
is not exactly the endpoint; on the two literals of the grammar comment the
claim holds: "[0]15-[255]15" fills a 256-entry vector with 15 and
"[0]0-[255]255" stores i at every index i. -/
theorem parse_vector_negative_endpoint :
    parse_vector ⟨SANE_Value_Type.INT, SANE_Unit.NONE⟩ "[0]-2-[1]0".toList [0, 0]
      = ([-1, 0], Outcome.returned)
    ∧ (∃ out, parse_vector ⟨SANE_Value_Type.INT, SANE_Unit.NONE⟩ "[0]15-[255]15".toList
          (List.replicate 256 0) = (out, Outcome.returned)
        ∧ ∀ i : Nat, i ≤ 255 → out[i]? = some 15)
    ∧ (∃ out, parse_vector ⟨SANE_Value_Type.INT, SANE_Unit.NONE⟩ "[0]0-[255]255".toList
          (List.replicate 256 0) = (out, Outcome.returned)
        ∧ ∀ i : Nat, i ≤ 255 → out[i]? = some (i : Int)) := by
  refine ⟨by decide!, ?_, ?_⟩
  · obtain ⟨out, h1, _, h3, _⟩ :=
      dash_literal_exact ⟨SANE_Value_Type.INT, SANE_Unit.NONE⟩ (List.replicate 256 0)
        0 255 15 15 ['1', '5'] ['1', '5'] (by decide)
        (by rw [List.length_replicate]; omega) (by rw [List.length_replicate]; omega)
        (by decide!) (by decide!) (by decide)
    refine ⟨out, h1, ?_⟩
    intro i hi
    rw [h3 i (by omega) hi]
    simp
  · obtain ⟨out, h1, _, h3, _⟩ :=
      dash_literal_exact ⟨SANE_Value_Type.INT, SANE_Unit.NONE⟩ (List.replicate 256 0)
        0 255 0 255 ['0'] ['2', '5', '5'] (by decide)
        (by rw [List.length_replicate]; omega) (by rw [List.length_replicate]; omega)
        (by decide!) (by decide!) (by decide)
    refine ⟨out, h1, ?_⟩
    intro i hi
    rw [h3 i (by omega) hi]
    simp

/-- C5, as stated, fails: the out-of-range error is raised, but the
destination does not keep its contents: "[1]5" on the one-entry vector [7]
leaves [0], and "1,2,3" on [7, 7] leaves [1, 2]. -/
theorem parse_vector_clobbers_destination :
    parse_vector ⟨SANE_Value_Type.INT, SANE_Unit.NONE⟩ "[1]5".toList [7]
      = ([0], Outcome.out_of_range)
    ∧ parse_vector ⟨SANE_Value_Type.INT, SANE_Unit.NONE⟩ "1,2,3".toList [7, 7]
      = ([1, 2], Outcome.out_of_range) := by
  constructor <;> decide!

/-- C5, amended: at whatever value spec of the literal the loop of
`parse_vector` stands (after zero or more accepted specs), an index that is
read there, explicit or defaulted, and is < 0 or >= n ends the function in
the out-of-range error; the destination then holds, not its previous
contents, but the zero fill with the stores of the accepted specs; for a
first spec it is all zeros.  An explicit index is a written int. -/
theorem parse_vector_index_out_of_range (opt : SANE_Option_Descriptor)
    (vector : List Int) (hlen : vector.length < 2147483648) :
    (∀ (str : List Char) (c : Cursor), loop_reaches opt (loop_start str vector) c →
      ∀ (i : Int) (rest : List Char), read_index c.str c.index = some (i, rest) →
        (i < 0 ∨ (vector.length : Int) ≤ i) →
        parse_vector opt str vector = (c.vector, Outcome.out_of_range)
        ∧ c.vector.length = vector.length)
    ∧ (∀ (str : List Char) (c : Cursor), loop_reaches opt (loop_start str vector) c →
      ∀ (i : Int) (rest : List Char), c.str = '[' :: (int_literal i ++ ']' :: rest) →
        -2147483648 ≤ i → i < 2147483648 → (i < 0 ∨ (vector.length : Int) ≤ i) →
        parse_vector opt str vector = (c.vector, Outcome.out_of_range))
    ∧ (∀ (str : List Char) (c : Cursor), loop_reaches opt (loop_start str vector) c →
      peek c.str ≠ '[' →
        (wrap32 (c.index + 1) < 0 ∨ (vector.length : Int) ≤ wrap32 (c.index + 1)) →
        parse_vector opt str vector = (c.vector, Outcome.out_of_range))
    ∧ (∀ (i : Int) (rest : List Char), (i < 0 ∨ (vector.length : Int) ≤ i) →
      -2147483648 ≤ i → i < 2147483648 →
      parse_vector opt ('[' :: (int_literal i ++ ']' :: rest)) vector
        = (List.replicate vector.length 0, Outcome.out_of_range)) := by
  have hw : wrap32 (vector.length : Int) = vector.length := by
    unfold wrap32; omega
  have key : ∀ (str : List Char) (c : Cursor), loop_reaches opt (loop_start str vector) c →
      ∀ (i : Int) (rest : List Char), read_index c.str c.index = some (i, rest) →
        (i < 0 ∨ (vector.length : Int) ≤ i) →
        parse_vector opt str vector = (c.vector, Outcome.out_of_range)
        ∧ c.vector.length = vector.length := by
    intro str c hreach i rest hi ho
    obtain ⟨fuel, _, heq⟩ := parse_vector_reaches opt str vector c hreach
    have hl := (loop_reaches_invariant opt str vector hlen c hreach).1
    refine ⟨?_, hl⟩
    rw [heq]
    apply vector_loop_out_of_range opt fuel c i rest hi
    rw [hl, hw]
    omega
  refine ⟨key, ?_, ?_, ?_⟩
  · intro str c hreach i rest hs h1 h2 ho
    have hr : read_index c.str c.index = some (i, rest) := by
      rw [hs]; exact read_index_explicit i h1 h2 rest c.index
    exact (key str c hreach i rest hr ho).1
  · intro str c hreach hp ho
    have hr : read_index c.str c.index = some (wrap32 (c.index + 1), c.str) := by
      unfold read_index
      simp only [hp, if_false]
    exact (key str c hreach _ _ hr ho).1
  · intro i rest ho h1 h2
    have hr : read_index ('[' :: (int_literal i ++ ']' :: rest)) (-1) = some (i, rest) :=
      read_index_explicit i h1 h2 rest (-1)
    exact (key _ _ (loop_reaches.here _) i rest hr ho).1

/-- C5, amended, at the literal "1,[5]2" and the destination [7, 7]: the
second spec has the explicit index 5; the function ends in the out-of-range
error and the destination holds [1, 0]. -/
theorem parse_vector_index_out_of_range_witness :
    parse_vector ⟨SANE_Value_Type.INT, SANE_Unit.NONE⟩ "1,[5]2".toList [7, 7]
      = ([1, 0], Outcome.out_of_range) :=
  (parse_vector_index_out_of_range ⟨SANE_Value_Type.INT, SANE_Unit.NONE⟩ [7, 7]
    (by decide)).2.1 "1,[5]2".toList ⟨"[5]2".toList, 0, 0, 1, ',', [1, 0]⟩
    (loop_reaches.next _ (loop_start "1,[5]2".toList [7, 7]) 0 1 "1,[5]2".toList
      ",[5]2".toList [1, 0] (loop_reaches.here _) (by decide!) (by decide) (by decide!)
      (by decide) (by decide!))
    5 ['2'] (by decide!) (by decide) (by decide) (by decide)

/-! ## Properties of the capture pipeline -/

theorem wrap32_of_range (x : Int) (h1 : -2147483648 ≤ x) (h2 : x < 2147483648) :
    wrap32 x = x := by
  unfold wrap32; omega

theorem wrap32_add_wrap32 (a b : Int) : wrap32 (wrap32 a + b) = wrap32 (a + b) := by
  unfold wrap32; omega

theorem negotiate_calls_le (start : Nat → SANE_Status) (tries k : Nat) :
    (negotiate start tries k).2 ≤ k + tries := by
  induction tries generalizing k with
  | zero => simp [negotiate]
  | succ t ih =>
    simp only [negotiate]
    split_ifs
    · simp
    · have := ih (k + 1); omega
    · simp
    · simp

theorem negotiate_all_warming (start : Nat → SANE_Status) (tries k : Nat)
    (h : ∀ i, i < tries → start (k + i) = SANE_Status.WARMING_UP) :
    negotiate start tries k = (Sum.inl SANE_Status.IO_ERROR, k + tries) := by
  induction tries generalizing k with
  | zero => simp [negotiate]
  | succ t ih =>
    have h0 : start k = SANE_Status.WARMING_UP := by simpa using h 0 (by omega)
    have ht : ∀ i, i < t → start (k + 1 + i) = SANE_Status.WARMING_UP := by
      intro i hi
      have := h (i + 1) (by omega)
      rwa [show k + (i + 1) = k + 1 + i by omega] at this
    simp only [negotiate, h0]
    rw [ih (k + 1) ht]
    simp; omega

theorem negotiate_good_at (start : Nat → SANE_Status) (tries k j : Nat) (hj : j < tries)
    (hw : ∀ i, i < j → start (k + i) = SANE_Status.WARMING_UP)
    (hg : start (k + j) = SANE_Status.GOOD) :
    negotiate start tries k = (Sum.inr (), k + j + 1) := by
  induction tries generalizing k j with
  | zero => omega
  | succ t ih =>
    cases j with
    | zero =>
      have h0 : start k = SANE_Status.GOOD := by simpa using hg
      simp [negotiate, h0]
    | succ j =>
      have h0 : start k = SANE_Status.WARMING_UP := by simpa using hw 0 (by omega)
      have hw2 : ∀ i, i < j → start (k + 1 + i) = SANE_Status.WARMING_UP := by
        intro i hi
        have := hw (i + 1) (by omega)
        rwa [show k + (i + 1) = k + 1 + i by omega] at this
      have hg2 : start (k + 1 + j) = SANE_Status.GOOD := by
        rwa [show k + (j + 1) = k + 1 + j by omega] at hg
      simp only [negotiate, h0]
      rw [ih (k + 1) j (by omega) hw2 hg2]
      simp; omega

/-- The read loop on a script of GOOD chunks followed by a non-GOOD answer:
it stops at that answer, having made one call per script entry up to it and
accumulated the chunk lengths in a 32-bit word. -/
theorem read_loop_until (bpl : Int) (hb : bpl ≠ 0) (goods : List Int)
    (st : SANE_Status) (l : Int) (rest : List (SANE_Status × Int))
    (hst : st ≠ SANE_Status.GOOD) (s0 : Stream)
    (h0 : wrap32 s0.total_bytes = s0.total_bytes) :
    ∃ s, read_loop bpl (goods.map (fun n => (SANE_Status.GOOD, n)) ++ (st, l) :: rest) s0
          = Except.ok s
      ∧ s.status = st ∧ s.read_calls = s0.read_calls + goods.length + 1
      ∧ s.total_bytes = wrap32 (s0.total_bytes + goods.sum) := by
  induction goods generalizing s0 with
  | nil =>
    refine ⟨{ s0 with status := st, read_calls := s0.read_calls + 1 }, ?_, ?_, ?_, ?_⟩
    · by_cases he : st = SANE_Status.EOF
      · simp [read_loop, he]
      · simp [read_loop, he, hst]
    · rfl
    · simp
    · simp [h0]
  | cons n goods ih =>
    have key := ih
      { status := SANE_Status.GOOD, read_calls := s0.read_calls + 1,
        rows := (write_scanlines (Int.tdiv n bpl) s0.rows s0.written).2,
        written := (write_scanlines (Int.tdiv n bpl) s0.rows s0.written).1,
        total_bytes := wrap32 (s0.total_bytes + n) }
      (by simp only [wrap32]; omega)
    obtain ⟨s, hs, h1, h2, h3⟩ := key
    refine ⟨s, ?_, h1, ?_, ?_⟩
    · simp only [List.map_cons, List.cons_append, read_loop]
      simp [hb, hs]
    · simp only [h2, List.length_cons]; omega
    · rw [h3]
      simp only [List.sum_cons]
      rw [wrap32_add_wrap32]
      congr 1; ring

theorem check_sane_format_depth (parm : SANE_Parameters)
    (h : check_sane_format parm = 1) :
    parm.depth = 1 ∨ parm.depth = 8 ∨ parm.depth = 16 := by
  unfold check_sane_format at h
  split_ifs at h <;> omega

/-- Once negotiation, parameter fetch, format check and allocation have
succeeded, `scan_to_tiff` is the read loop followed by the overrun test. -/
theorem scan_to_tiff_streaming (verbose : Int) (c : Capture) (k : Nat)
    (hneg : negotiate c.start 4 0 = (Sum.inr (), k))
    (hp : c.parm_status = SANE_Status.GOOD)
    (hf : check_sane_format c.parm = 1)
    (hppl : c.parm.pixels_per_line ≠ 0)
    (hm : c.malloc_ok = true) :
    scan_to_tiff verbose c =
      match read_loop c.parm.bytes_per_line c.reads stream_init with
      | Except.error f => Except.error f
      | Except.ok s =>
        Except.ok { status := s.status, starts := k, read_calls := s.read_calls,
                    rows := s.written, total_bytes := s.total_bytes,
                    warnings := overrun_warnings c.parm s.total_bytes } := by
  have hd := check_sane_format_depth c.parm hf
  have hd0 : c.parm.depth ≠ 0 := by omega
  unfold scan_to_tiff
  rw [hneg]
  simp [hp, hf, hppl, hm, hd0, stream_init]

/-- C8: the warm-up retry of `scan_to_tiff`.  For every device, `sane_start` is
called at most 4 times (in the retry loop itself, and so in every page the
function returns); if the first four answers are all WARMING_UP the function
returns IO_ERROR after exactly 4 calls without a single `sane_read`; and if
the answer number j < 4 is GOOD after only WARMING_UP answers, control
reaches `sane_get_parameters` after j+1 calls, and with good parameters, a
supported format and a buffer the function runs the read loop. -/
theorem scan_to_tiff_warm_up_budget (verbose : Int) (c : Capture) :
    (negotiate c.start 4 0).2 ≤ 4
    ∧ (∀ p, scan_to_tiff verbose c = Except.ok p → p.starts ≤ 4)
    ∧ ((∀ k, k < 4 → c.start k = SANE_Status.WARMING_UP) →
        scan_to_tiff verbose c =
          Except.ok { status := SANE_Status.IO_ERROR, starts := 4, read_calls := 0,
                      rows := [], total_bytes := 0, warnings := 0 })
    ∧ (∀ j, j < 4 → (∀ k, k < j → c.start k = SANE_Status.WARMING_UP) →
        c.start j = SANE_Status.GOOD →
        negotiate c.start 4 0 = (Sum.inr (), j + 1)
        ∧ (c.parm_status = SANE_Status.GOOD → check_sane_format c.parm = 1 →
            c.parm.pixels_per_line ≠ 0 → c.malloc_ok = true →
            scan_to_tiff verbose c =
              match read_loop c.parm.bytes_per_line c.reads stream_init with
              | Except.error f => Except.error f
              | Except.ok s =>
                Except.ok { status := s.status, starts := j + 1,
                            read_calls := s.read_calls, rows := s.written,
                            total_bytes := s.total_bytes,
                            warnings := overrun_warnings c.parm s.total_bytes })) := by
  have hle : (negotiate c.start 4 0).2 ≤ 4 := by
    have := negotiate_calls_le c.start 4 0; omega
  refine ⟨hle, ?_, ?_, ?_⟩
  · intro p hp
    unfold scan_to_tiff at hp
    rcases hn : negotiate c.start 4 0 with ⟨r, k⟩
    rw [hn] at hp hle
    simp only at hle
    cases r with
    | inl st =>
      simp only [Except.ok.injEq] at hp
      rw [← hp]; exact hle
    | inr u =>
      simp only at hp
      split_ifs at hp
      · simp only [Except.ok.injEq] at hp; rw [← hp]; exact hle
      · simp only [Except.ok.injEq] at hp; rw [← hp]; exact hle
      · simp only [Except.ok.injEq] at hp; rw [← hp]; exact hle
      · split at hp
        · exact absurd hp (by simp)
        · simp only [Except.ok.injEq] at hp; rw [← hp]; exact hle
  · intro h
    have hn := negotiate_all_warming c.start 4 0 (by intro i hi; simpa using h i hi)
    unfold scan_to_tiff
    rw [hn]
  · intro j hj hw hg
    have hn := negotiate_good_at c.start 4 0 j hj (by intro i hi; simpa using hw i hi)
      (by simpa using hg)
    simp only [Nat.zero_add] at hn
    refine ⟨hn, ?_⟩
    intro hp hf hppl hm
    exact scan_to_tiff_streaming verbose c (j + 1) hn hp hf hppl hm

/-- C8, at concrete devices: five (indeed any number of) WARMING_UP answers
end the page with IO_ERROR after 4 start requests and no read; two WARMING_UP
answers followed by GOOD lead into the read loop after 3 start requests. -/
theorem scan_to_tiff_warm_up_budget_witness :
    scan_to_tiff 0 frozen_capture =
      Except.ok { status := SANE_Status.IO_ERROR, starts := 4, read_calls := 0,
                  rows := [], total_bytes := 0, warnings := 0 }
    ∧ negotiate (page_capture []).start 4 0 = (Sum.inr (), 3) :=
  ⟨(scan_to_tiff_warm_up_budget 0 frozen_capture).2.2.1 (fun _ _ => rfl),
   ((scan_to_tiff_warm_up_budget 0 (page_capture [])).2.2.2 2 (by decide)
      (fun k hk => by simp [page_capture, hk]) (by simp [page_capture])).1⟩

/-- C9, as stated, fails: with zero declared rows of 10 bytes the row count
is known and the 10 bytes read exceed rowStride * totalRows = 0, yet no
overrun warning is printed. -/
theorem overrun_silent_when_expected_is_zero :
    0 ≤ zero_rows_capture.parm.lines
    ∧ zero_rows_capture.parm.bytes_per_line * zero_rows_capture.parm.lines < 10
    ∧ scan_to_tiff 0 zero_rows_capture =
        Except.ok { status := SANE_Status.EOF, starts := 1, read_calls := 2,
                    rows := [0], total_bytes := 10, warnings := 0 } := by
  refine ⟨by decide, by decide, ?_⟩
  rfl

/-- A run of `scan_to_tiff` that reaches the read loop, receives the chunks
`goods` and then a non-GOOD status: the page it returns. -/
theorem scan_to_tiff_until (verbose : Int) (c : Capture) (k : Nat)
    (goods : List Int) (st : SANE_Status) (l : Int) (rest : List (SANE_Status × Int))
    (hneg : negotiate c.start 4 0 = (Sum.inr (), k))
    (hp : c.parm_status = SANE_Status.GOOD)
    (hf : check_sane_format c.parm = 1)
    (hppl : c.parm.pixels_per_line ≠ 0)
    (hm : c.malloc_ok = true)
    (hb : c.parm.bytes_per_line ≠ 0)
    (hreads : c.reads = goods.map (fun n => (SANE_Status.GOOD, n)) ++ (st, l) :: rest)
    (hst : st ≠ SANE_Status.GOOD) :
    ∃ p, scan_to_tiff verbose c = Except.ok p
      ∧ p.status = st ∧ p.starts = k ∧ p.read_calls = goods.length + 1
      ∧ p.total_bytes = wrap32 goods.sum
      ∧ p.warnings = overrun_warnings c.parm (wrap32 goods.sum) := by
  obtain ⟨s, hs, h1, h2, h3⟩ := read_loop_until c.parm.bytes_per_line hb goods st l rest hst
    stream_init (by decide)
  rw [← hreads] at hs
  have ht : s.total_bytes = wrap32 goods.sum := by
    rw [h3]; simp [stream_init]
  refine ⟨{ status := s.status, starts := k, read_calls := s.read_calls,
             rows := s.written, total_bytes := s.total_bytes,
             warnings := overrun_warnings c.parm s.total_bytes }, ?_, h1, rfl, ?_, ht, ?_⟩
  · rw [scan_to_tiff_streaming verbose c k hneg hp hf hppl hm, hs]
  · simp [h2, stream_init]
  · simp only [ht]

/-- C9, amended: when `scan_to_tiff` reaches its read loop and the device
delivers the chunks `goods` and then a non-GOOD status, the function returns
with `total_bytes` the 32-bit sum of the chunk lengths, and the overrun
warning is printed exactly once if the row count is non-negative, the
expected count `bytes_per_line * lines` (a 32-bit product) is non-zero and
`total_bytes` exceeds it, and not at all otherwise. -/
theorem scan_to_tiff_overrun (verbose : Int) (c : Capture) (k : Nat)
    (goods : List Int) (st : SANE_Status) (l : Int) (rest : List (SANE_Status × Int))
    (hneg : negotiate c.start 4 0 = (Sum.inr (), k))
    (hp : c.parm_status = SANE_Status.GOOD)
    (hf : check_sane_format c.parm = 1)
    (hppl : c.parm.pixels_per_line ≠ 0)
    (hm : c.malloc_ok = true)
    (hb : c.parm.bytes_per_line ≠ 0)
    (hreads : c.reads = goods.map (fun n => (SANE_Status.GOOD, n)) ++ (st, l) :: rest)
    (hst : st ≠ SANE_Status.GOOD) :
    ∃ p, scan_to_tiff verbose c = Except.ok p
      ∧ p.total_bytes = wrap32 goods.sum
      ∧ p.warnings =
          (if 0 ≤ c.parm.lines ∧ wrap32 (c.parm.bytes_per_line * c.parm.lines) ≠ 0
              ∧ wrap32 (c.parm.bytes_per_line * c.parm.lines) < wrap32 goods.sum
           then 1 else 0) := by
  obtain ⟨p, hp1, _, _, _, ht, hw⟩ :=
    scan_to_tiff_until verbose c k goods st l rest hneg hp hf hppl hm hb hreads hst
  refine ⟨p, hp1, ht, ?_⟩
  rw [hw]
  simp only [overrun_warnings]
  by_cases hl : c.parm.lines < 0
  · have hl2 : ¬ (0 ≤ c.parm.lines) := by omega
    simp [hl, hl2]
  · have hl2 : 0 ≤ c.parm.lines := by omega
    simp only [hl, hl2, if_false, true_and, gt_iff_lt]
    by_cases h1 : wrap32 (c.parm.bytes_per_line * c.parm.lines) = 0
    · simp [h1]
    · by_cases h2 : wrap32 (c.parm.bytes_per_line * c.parm.lines) < wrap32 goods.sum
      · simp [h1, h2]
      · simp [h1, h2]

/-- C9, amended, at a concrete capture: 100 rows of 10 bytes declared, 1100
bytes delivered in three chunks, then end of data: one warning. -/
theorem scan_to_tiff_overrun_witness :
    ∃ p, scan_to_tiff 0 (page_capture [(SANE_Status.GOOD, 500), (SANE_Status.GOOD, 500),
            (SANE_Status.GOOD, 100), (SANE_Status.EOF, 0)]) = Except.ok p
      ∧ p.total_bytes = wrap32 ([500, 500, 100] : List Int).sum
      ∧ p.warnings =
          (if (0 : Int) ≤ 100 ∧ wrap32 (10 * 100) ≠ 0
              ∧ wrap32 (10 * 100) < wrap32 ([500, 500, 100] : List Int).sum
           then 1 else 0) :=
  scan_to_tiff_overrun 0 (page_capture [(SANE_Status.GOOD, 500), (SANE_Status.GOOD, 500),
      (SANE_Status.GOOD, 100), (SANE_Status.EOF, 0)]) 3 [500, 500, 100] SANE_Status.EOF 0 []
    (by rfl) rfl (by rfl) (by decide) rfl (by decide) (by rfl) (by decide)

/-- A non-batch run of `scan` over a page whose capture ends with end of
data: the status is mapped to GOOD, the page is finalized and the container
closed. -/
theorem scan_single_page (cfg : Config) (c : Capture) (p : Page)
    (hb : cfg.batch = 0)
    (hc : scan_to_tiff cfg.verbose c = Except.ok p)
    (hs : p.status = SANE_Status.EOF) :
    scan cfg [⟨true, true, c⟩] =
      Except.ok (SANE_Status.GOOD, 1,
        [Event.tiff_open cfg.batch_start_at, Event.capture cfg.batch_start_at p,
         Event.write_directory, Event.close]) := by
  simp [scan, page_loop, hc, hs, hb, wrap32]

/-- C10: an overrun does not change the status of the page.  Whenever
`scan_to_tiff` reaches its read loop and receives chunks and then a non-GOOD
status, it returns that status, whatever the byte counts; with 100 rows of 10
bytes declared, 1000 bytes followed by end of data give EOF and no warning,
1100 bytes give EOF and exactly one warning; and a page returned with EOF is
mapped to GOOD by `scan`, which finalizes it. -/
theorem overrun_keeps_status (verbose : Int) (c : Capture) (k : Nat)
    (goods : List Int) (st : SANE_Status) (l : Int) (rest : List (SANE_Status × Int))
    (hneg : negotiate c.start 4 0 = (Sum.inr (), k))
    (hp : c.parm_status = SANE_Status.GOOD)
    (hf : check_sane_format c.parm = 1)
    (hppl : c.parm.pixels_per_line ≠ 0)
    (hm : c.malloc_ok = true)
    (hb : c.parm.bytes_per_line ≠ 0)
    (hreads : c.reads = goods.map (fun n => (SANE_Status.GOOD, n)) ++ (st, l) :: rest)
    (hst : st ≠ SANE_Status.GOOD) :
    ∃ p, scan_to_tiff verbose c = Except.ok p
      ∧ p.status = st
      ∧ (c.parm.lines = 100 → c.parm.bytes_per_line = 10 → goods.sum = 1000 →
          p.warnings = 0)
      ∧ (c.parm.lines = 100 → c.parm.bytes_per_line = 10 → goods.sum = 1100 →
          p.warnings = 1)
      ∧ (st = SANE_Status.EOF → ∀ cfg : Config, cfg.verbose = verbose → cfg.batch = 0 →
          scan cfg [⟨true, true, c⟩] =
            Except.ok (SANE_Status.GOOD, 1,
              [Event.tiff_open cfg.batch_start_at, Event.capture cfg.batch_start_at p,
               Event.write_directory, Event.close])) := by
  obtain ⟨p, hp1, hs, _, _, _, hw⟩ :=
    scan_to_tiff_until verbose c k goods st l rest hneg hp hf hppl hm hb hreads hst
  refine ⟨p, hp1, hs, ?_, ?_, ?_⟩
  · intro h1 h2 h3
    rw [hw, h3]
    simp [overrun_warnings, h1, h2, wrap32]
  · intro h1 h2 h3
    rw [hw, h3]
    simp [overrun_warnings, h1, h2, wrap32]
  · intro he cfg hv hbatch
    subst hv
    exact scan_single_page cfg c p hbatch hp1 (by rw [hs, he])

/-- C10, at concrete captures: 100 rows of 10 bytes declared; 1000 bytes in
two chunks and then end of data. -/
theorem overrun_keeps_status_witness :
    ∃ p, scan_to_tiff 0 (page_capture [(SANE_Status.GOOD, 500), (SANE_Status.GOOD, 500),
            (SANE_Status.EOF, 0)]) = Except.ok p
      ∧ p.status = SANE_Status.EOF
      ∧ ((100 : Int) = 100 → (10 : Int) = 10 → ([500, 500] : List Int).sum = 1000 →
          p.warnings = 0)
      ∧ ((100 : Int) = 100 → (10 : Int) = 10 → ([500, 500] : List Int).sum = 1100 →
          p.warnings = 1)
      ∧ (SANE_Status.EOF = SANE_Status.EOF → ∀ cfg : Config, cfg.verbose = 0 →
          cfg.batch = 0 →
          scan cfg [⟨true, true, page_capture [(SANE_Status.GOOD, 500),
              (SANE_Status.GOOD, 500), (SANE_Status.EOF, 0)]⟩] =
            Except.ok (SANE_Status.GOOD, 1,
              [Event.tiff_open cfg.batch_start_at, Event.capture cfg.batch_start_at p,
               Event.write_directory, Event.close])) :=
  overrun_keeps_status 0 (page_capture [(SANE_Status.GOOD, 500), (SANE_Status.GOOD, 500),
      (SANE_Status.EOF, 0)]) 3 [500, 500] SANE_Status.EOF 0 []
    (by rfl) rfl (by rfl) (by decide) rfl (by decide) (by rfl) (by decide)

/-- C6: `check_sane_format` at the failing input: for the combined multichannel
layout (RGB) and the infrared-augmented layout (RGBI) a bit depth of 1 is
accepted, because the case has no `break` and falls through into the
grayscale test; the specification wants depth 1 rejected for these layouts. -/
theorem check_sane_format_rgb_depth_one (lines ppl bpl : Int) :
    check_sane_format { format := SANE_FRAME_RGB, lines := lines, depth := 1,
                        pixels_per_line := ppl, bytes_per_line := bpl } = 1
    ∧ check_sane_format { format := SANE_FRAME_RGBI, lines := lines, depth := 1,
                          pixels_per_line := ppl, bytes_per_line := bpl } = 1 := by
  constructor <;> rfl

/-- C7: `check_sane_format` accepts a per-channel layout (red, green, blue)
exactly at depth 8, accepts grayscale and single-channel infrared exactly at
depths 1, 8 and 16, and rejects every frame tag other than the seven known
ones at every depth. -/
theorem check_sane_format_matrix (parm : SANE_Parameters) :
    ((parm.format = SANE_FRAME_RED ∨ parm.format = SANE_FRAME_GREEN
        ∨ parm.format = SANE_FRAME_BLUE) →
      (check_sane_format parm = 1 ↔ parm.depth = 8))
    ∧ ((parm.format = SANE_FRAME_GRAY ∨ parm.format = SANE_FRAME_IR) →
      (check_sane_format parm = 1 ↔
        (parm.depth = 1 ∨ parm.depth = 8 ∨ parm.depth = 16)))
    ∧ ((parm.format ≠ SANE_FRAME_GRAY ∧ parm.format ≠ SANE_FRAME_RGB
        ∧ parm.format ≠ SANE_FRAME_RED ∧ parm.format ≠ SANE_FRAME_GREEN
        ∧ parm.format ≠ SANE_FRAME_BLUE ∧ parm.format ≠ SANE_FRAME_IR
        ∧ parm.format ≠ SANE_FRAME_RGBI) →
      check_sane_format parm = 0) := by
  obtain ⟨f, l, d, p, b⟩ := parm
  simp only [check_sane_format, SANE_FRAME_RED, SANE_FRAME_GREEN, SANE_FRAME_BLUE,
    SANE_FRAME_GRAY, SANE_FRAME_IR, SANE_FRAME_RGB, SANE_FRAME_RGBI]
  refine ⟨?_, ?_, ?_⟩
  · intro h
    have h1 : f = 2 ∨ f = 3 ∨ f = 4 := h
    simp only [h1, if_true]
    by_cases hd : d = 8 <;> simp [hd]
  · intro h
    have h1 : ¬ (f = 2 ∨ f = 3 ∨ f = 4) := by omega
    have h2 : ¬ (f = 16 ∨ f = 1) := by omega
    have h3 : f = 15 ∨ f = 0 := by omega
    simp only [h1, h2, h3, if_true, if_false]
    by_cases hd : d = 16 ∨ d = 8 ∨ d = 1
    · simp only [hd, if_true, true_iff]; omega
    · simp only [hd, if_false]
      constructor
      · intro h0; omega
      · intro h0; omega
  · intro h
    have h1 : ¬ (f = 2 ∨ f = 3 ∨ f = 4) := by omega
    have h2 : ¬ (f = 16 ∨ f = 1) := by omega
    have h3 : ¬ (f = 15 ∨ f = 0) := by omega
    simp only [h1, h2, h3, if_false]

/-- C7, at a concrete input: frame tag 5 is none of the seven known tags and
is rejected at depth 8; red at depth 8 is accepted; gray at depth 1 is
accepted. -/
theorem check_sane_format_matrix_witness :
    check_sane_format ⟨5, 10, 8, 10, 10⟩ = 0
    ∧ check_sane_format ⟨SANE_FRAME_RED, 10, 8, 10, 10⟩ = 1
    ∧ check_sane_format ⟨SANE_FRAME_GRAY, 10, 1, 10, 10⟩ = 1 :=
  ⟨(check_sane_format_matrix ⟨5, 10, 8, 10, 10⟩).2.2 (by decide),
   ((check_sane_format_matrix ⟨SANE_FRAME_RED, 10, 8, 10, 10⟩).1 (Or.inl rfl)).2 rfl,
   ((check_sane_format_matrix ⟨SANE_FRAME_GRAY, 10, 1, 10, 10⟩).2.1 (Or.inl rfl)).2
     (Or.inl rfl)⟩

/-! ## Whole numbers with a unit -/

/-- An Int-typed descriptor reading a non-negative whole number that fits a
word: the value is the number and the unit decides the rest. -/
theorem parse_scalar_whole (opt : SANE_Option_Descriptor)
    (ht : opt.type = SANE_Value_Type.INT) (n : Nat) (hn : n < 2147483648)
    (rest rest2 : List Char) (hr : (peek rest).isDigit = false)
    (hu : apply_unit opt.unit (of_int n) rest = some (of_int n, rest2)) :
    parse_scalar opt (int_literal n ++ rest) = Scalar.ok n rest2 := by
  have hs := strtol_int_literal (n : Int) (by unfold LONG_MAX; omega)
    (by unfold LONG_MAX; omega) rest hr
  have hv := to_word_add_half (n : Int) (by omega) (by omega)
  have h0 : (0 : Int) ≤ n := by omega
  simp only [h0, if_true] at hv
  rw [strtol_conv opt ht, hs]
  simp only [hu, hv]

/-- C18: `parse_vector` at the failing input "1cm,2cm" (Int-typed
Millimeter-unit descriptor, length 2).  Each scalar is accepted on its own,
"1cm" as 10 and "2cm" as 20, but in the vector the unit of the first element
is compared with `strcmp` against the whole rest "cm,2cm", so the function
ends in the illegal-unit error with nothing stored; the one-character units
do work inside a vector ("1%,2%" gives [1, 2]). -/
theorem parse_vector_unit_inside_vector :
    parse_scalar ⟨SANE_Value_Type.INT, SANE_Unit.MM⟩ "1cm".toList = Scalar.ok 10 []
    ∧ parse_scalar ⟨SANE_Value_Type.INT, SANE_Unit.MM⟩ "2cm".toList = Scalar.ok 20 []
    ∧ parse_vector ⟨SANE_Value_Type.INT, SANE_Unit.MM⟩ "1cm,2cm".toList [0, 0]
        = ([0, 0], Outcome.illegal_unit)
    ∧ parse_vector ⟨SANE_Value_Type.INT, SANE_Unit.PERCENT⟩ "1%,2%".toList [0, 0]
        = ([1, 2], Outcome.returned) := by
  refine ⟨?_, ?_, ?_, ?_⟩ <;> decide!

/-! ## Comma-separated values -/

theorem strtol_bracket (t : List Char) : strtol ('[' :: t) = none := by
  simp [strtol, skip_space, isspace, take_sign, take_digits]

theorem strtod_bracket (t : List Char) : strtod ('[' :: t) = none := by
  simp [strtod, skip_space, isspace, take_sign, take_digits, special_literal, hex_literal,
    decimal_literal]

/-- A text that `parse_scalar` accepts does not start with a bracket. -/
theorem parse_scalar_no_bracket (opt : SANE_Option_Descriptor) (s r : List Char) (v : Int)
    (h : parse_scalar opt s = Scalar.ok v r) : peek s ≠ '[' := by
  intro hp
  match s, hp with
  | c :: t, hp =>
    have hc : c = '[' := hp
    subst hc
    unfold parse_scalar at h
    simp only [strtol_bracket, strtod_bracket, Option.map_none', ite_self] at h
    exact Scalar.noConfusion h

theorem comma_list_no_bracket (opt : SANE_Option_Descriptor) (str : List Char)
    (vals : List Int) (h : comma_list opt str vals) : peek str ≠ '[' := by
  cases h with
  | last _ v h => exact parse_scalar_no_bracket opt _ _ _ h
  | next _ rest v vals h _ => exact parse_scalar_no_bracket opt _ _ _ h

/-- The loop of `parse_vector` over a comma-separated list of scalars whose
first index is `i`: the values are stored at `i`, `i + 1`, ... -/
theorem vector_loop_values (opt : SANE_Option_Descriptor) (vals : List Int)
    (str : List Char) (h : comma_list opt str vals) :
    ∀ (fuel : Nat) (text : List Char) (index i prev_index prev_value : Int)
      (separator : Char) (vector : List Int),
      read_index text index = some (i, str) → text.length < fuel → separator ≠ '-' →
      0 ≤ i → i + vals.length ≤ vector.length → vector.length < 2147483648 →
      vector_loop opt fuel text index prev_index prev_value separator vector
        = (store_from vector i.toNat vals, Outcome.returned) := by
  induction h with
  | last str v hs =>
    intro fuel text index i pi pv sep vector hr hf hsep hi hlen hn
    match fuel, hf with
    | f + 1, hf =>
      have hw : wrap32 (vector.length : Int) = vector.length :=
        wrap32_of_range _ (by omega) (by omega)
      have hrange : ¬ (i < 0 ∨ i ≥ wrap32 (vector.length : Int)) := by
        rw [hw]; simp only [List.length_singleton, Nat.cast_one] at hlen; omega
      unfold vector_loop
      simp only [hr, hrange, if_false, hs, store_value, hsep, store_from]
      simp [peek]
  | next str rest v vals hs hrest ih =>
    intro fuel text index i pi pv sep vector hr hf hsep hi hlen hn
    match fuel, hf with
    | f + 1, hf =>
      have hw : wrap32 (vector.length : Int) = vector.length :=
        wrap32_of_range _ (by omega) (by omega)
      simp only [List.length_cons, Nat.cast_add, Nat.cast_one] at hlen
      have hrange : ¬ (i < 0 ∨ i ≥ wrap32 (vector.length : Int)) := by
        rw [hw]; omega
      have hl1 := read_index_length _ _ _ _ hr
      have hl2 := parse_scalar_length _ _ _ _ hs
      simp only [List.length_cons] at hl2
      have hnext : read_index rest i = some (i + 1, rest) := by
        unfold read_index
        rw [if_neg (comma_list_no_bracket opt rest vals hrest),
          wrap32_of_range _ (by omega) (by omega)]
      have := ih f rest i (i + 1) i v ',' (vector.set i.toNat v) hnext (by omega)
        (by decide) (by omega) (by rw [List.length_set]; omega)
        (by rw [List.length_set]; exact hn)
      have hto : (i + 1).toNat = i.toNat + 1 := by omega
      unfold vector_loop
      simp only [hr, hrange, if_false, hs, store_value, hsep, store_from]
      simp [peek, this, hto]

/-- Consecutive stores into zeroed memory. -/
theorem store_from_zeros (vals : List Int) :
    ∀ (pre : List Int) (m : Nat), vals.length ≤ m →
      store_from (pre ++ List.replicate m 0) pre.length vals
        = pre ++ vals ++ List.replicate (m - vals.length) 0 := by
  induction vals with
  | nil => intro pre m _; simp [store_from]
  | cons v vs ih =>
    intro pre m hm
    simp only [List.length_cons] at hm
    obtain ⟨k, rfl⟩ : ∃ k, m = k + 1 := ⟨m - 1, by omega⟩
    have hset : (pre ++ List.replicate (k + 1) 0).set pre.length v
        = (pre ++ [v]) ++ List.replicate k 0 := by
      rw [List.set_append_right _ _ (le_refl _)]
      simp [List.replicate_succ]
    have := ih (pre ++ [v]) k (by omega)
    simp only [List.length_append, List.length_singleton] at this
    rw [store_from, hset, this]
    simp

/-- Whole numbers below 2^31 written in decimal and joined by commas form a
comma-separated list for an Int-typed descriptor without unit. -/
theorem comma_list_int_literals (n : Nat) (ns : List Nat)
    (h : ∀ m ∈ n :: ns, m < 2147483648) :
    comma_list ⟨SANE_Value_Type.INT, SANE_Unit.NONE⟩ (comma_literal n ns)
      ((n :: ns).map (fun m : Nat => (m : Int))) := by
  induction ns generalizing n with
  | nil =>
    have := parse_scalar_whole ⟨SANE_Value_Type.INT, SANE_Unit.NONE⟩ rfl n
      (h n (List.mem_cons_self _ _)) [] [] (by decide) rfl
    rw [List.append_nil] at this
    exact comma_list.last _ _ this
  | cons k ks ih =>
    have hn := parse_scalar_whole ⟨SANE_Value_Type.INT, SANE_Unit.NONE⟩ rfl n
      (h n (List.mem_cons_self _ _)) (',' :: comma_literal k ks) _ (by simp [peek]) rfl
    exact comma_list.next _ _ _ _ hn
      (ih k (fun m hm => h m (List.mem_cons_of_mem _ hm)))

/-- A literal of k ≤ n scalars separated by ',' (each accepted by
`parse_scalar` where the loop meets it, the last one ending the text), on a
destination of length n < 2^31: `parse_vector` returns with the j-th value at
index j-1 and 0 at every other index, whatever the destination held before;
and when the literal starts with an explicit index "[i]" (i + k ≤ n) the
values land at i, i+1, ..., with 0 at every other index. -/
theorem comma_list_stored (opt : SANE_Option_Descriptor) (str : List Char)
    (vals : List Int) (vector : List Int) (h : comma_list opt str vals)
    (hk : vals.length ≤ vector.length) (hn : vector.length < 2147483648) :
    parse_vector opt str vector
      = (vals ++ List.replicate (vector.length - vals.length) 0, Outcome.returned)
    ∧ ∀ i : Nat, i + vals.length ≤ vector.length →
        parse_vector opt ('[' :: (int_literal i ++ ']' :: str)) vector
          = (List.replicate i 0 ++ vals
              ++ List.replicate (vector.length - i - vals.length) 0, Outcome.returned) := by
  constructor
  · have hr : read_index str (-1) = some (0, str) := by
      unfold read_index
      rw [if_neg (comma_list_no_bracket opt str vals h)]
      rfl
    unfold parse_vector
    rw [vector_loop_values opt vals str h _ str (-1) 0 0 0 _ _ hr (Nat.lt_succ_self _)
      (by decide) (le_refl _) (by rw [List.length_replicate]; omega)
      (by rw [List.length_replicate]; exact hn)]
    have := store_from_zeros vals [] vector.length hk
    simp only [List.nil_append, List.length_nil] at this
    simp [this]
  · intro i hi
    have hr := read_index_explicit (i : Int) (by omega) (by omega) str (-1)
    unfold parse_vector
    rw [vector_loop_values opt vals str h _ _ (-1) i 0 0 _ _ hr (Nat.lt_succ_self _)
      (by decide) (by omega) (by rw [List.length_replicate]; omega)
      (by rw [List.length_replicate]; exact hn)]
    have hsplit : List.replicate vector.length (0 : Int)
        = List.replicate i 0 ++ List.replicate (vector.length - i) 0 := by
      rw [List.append_replicate_replicate]; congr 1; omega
    have := store_from_zeros vals (List.replicate i 0) (vector.length - i) (by omega)
    simp only [List.length_replicate] at this
    rw [hsplit]
    simp only [Int.toNat_ofNat]
    rw [this]

/-- The literals "1,2,3" and "[2]1,2,3" with a destination of length five that
held sevens. -/
theorem comma_list_stored_example :
    parse_vector ⟨SANE_Value_Type.INT, SANE_Unit.NONE⟩ "1,2,3".toList [7, 7, 7, 7, 7]
      = ([1, 2, 3, 0, 0], Outcome.returned)
    ∧ parse_vector ⟨SANE_Value_Type.INT, SANE_Unit.NONE⟩ "[2]1,2,3".toList [7, 7, 7, 7, 7]
      = ([0, 0, 1, 2, 3], Outcome.returned) :=
  ⟨(comma_list_stored _ _ _ [7, 7, 7, 7, 7]
      (comma_list_int_literals 1 [2, 3] (by decide)) (by decide) (by decide)).1,
   (comma_list_stored _ _ _ [7, 7, 7, 7, 7]
      (comma_list_int_literals 1 [2, 3] (by decide)) (by decide) (by decide)).2 2
      (by decide)⟩

/-- An Int-typed Millimeter descriptor reading a whole number followed by a
text that is none of the unit spellings: the illegal-unit return. -/
theorem parse_scalar_millimeter_rest (N : Int) (h1 : -LONG_MAX - 1 ≤ N) (h2 : N ≤ LONG_MAX)
    (rest : List Char) (hr : (peek rest).isDigit = false) (h0 : rest ≠ [])
    (hmm : rest ≠ ['m', 'm']) (hcm : rest ≠ ['c', 'm']) (hin : rest ≠ ['i', 'n'])
    (hq : peek rest ≠ '"') :
    parse_scalar ⟨SANE_Value_Type.INT, SANE_Unit.MM⟩ (int_literal N ++ rest)
      = Scalar.illegal_unit := by
  have hs := strtol_int_literal N h1 h2 rest hr
  rw [strtol_conv _ rfl, hs]
  simp only [apply_unit, h0, hmm, hcm, hin, hq, if_false, or_self]

/-- A printed integer does not start with a bracket. -/
theorem int_literal_no_bracket (N : Int) (rest : List Char) :
    peek (int_literal N ++ rest) ≠ '[' := by
  obtain ⟨d, ds, hd, hds, _⟩ := toDigits_spec N.natAbs
  have hd0 : Nat.digitChar d ≠ '[' := by
    have := hd d (by simp)
    interval_cases d <;> decide
  unfold int_literal
  by_cases hneg : N < 0
  · simp only [hneg, if_true]
    simp [peek]
  · simp only [hneg, if_false, hds]
    simpa [peek] using hd0

/-- The first value spec of a literal is a whole number followed by a comma,
against an Int-typed Millimeter descriptor: the illegal-unit error with the
zero fill. -/
theorem parse_vector_millimeter_separator (N : Int) (h1 : -LONG_MAX - 1 ≤ N)
    (h2 : N ≤ LONG_MAX) (sep : Char) (hsep : sep = ',' ∨ sep = '-') (rest : List Char)
    (vector : List Int) (h0 : 0 < vector.length) (hlen : vector.length < 2147483648) :
    parse_vector ⟨SANE_Value_Type.INT, SANE_Unit.MM⟩ (int_literal N ++ sep :: rest) vector
      = (List.replicate vector.length 0, Outcome.illegal_unit) := by
  have hp : (peek (sep :: rest)).isDigit = false ∧ peek (sep :: rest) ≠ '"'
      ∧ sep ≠ 'm' ∧ sep ≠ 'c' ∧ sep ≠ 'i' := by
    have e : peek (sep :: rest) = sep := rfl
    rw [e]
    rcases hsep with h | h <;> rw [h] <;> decide
  have hs := parse_scalar_millimeter_rest N h1 h2 (sep :: rest) hp.1 (by simp)
    (by simp [hp.2.2.1]) (by simp [hp.2.2.2.1]) (by simp [hp.2.2.2.2]) hp.2.1
  have hr : read_index (int_literal N ++ sep :: rest) (-1)
      = some (0, int_literal N ++ sep :: rest) := by
    unfold read_index
    rw [if_neg (int_literal_no_bracket N _)]
    rfl
  have hw : wrap32 ((List.replicate vector.length (0 : Int)).length : Int) = vector.length := by
    rw [List.length_replicate]; unfold wrap32; omega
  have hin : ¬ ((0 : Int) < 0 ∨ (0 : Int) ≥ wrap32 ((List.replicate vector.length (0 : Int)).length : Int)) := by
    rw [hw]; omega
  unfold parse_vector
  rw [vector_loop]
  simp only [hr, hin, if_false, hs]

/-- C17: `parse_vector` at the failing input "1,2" against an Int-typed
Millimeter-unit descriptor and a destination of length 2 that held sevens.
The scalars "1" and "2" are each accepted on their own (a whole number of
millimeters), yet in the vector the text after the first number, ",2", is
compared with the unit spellings, so the function ends in the illegal-unit
error with nothing stored instead of [1, 2]; and so for every whole number
followed by a comma, whatever comes after it.  With a descriptor without unit
the same literal is stored as the claim says. -/
theorem parse_vector_comma_millimeter (N : Int) (h1 : -2147483648 ≤ N)
    (h2 : N < 2147483648) (rest : List Char) (vector : List Int)
    (h0 : 0 < vector.length) (hlen : vector.length < 2147483648) :
    parse_vector ⟨SANE_Value_Type.INT, SANE_Unit.MM⟩ (int_literal N ++ ',' :: rest) vector
      = (List.replicate vector.length 0, Outcome.illegal_unit)
    ∧ parse_scalar ⟨SANE_Value_Type.INT, SANE_Unit.MM⟩ "1".toList = Scalar.ok 1 []
    ∧ parse_scalar ⟨SANE_Value_Type.INT, SANE_Unit.MM⟩ "2".toList = Scalar.ok 2 []
    ∧ parse_vector ⟨SANE_Value_Type.INT, SANE_Unit.MM⟩ "1,2".toList [7, 7]
        = ([0, 0], Outcome.illegal_unit)
    ∧ parse_vector ⟨SANE_Value_Type.INT, SANE_Unit.NONE⟩ "1,2".toList [7, 7]
        = ([1, 2], Outcome.returned) := by
  refine ⟨?_, by decide!, by decide!, by decide!, by decide!⟩
  exact parse_vector_millimeter_separator N (by unfold LONG_MAX; omega)
    (by unfold LONG_MAX; omega) ',' (Or.inl rfl) rest vector h0 hlen

/-- C17, at the literal "1,2" and the destination [7, 7]. -/
theorem parse_vector_comma_millimeter_witness :
    parse_vector ⟨SANE_Value_Type.INT, SANE_Unit.MM⟩ (int_literal 1 ++ ',' :: ['2']) [7, 7]
      = (List.replicate [(7 : Int), 7].length 0, Outcome.illegal_unit) :=
  (parse_vector_comma_millimeter 1 (by decide) (by decide) ['2'] [7, 7] (by decide)
    (by decide)).1

/-! ## The page loop -/

/-- One iteration of the page loop in which `tiff_open` fails. -/
theorem page_loop_cannot_open (cfg : Config) (env : PageEnv) (rest : List PageEnv)
    (s : Loop) (hi : s.image = false) (ho : env.open_ok = false) :
    page_loop cfg (env :: rest) s
      = Except.ok { s with image := false,
                           events := s.events ++ [Event.tiff_open s.n] } := by
  rw [page_loop]
  simp [hi, ho]

/-- One iteration of the page loop in which the input ends at the prompt. -/
theorem page_loop_end_of_input (cfg : Config) (env : PageEnv) (rest : List PageEnv)
    (s : Loop) (ho : s.image = false → env.open_ok = true)
    (hp : cfg.batch_prompt ≠ 0) (hl : env.line = false) :
    page_loop cfg (env :: rest) s
      = Except.ok { s with
          image := true,
          events := (if s.image = false then s.events ++ [Event.tiff_open s.n]
                     else s.events)
            ++ [Event.terminated (wrap32 (s.n - cfg.batch_increment))] } := by
  rw [page_loop]
  by_cases hi : s.image = false
  · simp [hi, ho hi, hp, hl]
  · simp [hi, hp, hl]

/-- One iteration of the page loop in which `scan_to_tiff` leaves the model. -/
theorem page_loop_fault (cfg : Config) (env : PageEnv) (rest : List PageEnv)
    (s : Loop) (f : Fault) (ho : s.image = false → env.open_ok = true)
    (hl : cfg.batch_prompt ≠ 0 → env.line = true)
    (hp : scan_to_tiff cfg.verbose env.capture = Except.error f) :
    page_loop cfg (env :: rest) s = Except.error f := by
  have hl2 : ¬ (cfg.batch_prompt ≠ 0 ∧ env.line = false) := by
    intro h; have := hl h.1; rw [h.2] at this; exact Bool.noConfusion this
  rw [page_loop]
  by_cases hi : s.image = false
  · simp [hi, ho hi, hl2, hp]
  · simp [hi, hl2, hp]

/-- One iteration of the page loop in which the device has no documents. -/
theorem page_loop_no_docs (cfg : Config) (env : PageEnv) (rest : List PageEnv) (s : Loop)
    (p : Page) (ho : s.image = false → env.open_ok = true)
    (hl : cfg.batch_prompt ≠ 0 → env.line = true)
    (hp : scan_to_tiff cfg.verbose env.capture = Except.ok p)
    (hs : p.status = SANE_Status.NO_DOCS) :
    page_loop cfg (env :: rest) s
      = Except.ok { s with
          image := true, status := SANE_Status.NO_DOCS,
          events := (if s.image = false then s.events ++ [Event.tiff_open s.n]
                     else s.events) ++ [Event.capture s.n p] } := by
  have hl2 : ¬ (cfg.batch_prompt ≠ 0 ∧ env.line = false) := by
    intro h; have := hl h.1; rw [h.2] at this; exact Bool.noConfusion this
  rw [page_loop]
  by_cases hi : s.image = false
  · simp [hi, ho hi, hl2, hp, hs]
  · simp [hi, hl2, hp, hs]

/-- One iteration of the page loop in which the capture fails with a status
other than NO_DOCS. -/
theorem page_loop_error (cfg : Config) (env : PageEnv) (rest : List PageEnv) (s : Loop)
    (p : Page) (ho : s.image = false → env.open_ok = true)
    (hl : cfg.batch_prompt ≠ 0 → env.line = true)
    (hp : scan_to_tiff cfg.verbose env.capture = Except.ok p)
    (h1 : p.status ≠ SANE_Status.NO_DOCS) (h2 : p.status ≠ SANE_Status.EOF)
    (h3 : p.status ≠ SANE_Status.GOOD) :
    page_loop cfg (env :: rest) s
      = Except.ok { s with
          image := true, status := p.status,
          events := (if s.image = false then s.events ++ [Event.tiff_open s.n]
                     else s.events) ++ [Event.capture s.n p] } := by
  have hl2 : ¬ (cfg.batch_prompt ≠ 0 ∧ env.line = false) := by
    intro h; have := hl h.1; rw [h.2] at this; exact Bool.noConfusion this
  rw [page_loop]
  by_cases hi : s.image = false
  · simp [hi, ho hi, hl2, hp, h1, h2, h3]
  · simp [hi, hl2, hp, h1, h2, h3]

/-- One iteration of the page loop in which the page is captured. -/
theorem page_loop_next (cfg : Config) (env : PageEnv) (rest : List PageEnv) (s : Loop)
    (p : Page) (ho : s.image = false → env.open_ok = true)
    (hl : cfg.batch_prompt ≠ 0 → env.line = true)
    (hp : scan_to_tiff cfg.verbose env.capture = Except.ok p)
    (hs : p.status = SANE_Status.EOF ∨ p.status = SANE_Status.GOOD) :
    page_loop cfg (env :: rest) s
      = if cfg.batch ≠ 0 ∧
            (cfg.batch_amount = BATCH_COUNT_UNLIMITED ∨ (next_page cfg s p).count ≠ 0)
        then page_loop cfg rest (next_page cfg s p)
        else Except.ok (next_page cfg s p) := by
  have hl2 : ¬ (cfg.batch_prompt ≠ 0 ∧ env.line = false) := by
    intro h; have := hl h.1; rw [h.2] at this; exact Bool.noConfusion this
  have h1 : p.status ≠ SANE_Status.NO_DOCS := by
    rcases hs with hs | hs <;> rw [hs] <;> decide
  have h2 : (if p.status = SANE_Status.EOF then SANE_Status.GOOD else p.status)
      = SANE_Status.GOOD := by
    rcases hs with hs | hs <;> simp [hs]
  rw [page_loop]
  simp only [hl2, hp, h1, h2, next_page]
  by_cases hi : s.image = false <;> by_cases hc : cfg.batch ≠ 0 ∧ cfg.multi = 0 <;>
    simp [hi, ho, hc]

theorem captured_pages_append (a b : List Event) :
    captured_pages (a ++ b) = captured_pages a ++ captured_pages b := by
  induction a with
  | nil => rfl
  | cons e a ih => cases e <;> simp [captured_pages, ih]

theorem captured_statuses_append (a b : List Event) :
    captured_statuses (a ++ b) = captured_statuses a ++ captured_statuses b := by
  induction a with
  | nil => rfl
  | cons e a ih => cases e <;> simp [captured_statuses, ih]

theorem container_pages_append (a b : List Event) (acc : Nat) :
    container_pages (a ++ b) acc = container_pages b (container_pages a acc) := by
  induction a generalizing acc with
  | nil => rfl
  | cons e a ih => cases e <;> simp [container_pages, ih]

/-- The page numbers captured up to the end of an iteration that wrote a
page. -/
theorem captured_pages_next (cfg : Config) (s : Loop) (p : Page) :
    captured_pages (next_page cfg s p).events = captured_pages s.events ++ [s.n] := by
  unfold next_page
  by_cases hi : s.image = false <;> by_cases hc : cfg.batch ≠ 0 ∧ cfg.multi = 0 <;>
    simp [hi, hc, captured_pages_append, captured_pages]

/-- A batch of `c + 1` captured pages: the loop stops after them with the
counter at zero, having visited the page numbers `n`, `n + d`, ... -/
theorem page_loop_batch (cfg : Config) (hb : cfg.batch ≠ 0)
    (hu : cfg.batch_amount ≠ BATCH_COUNT_UNLIMITED) (c : Nat) :
    ∀ (envs : List PageEnv) (s : Loop),
      s.count = (c : Int) + 1 → (c : Int) + 1 < 2147483648 →
      0 ≤ s.batch_count → s.batch_count + c + 1 < 2147483648 →
      (∀ i : Nat, i ≤ c + 1 →
        -2147483648 ≤ s.n + i * cfg.batch_increment
          ∧ s.n + i * cfg.batch_increment < 2147483648) →
      c + 1 ≤ envs.length →
      (∀ i (h : i < envs.length), i < c + 1 → page_succeeds cfg (envs.get ⟨i, h⟩)) →
      ∃ s2, page_loop cfg envs s = Except.ok s2
        ∧ s2.status = SANE_Status.GOOD
        ∧ s2.batch_count = s.batch_count + c + 1
        ∧ s2.image = (if cfg.multi = 0 then false else true)
        ∧ captured_pages s2.events
            = captured_pages s.events
              ++ (List.range (c + 1)).map (fun i : Nat => s.n + i * cfg.batch_increment) := by
  induction c with
  | zero =>
    intro envs s hc _ hbc0 hbc hn hlen hall
    match envs, hlen, hall with
    | env :: rest, _, hall =>
      obtain ⟨ho, hl, p, hp, hs⟩ := hall 0 (by simp) (by omega)
      simp only [List.get_eq_getElem, List.getElem_cons_zero] at ho hl hp
      have hcount : (next_page cfg s p).count = 0 := by
        simp only [next_page, hc]; decide
      refine ⟨next_page cfg s p, ?_, rfl, ?_, ?_, ?_⟩
      · rw [page_loop_next cfg env rest s p (fun _ => ho) hl hp (Or.inl hs)]
        simp [hcount, hu]
      · simp only [next_page]
        rw [wrap32_of_range _ (by omega) (by omega)]
        simp
      · simp [next_page, hb]
      · rw [captured_pages_next]; simp [List.range_succ]
  | succ c ih =>
    intro envs s hc hc2 hbc0 hbc hn hlen hall
    match envs, hlen, hall with
    | env :: rest, hlen, hall =>
      obtain ⟨ho, hl, p, hp, hs⟩ := hall 0 (by simp) (by omega)
      simp only [List.get_eq_getElem, List.getElem_cons_zero] at ho hl hp
      have hcount : (next_page cfg s p).count = (c : Int) + 1 := by
        simp only [next_page, hc]
        rw [wrap32_of_range _ (by push_cast; omega) (by push_cast; omega)]
        push_cast; omega
      have hnn : (next_page cfg s p).n = s.n + cfg.batch_increment := by
        simp only [next_page]
        have := hn 1 (by omega)
        simp only [Nat.cast_one, one_mul] at this
        exact wrap32_of_range _ this.1 this.2
      have hbn : (next_page cfg s p).batch_count = s.batch_count + 1 := by
        simp only [next_page]
        push_cast at hbc
        exact wrap32_of_range _ (by omega) (by omega)
      obtain ⟨s2, h1, h2, h3, h4, h5⟩ := ih rest (next_page cfg s p) hcount
        (by push_cast at hc2; omega) (by omega) (by push_cast at hbc; omega)
        (by
          intro i hi
          have := hn (i + 1) (by omega)
          rw [hnn]
          push_cast at this
          constructor
          · linarith [this.1]
          · linarith [this.2])
        (by simp only [List.length_cons] at hlen; omega)
        (by
          intro i h hi
          have := hall (i + 1) (by simp only [List.length_cons]; omega) (by omega)
          simpa using this)
      refine ⟨s2, ?_, h2, ?_, h4, ?_⟩
      · rw [page_loop_next cfg env rest s p (fun _ => ho) hl hp (Or.inl hs), ← h1]
        have : (next_page cfg s p).count ≠ 0 := by rw [hcount]; omega
        simp [hb, this]
      · rw [h3, hbn]; push_cast; ring
      · rw [h5, captured_pages_next, hnn, List.range_succ_eq_map (c + 1), List.map_cons,
          List.map_map]
        simp only [List.append_assoc, List.singleton_append, Nat.cast_zero, zero_mul,
          add_zero]
        congr 2
        apply List.map_congr_left
        intro i _
        simp only [Function.comp, Nat.succ_eq_add_one]
        push_cast; ring

/-- The trace of `scan` after the loop: its captures are those of the loop. -/
theorem captured_pages_scan (cfg : Config) (envs : List PageEnv) (s : Loop)
    (h : page_loop cfg envs
      { image := false, n := cfg.batch_start_at, count := cfg.batch_amount,
        batch_count := 0, status := SANE_Status.GOOD, events := [] } = Except.ok s) :
    ∃ ev, scan cfg envs = Except.ok (s.status, s.batch_count, ev)
      ∧ captured_pages ev = captured_pages s.events
      ∧ captured_statuses ev = captured_statuses s.events
      ∧ container_pages ev 0 = container_pages s.events 0
      ∧ (cfg.batch ≠ 0 → Event.scanned s.batch_count ∈ ev)
      ∧ (Event.unlink ∈ ev ↔ Event.unlink ∈ s.events ∨
          (s.image = true ∧ s.status = SANE_Status.NO_DOCS
            ∧ (cfg.multi = 0 ∨ s.batch_count = 0))) := by
  unfold scan
  rw [h]
  refine ⟨_, rfl, ?_, ?_, ?_, ?_, ?_⟩
  all_goals
    by_cases hb : cfg.batch ≠ 0 <;> by_cases hi : s.image = true <;>
    by_cases hd : s.status = SANE_Status.NO_DOCS ∧ (cfg.multi = 0 ∨ s.batch_count = 0) <;>
    simp [hb, hi, hd, captured_pages_append, captured_pages, captured_statuses_append,
      captured_statuses, container_pages_append, container_pages]

theorem full_page_succeeds (cfg : Config) : page_succeeds cfg full_page := by
  obtain ⟨p, h1, h2, _⟩ := scan_to_tiff_until cfg.verbose full_page.capture 3 [500, 500]
    SANE_Status.EOF 0 [] (by rfl) rfl (by rfl) (by decide) rfl (by decide) (by rfl)
    (by decide)
  exact ⟨rfl, fun _ => rfl, p, h1, h2⟩

theorem empty_feeder_page (verbose : Int) :
    scan_to_tiff verbose empty_feeder.capture = Except.ok no_docs_page := rfl

/-- The page loop of `scan`, for what it leaves when a capture reported
NO_DOCS.  At the head of an iteration: no capture has reported NO_DOCS, no
file has been deleted, `batch_count` counts the pages of the open container
when one is open, and a container is only closed between pages in
one-file-per-page mode.  At the exit: a NO_DOCS report is the last capture,
the container is open, and it holds no page exactly when the run is in
one-file-per-page mode or `batch_count` is 0. -/
theorem page_loop_no_docs_last (cfg : Config) (envs : List PageEnv) :
    ∀ (s s2 : Loop),
      SANE_Status.NO_DOCS ∉ captured_statuses s.events →
      Event.unlink ∉ s.events →
      0 ≤ s.batch_count → s.batch_count + envs.length < 2147483648 →
      (s.image = true →
        cfg.multi ≠ 0 ∧ container_pages s.events 0 = s.batch_count.toNat) →
      (s.image = false → cfg.multi = 0 ∨ s.batch_count = 0) →
      page_loop cfg envs s = Except.ok s2 →
      Event.unlink ∉ s2.events
      ∧ (SANE_Status.NO_DOCS ∈ captured_statuses s2.events →
          s2.image = true ∧ s2.status = SANE_Status.NO_DOCS
          ∧ (∃ l, captured_statuses s2.events = l ++ [SANE_Status.NO_DOCS]
              ∧ SANE_Status.NO_DOCS ∉ l)
          ∧ (container_pages s2.events 0 = 0 ↔ (cfg.multi = 0 ∨ s2.batch_count = 0))) := by
  induction envs with
  | nil => intro s s2 _ _ _ _ _ _ h; exact absurd h (by simp [page_loop])
  | cons env rest ih =>
    intro s s2 hnd hun hb0 hb1 himg hclosed h
    simp only [List.length_cons, Nat.cast_add, Nat.cast_one] at hb1
    -- the trace after the container has been opened
    have hopen_nd : SANE_Status.NO_DOCS ∉ captured_statuses
        (if s.image = false then s.events ++ [Event.tiff_open s.n] else s.events) := by
      split_ifs
      · simpa [captured_statuses_append, captured_statuses] using hnd
      · exact hnd
    have hopen_un : Event.unlink ∉
        (if s.image = false then s.events ++ [Event.tiff_open s.n] else s.events) := by
      split_ifs
      · simpa using hun
      · exact hun
    have hopen_cp : container_pages
        (if s.image = false then s.events ++ [Event.tiff_open s.n] else s.events) 0
        = if s.image = false then 0 else s.batch_count.toNat := by
      split_ifs with hi
      · simp [container_pages_append, container_pages]
      · exact (himg (by simpa using hi)).2
    by_cases ho : s.image = false ∧ env.open_ok = false
    · -- cannot open file
      rw [page_loop_cannot_open cfg env rest s ho.1 ho.2] at h
      injection h with h; subst h
      refine ⟨by simpa using hun, fun hc => ?_⟩
      simp only [captured_statuses_append, captured_statuses, List.append_nil] at hc
      exact absurd hc hnd
    have ho2 : s.image = false → env.open_ok = true := by
      intro hi
      cases hoo : env.open_ok with
      | true => rfl
      | false => exact absurd ⟨hi, hoo⟩ ho
    by_cases hl : cfg.batch_prompt ≠ 0 ∧ env.line = false
    · -- end of input at the prompt
      rw [page_loop_end_of_input cfg env rest s ho2 hl.1 hl.2] at h
      injection h with h; subst h
      refine ⟨by simpa using hopen_un, fun hc => ?_⟩
      simp only [captured_statuses_append, captured_statuses, List.append_nil] at hc
      exact absurd hc hopen_nd
    have hl2 : cfg.batch_prompt ≠ 0 → env.line = true := by
      intro hp
      cases hll : env.line with
      | true => rfl
      | false => exact absurd ⟨hp, hll⟩ hl
    cases hp : scan_to_tiff cfg.verbose env.capture with
    | error f =>
      rw [page_loop_fault cfg env rest s f ho2 hl2 hp] at h
      exact absurd h (by simp)
    | ok page =>
      by_cases h3 : page.status = SANE_Status.NO_DOCS
      · -- no more docs
        rw [page_loop_no_docs cfg env rest s page ho2 hl2 hp h3] at h
        injection h with h; subst h
        refine ⟨by simpa using hopen_un, fun _ => ⟨rfl, rfl, ⟨_, ?_, hopen_nd⟩, ?_⟩⟩
        · simp [captured_statuses_append, captured_statuses, h3]
        · simp only [container_pages_append, container_pages, hopen_cp]
          by_cases hi : s.image = false
          · simp only [hi, if_true, true_iff]
            exact hclosed hi
          · have := himg (by simpa using hi)
            rw [if_neg hi]
            constructor
            · intro h0; right; omega
            · intro h0
              rcases h0 with h0 | h0
              · exact absurd h0 this.1
              · rw [h0]; rfl
      by_cases h4 : page.status = SANE_Status.EOF ∨ page.status = SANE_Status.GOOD
      · -- the page is written
        rw [page_loop_next cfg env rest s page ho2 hl2 hp h4] at h
        have hnext_nd : SANE_Status.NO_DOCS ∉ captured_statuses
            (next_page cfg s page).events := by
          unfold next_page
          simp only
          split_ifs <;>
            simp [captured_statuses_append, captured_statuses, hnd, Ne.symm h3]
        have hnext_un : Event.unlink ∉ (next_page cfg s page).events := by
          unfold next_page
          simp only
          split_ifs <;> simp [hun]
        split_ifs at h with h5
        · -- next page
          have hbn : (next_page cfg s page).batch_count = s.batch_count + 1 :=
            wrap32_of_range _ (by omega) (by omega)
          refine ih _ s2 hnext_nd hnext_un (by rw [hbn]; omega) (by rw [hbn]; omega)
            ?_ ?_ h
          · intro hi
            have hnc : ¬ (cfg.batch ≠ 0 ∧ cfg.multi = 0) := by
              intro hc; simp [next_page, hc] at hi
            have hm : cfg.multi ≠ 0 := fun hm => hnc ⟨h5.1, hm⟩
            refine ⟨hm, ?_⟩
            rw [hbn]
            unfold next_page
            simp only [if_neg hnc, container_pages_append, container_pages, hopen_cp]
            by_cases hi2 : s.image = false
            · rcases hclosed hi2 with hc | hc
              · exact absurd hc hm
              · simp [hi2, hc]
            · have := himg (by simpa using hi2)
              rw [if_neg hi2]; omega
          · intro hi
            left
            by_contra hm
            have hnc : ¬ (cfg.batch ≠ 0 ∧ cfg.multi = 0) := fun hc => hm hc.2
            simp [next_page, hnc] at hi
        · -- last page
          injection h with h; subst h
          exact ⟨hnext_un, fun hc => absurd hc hnext_nd⟩
      · -- any error
        rw [page_loop_error cfg env rest s page ho2 hl2 hp h3 (fun e => h4 (Or.inl e))
          (fun e => h4 (Or.inr e))] at h
        injection h with h; subst h
        refine ⟨by simpa using hopen_un, fun hc => ?_⟩
        simp only [captured_statuses_append, captured_statuses, List.mem_append,
          List.mem_singleton] at hc
        rcases hc with hc | hc
        · exact absurd hc hopen_nd
        · exact absurd hc.symm h3

/-! ## Properties of the batch loop -/

/-- C11: a batch run with amount N (1 ≤ N < 2^31), start s and increment d,
the page numbers s + i*d (i ≤ N) within the int range, in which each of the
first N pages is captured (the container opens, the prompt, if enabled, is
confirmed, and `scan_to_tiff` returns the end-of-data status): `scan` returns
GOOD, calls `scan_to_tiff` exactly N times with the page numbers
s, s + d, ..., s + (N-1)d in that order, and reports N pages
("Scanned N pages", `batch_count` = N). -/
theorem scan_batch_pages (cfg : Config) (N : Nat) (hb : cfg.batch ≠ 0)
    (hN : cfg.batch_amount = N) (h1 : 1 ≤ N) (h2 : N < 2147483648)
    (hr : ∀ i : Nat, i ≤ N →
      -2147483648 ≤ cfg.batch_start_at + i * cfg.batch_increment
        ∧ cfg.batch_start_at + i * cfg.batch_increment < 2147483648)
    (envs : List PageEnv) (hlen : N ≤ envs.length)
    (hall : ∀ i (h : i < envs.length), i < N → page_succeeds cfg (envs.get ⟨i, h⟩)) :
    ∃ ev, scan cfg envs = Except.ok (SANE_Status.GOOD, (N : Int), ev)
      ∧ captured_pages ev
          = (List.range N).map (fun i : Nat => cfg.batch_start_at + i * cfg.batch_increment)
      ∧ Event.scanned N ∈ ev := by
  obtain ⟨c, rfl⟩ : ∃ c, N = c + 1 := ⟨N - 1, by omega⟩
  have hu : cfg.batch_amount ≠ BATCH_COUNT_UNLIMITED := by
    rw [hN]; unfold BATCH_COUNT_UNLIMITED; omega
  obtain ⟨s2, e1, e2, e3, _, e5⟩ := page_loop_batch cfg hb hu c envs
    { image := false, n := cfg.batch_start_at, count := cfg.batch_amount,
      batch_count := 0, status := SANE_Status.GOOD, events := [] }
    (by simp only [hN]; push_cast; rfl) (by omega) (by simp) (by simp only; omega)
    hr hlen hall
  obtain ⟨ev, f1, f2, _, _, f5, _⟩ := captured_pages_scan cfg envs s2 e1
  have hbc : s2.batch_count = ((c + 1 : Nat) : Int) := by rw [e3]; push_cast; ring
  refine ⟨ev, ?_, ?_, ?_⟩
  · rw [f1, e2, hbc]
  · rw [f2, e5]; simp [captured_pages]
  · rw [← hbc]; exact f5 hb

/-- C11, at amount 3, start 1, increment 2: the page numbers are [1, 3, 5]
and 3 pages are reported. -/
theorem scan_batch_pages_witness :
    ∃ ev, scan three_page_config [full_page, full_page, full_page]
        = Except.ok (SANE_Status.GOOD, 3, ev)
      ∧ captured_pages ev = [1, 3, 5] ∧ Event.scanned 3 ∈ ev :=
  scan_batch_pages three_page_config 3 (by decide) rfl (by decide) (by decide)
    (by
      intro i hi
      have h1 : three_page_config.batch_start_at = 1 := rfl
      have h2 : three_page_config.batch_increment = 2 := rfl
      rw [h1, h2]
      constructor <;> omega)
    [full_page, full_page, full_page] (by decide)
    (by
      intro i h _
      have : [full_page, full_page, full_page] = List.replicate 3 full_page := rfl
      simp only [this, List.get_eq_getElem, List.getElem_replicate]
      exact full_page_succeeds _)

/-- C12: `scan` at the failing input, a batch amount N ≤ 0 (the finite ones
are N = 0 and N ≤ -2; -1 is the unlimited marker).  The loop condition tests
`count` for being non-zero, not positive: after the first page `count` is
N - 1 < 0, so the loop runs on, and when the second page finds the feeder
empty `scan` has attempted two pages (numbers s and s + d), where the claim
allows one for a finite N ≤ 0. -/
theorem scan_batch_amount_not_positive (cfg : Config) (e1 e2 : PageEnv)
    (rest : List PageEnv) (p2 : Page)
    (hb : cfg.batch ≠ 0) (hN : cfg.batch_amount ≤ 0)
    (hmin : -2147483648 ≤ cfg.batch_amount)
    (h1 : page_succeeds cfg e1)
    (ho : e2.open_ok = true) (hl : cfg.batch_prompt ≠ 0 → e2.line = true)
    (hp : scan_to_tiff cfg.verbose e2.capture = Except.ok p2)
    (hs : p2.status = SANE_Status.NO_DOCS) :
    ∃ ev, scan cfg (e1 :: e2 :: rest) = Except.ok (SANE_Status.NO_DOCS, 1, ev)
      ∧ captured_pages ev
          = [cfg.batch_start_at, wrap32 (cfg.batch_start_at + cfg.batch_increment)] := by
  obtain ⟨ho1, hl1, p1, hp1, hs1⟩ := h1
  have hcount : wrap32 (cfg.batch_amount - 1) ≠ 0 := by
    unfold wrap32; omega
  have hloop : page_loop cfg (e1 :: e2 :: rest)
      { image := false, n := cfg.batch_start_at, count := cfg.batch_amount,
        batch_count := 0, status := SANE_Status.GOOD, events := [] }
      = Except.ok { next_page cfg
          { image := false, n := cfg.batch_start_at, count := cfg.batch_amount,
            batch_count := 0, status := SANE_Status.GOOD, events := [] } p1 with
          image := true, status := SANE_Status.NO_DOCS,
          events := (if (next_page cfg
              { image := false, n := cfg.batch_start_at, count := cfg.batch_amount,
                batch_count := 0, status := SANE_Status.GOOD, events := [] } p1).image = false
            then (next_page cfg
              { image := false, n := cfg.batch_start_at, count := cfg.batch_amount,
                batch_count := 0, status := SANE_Status.GOOD, events := [] } p1).events
                ++ [Event.tiff_open (next_page cfg
              { image := false, n := cfg.batch_start_at, count := cfg.batch_amount,
                batch_count := 0, status := SANE_Status.GOOD, events := [] } p1).n]
            else (next_page cfg
              { image := false, n := cfg.batch_start_at, count := cfg.batch_amount,
                batch_count := 0, status := SANE_Status.GOOD, events := [] } p1).events)
            ++ [Event.capture (next_page cfg
              { image := false, n := cfg.batch_start_at, count := cfg.batch_amount,
                batch_count := 0, status := SANE_Status.GOOD, events := [] } p1).n p2] } := by
    rw [page_loop_next cfg e1 _ _ p1 (fun _ => ho1) hl1 hp1 (Or.inl hs1)]
    have hc : (next_page cfg
        { image := false, n := cfg.batch_start_at, count := cfg.batch_amount,
          batch_count := 0, status := SANE_Status.GOOD, events := [] } p1).count ≠ 0 := hcount
    rw [if_pos ⟨hb, Or.inr hc⟩]
    exact page_loop_no_docs cfg e2 rest _ p2 (fun _ => ho) hl hp hs
  obtain ⟨ev, f1, f2, _⟩ := captured_pages_scan cfg _ _ hloop
  refine ⟨ev, ?_, ?_⟩
  · rw [f1]; simp [next_page, wrap32]
  · rw [f2]
    by_cases hm : cfg.multi = 0 <;>
      simp [next_page, hb, hm, captured_pages_append, captured_pages]

/-- C12, at the amount 0: a page is captured, the feeder is then empty, and
two pages have been attempted. -/
theorem scan_batch_amount_not_positive_witness :
    ∃ ev, scan zero_amount_config [full_page, empty_feeder]
        = Except.ok (SANE_Status.NO_DOCS, 1, ev)
      ∧ captured_pages ev = [1, 2] :=
  scan_batch_amount_not_positive zero_amount_config full_page empty_feeder [] no_docs_page
    (by decide) (by decide) (by decide) (full_page_succeeds _) rfl
    (fun _ => rfl) (empty_feeder_page _) rfl

/-- A run of `scan` whose first capture reports NO_DOCS. -/
theorem scan_first_no_docs (cfg : Config) (env : PageEnv) (rest : List PageEnv) (p : Page)
    (ho : env.open_ok = true) (hl : cfg.batch_prompt ≠ 0 → env.line = true)
    (hp : scan_to_tiff cfg.verbose env.capture = Except.ok p)
    (hs : p.status = SANE_Status.NO_DOCS) :
    scan cfg (env :: rest)
      = Except.ok (SANE_Status.NO_DOCS, 0,
          [Event.tiff_open cfg.batch_start_at, Event.capture cfg.batch_start_at p]
          ++ (if cfg.batch ≠ 0 then [Event.scanned 0] else [])
          ++ [Event.unlink, Event.close]) := by
  unfold scan
  rw [page_loop_no_docs cfg env rest _ p (fun _ => ho) hl hp hs]
  by_cases hb : cfg.batch ≠ 0 <;> simp [hb]

/-- The page loop over pages that are all captured while the loop condition
holds: the loop arrives at the head of the iteration after them, with
`batch_count` and the list of capture statuses advanced by their number. -/
theorem page_loop_pages (cfg : Config) (pre : List PageEnv) :
    ∀ (s : Loop),
      (∀ e ∈ pre, page_succeeds cfg e) →
      (pre ≠ [] → cfg.batch ≠ 0) →
      (∀ i : Nat, 1 ≤ i → i ≤ pre.length →
        cfg.batch_amount = BATCH_COUNT_UNLIMITED ∨ wrap32 (s.count - i) ≠ 0) →
      0 ≤ s.batch_count → s.batch_count + pre.length < 2147483648 →
      ∃ s2, (∀ tail, page_loop cfg (pre ++ tail) s = page_loop cfg tail s2)
        ∧ s2.batch_count = s.batch_count + pre.length
        ∧ captured_statuses s2.events
            = captured_statuses s.events ++ List.replicate pre.length SANE_Status.EOF := by
  induction pre with
  | nil =>
    intro s _ _ _ _ _
    exact ⟨s, fun _ => rfl, by simp, by simp⟩
  | cons e pre ih =>
    intro s hall hb hc hb0 hb1
    simp only [List.length_cons, Nat.cast_add, Nat.cast_one] at hb1
    obtain ⟨ho, hl, p, hp, hs⟩ := hall e (List.mem_cons_self _ _)
    have hb2 : cfg.batch ≠ 0 := hb (by simp)
    have hcount : cfg.batch_amount = BATCH_COUNT_UNLIMITED
        ∨ (next_page cfg s p).count ≠ 0 := by
      have := hc 1 (le_refl _) (by simp)
      simpa [next_page] using this
    have hbn : (next_page cfg s p).batch_count = s.batch_count + 1 :=
      wrap32_of_range _ (by omega) (by omega)
    obtain ⟨s2, h1, h2, h3⟩ := ih (next_page cfg s p)
      (fun x hx => hall x (List.mem_cons_of_mem _ hx)) (fun _ => hb2)
      (by
        intro i hi1 hi2
        have := hc (i + 1) (by omega) (by simp only [List.length_cons]; omega)
        rcases this with h | h
        · exact Or.inl h
        · right
          have e : wrap32 ((next_page cfg s p).count - i)
              = wrap32 (s.count - ((i + 1 : Nat) : Int)) := by
            simp only [next_page]
            unfold wrap32
            push_cast
            omega
          rw [e]; exact h)
      (by rw [hbn]; omega) (by rw [hbn]; omega)
    refine ⟨s2, ?_, ?_, ?_⟩
    · intro tail
      rw [List.cons_append, page_loop_next cfg e _ s p (fun _ => ho) hl hp (Or.inl hs),
        if_pos ⟨hb2, hcount⟩, h1]
    · rw [h2, hbn]; simp only [List.length_cons]; push_cast; ring
    · rw [h3]
      have : captured_statuses (next_page cfg s p).events
          = captured_statuses s.events ++ [SANE_Status.EOF] := by
        unfold next_page
        by_cases hi : s.image = false <;> by_cases hcl : cfg.batch ≠ 0 ∧ cfg.multi = 0 <;>
          simp [hi, hcl, captured_statuses_append, captured_statuses, hs]
      rw [this, List.append_assoc]
      simp [List.replicate_succ]

/-- A run of `scan` in which pages are captured while the loop condition holds
and the next capture reports NO_DOCS: `scan` returns NO_DOCS after that
capture, and the container is deleted exactly when it holds no page. -/
theorem scan_pages_then_no_docs (cfg : Config) (pre : List PageEnv) (env : PageEnv)
    (rest : List PageEnv) (p : Page)
    (hlen : pre.length < 2147483647)
    (hall : ∀ e ∈ pre, page_succeeds cfg e)
    (hb : pre ≠ [] → cfg.batch ≠ 0)
    (hc : ∀ i : Nat, 1 ≤ i → i ≤ pre.length →
      cfg.batch_amount = BATCH_COUNT_UNLIMITED ∨ wrap32 (cfg.batch_amount - i) ≠ 0)
    (ho : env.open_ok = true) (hl : cfg.batch_prompt ≠ 0 → env.line = true)
    (hp : scan_to_tiff cfg.verbose env.capture = Except.ok p)
    (hs : p.status = SANE_Status.NO_DOCS) :
    ∃ ev, scan cfg (pre ++ env :: rest)
        = Except.ok (SANE_Status.NO_DOCS, (pre.length : Int), ev)
      ∧ captured_statuses ev
          = List.replicate pre.length SANE_Status.EOF ++ [SANE_Status.NO_DOCS]
      ∧ (Event.unlink ∈ ev ↔ container_pages ev 0 = 0)
      ∧ (Event.unlink ∈ ev ↔ cfg.multi = 0 ∨ pre = []) := by
  obtain ⟨s1, h1, h2, h3⟩ := page_loop_pages cfg pre
    { image := false, n := cfg.batch_start_at, count := cfg.batch_amount,
      batch_count := 0, status := SANE_Status.GOOD, events := [] } hall hb hc
    (le_refl _) (by simp only; omega)
  simp only [zero_add] at h2
  have hrun : ∀ tail : List PageEnv, page_loop cfg (pre ++ env :: tail)
      { image := false, n := cfg.batch_start_at, count := cfg.batch_amount,
        batch_count := 0, status := SANE_Status.GOOD, events := [] }
      = Except.ok { s1 with
          image := true, status := SANE_Status.NO_DOCS,
          events := (if s1.image = false then s1.events ++ [Event.tiff_open s1.n]
                     else s1.events) ++ [Event.capture s1.n p] } := by
    intro tail
    rw [h1]; exact page_loop_no_docs cfg env tail s1 p (fun _ => ho) hl hp hs
  have hst : captured_statuses ((if s1.image = false then s1.events ++ [Event.tiff_open s1.n]
      else s1.events) ++ [Event.capture s1.n p])
      = List.replicate pre.length SANE_Status.EOF ++ [SANE_Status.NO_DOCS] := by
    simp only [captured_statuses, List.nil_append] at h3
    by_cases hi : s1.image = false <;>
      simp [hi, captured_statuses_append, captured_statuses, h3, hs]
  obtain ⟨ev, f1, _, f3, f4, _, f6⟩ := captured_pages_scan cfg _ _ (hrun rest)
  obtain ⟨g1, g2⟩ := page_loop_no_docs_last cfg (pre ++ [env]) _ _
    (by simp [captured_statuses]) (by simp) (le_refl _)
    (by simp only [List.length_append, List.length_singleton]; push_cast; omega)
    (by simp) (by simp) (hrun [])
  simp only at f1 f3 f4 f6 g1 g2
  rw [hst] at f3 g2
  obtain ⟨_, _, _, k4⟩ := g2 (by simp)
  rw [h2] at f1 f6 k4
  have hzero : ((pre.length : Int) = 0) ↔ pre = [] := by
    rw [← List.length_eq_zero]; omega
  have hun : Event.unlink ∈ ev ↔ cfg.multi = 0 ∨ pre = [] := by
    rw [f6, hzero]
    constructor
    · intro hx
      rcases hx with hx | hx
      · exact absurd hx g1
      · exact hx.2.2
    · intro hx
      exact Or.inr ⟨trivial, trivial, hx⟩
  refine ⟨ev, f1, f3, ?_, hun⟩
  rw [hun, f4, k4, hzero]

/-- C13: when pages have been captured while the loop condition held (none
or fewer than 2^31 - 1 of them) and the next call of `scan_to_tiff` reports
NO_DOCS, `scan` does return: it returns NO_DOCS with that call as its last
capture, and it deletes the open container if and only if no page was
finalized into it, which is the case exactly in one-container-per-page mode
or when no page was captured at all.  More generally, in every run of `scan`
that returns (fewer than 2^31 pages offered) a NO_DOCS report is the last
capture, the status returned is NO_DOCS and the open container is deleted if
and only if it holds no page.  When the first page of a batch run reports
NO_DOCS, `main` deletes the just-opened container and exits with code 2. -/
theorem scan_no_docs :
    (∀ (cfg : Config) (pre : List PageEnv) (env : PageEnv) (rest : List PageEnv)
        (p : Page),
        pre.length < 2147483647 →
        (∀ e ∈ pre, page_succeeds cfg e) →
        (pre ≠ [] → cfg.batch ≠ 0) →
        (∀ i : Nat, 1 ≤ i → i ≤ pre.length →
          cfg.batch_amount = BATCH_COUNT_UNLIMITED
            ∨ wrap32 (cfg.batch_amount - i) ≠ 0) →
        env.open_ok = true → (cfg.batch_prompt ≠ 0 → env.line = true) →
        scan_to_tiff cfg.verbose env.capture = Except.ok p →
        p.status = SANE_Status.NO_DOCS →
        ∃ ev, scan cfg (pre ++ env :: rest)
            = Except.ok (SANE_Status.NO_DOCS, (pre.length : Int), ev)
          ∧ captured_statuses ev
              = List.replicate pre.length SANE_Status.EOF ++ [SANE_Status.NO_DOCS]
          ∧ (Event.unlink ∈ ev ↔ container_pages ev 0 = 0)
          ∧ (Event.unlink ∈ ev ↔ cfg.multi = 0 ∨ pre = []))
    ∧ (∀ (cfg : Config) (envs : List PageEnv) (st : SANE_Status) (bc : Int)
        (ev : List Event),
        envs.length < 2147483648 →
        scan cfg envs = Except.ok (st, bc, ev) →
        SANE_Status.NO_DOCS ∈ captured_statuses ev →
        (∃ l, captured_statuses ev = l ++ [SANE_Status.NO_DOCS]
            ∧ SANE_Status.NO_DOCS ∉ l)
        ∧ st = SANE_Status.NO_DOCS
        ∧ (Event.unlink ∈ ev ↔ container_pages ev 0 = 0))
    ∧ (∀ (r : Run) (devname : List Char) (s : Options) (reg : Registry)
        (area : List Action) (env : PageEnv) (rest : List PageEnv) (p : Page),
        r.cmd_mode ≠ Mode.MODE_VERSION → r.cmd_mode ≠ Mode.MODE_STOP →
        r.devname = some devname → r.open_status = SANE_Status.GOOD →
        process_backend_options r.count_status r.table_ok r.control r.alloc_ok
            r.opts devname r.popt r.cmd_mode r.cfg.batch (-1)
          = Sum.inr (some (s, some reg)) →
        s.mode = Mode.MODE_SCAN → s.batch ≠ 0 →
        requested_area r reg.corners = some (some area) →
        r.envs = env :: rest → env.open_ok = true →
        (r.cfg.batch_prompt ≠ 0 → env.line = true) →
        scan_to_tiff r.cfg.verbose env.capture = Except.ok p →
        p.status = SANE_Status.NO_DOCS →
        main r = Ended.exit 2 s.batch (s.actions ++ area)
          (some (SANE_Status.NO_DOCS, 0,
            [Event.tiff_open r.cfg.batch_start_at, Event.capture r.cfg.batch_start_at p,
             Event.scanned 0, Event.unlink, Event.close]))) := by
  refine ⟨?_, ?_, ?_⟩
  · intro cfg pre env rest p hlen hall hb hc ho hl hp hs
    exact scan_pages_then_no_docs cfg pre env rest p hlen hall hb hc ho hl hp hs
  · intro cfg envs st bc ev hlen h hnd
    cases hpl : page_loop cfg envs
        { image := false, n := cfg.batch_start_at, count := cfg.batch_amount,
          batch_count := 0, status := SANE_Status.GOOD, events := [] } with
    | error f =>
      unfold scan at h
      rw [hpl] at h
      exact absurd h (by simp)
    | ok s2 =>
      obtain ⟨ev2, f1, _, f3, f4, _, f6⟩ := captured_pages_scan cfg envs s2 hpl
      rw [h] at f1
      injection f1 with f1
      injection f1 with e1 f1
      injection f1 with e2 e3
      subst e1 e2 e3
      obtain ⟨g1, g2⟩ := page_loop_no_docs_last cfg envs _ s2 (by simp [captured_statuses])
        (by simp) (le_refl _) (by simp only; omega) (by simp) (by simp) hpl
      rw [f3] at hnd
      obtain ⟨k1, k2, k3, k4⟩ := g2 hnd
      refine ⟨by rw [f3]; exact k3, k2, ?_⟩
      rw [f6, f4, k4]
      constructor
      · intro hx
        rcases hx with hx | hx
        · exact absurd hx g1
        · exact hx.2.2
      · intro hx
        exact Or.inr ⟨k1, k2, hx⟩
  · intro r devname s reg area env rest p h1 h2 h3 h4 h5 h6 h7 h8 h9 h10 h11 h12 h13
    have hscan := scan_first_no_docs { r.cfg with batch := s.batch } env rest p h10 h11
      h12 h13
    unfold main
    simp only [h1, h2, h3, h4, h5, h6, h8, h9, hscan, if_false, ne_eq, not_true_eq_false,
      not_false_eq_true, if_true, h7, and_self]
    simp [h7]

/-- C13, at three batch runs: a page is captured and the feeder is then
empty, in multi-page mode (the container holds one page and is kept) and in
one-container-per-page mode (the container opened for the second page is
deleted); and the feeder is empty from the start (the NO_DOCS report is the
only capture, the empty container is deleted and `main` exits with code 2). -/
theorem scan_no_docs_witness :
    ((∃ ev, scan three_page_config ([full_page] ++ empty_feeder :: [])
          = Except.ok (SANE_Status.NO_DOCS, ([full_page].length : Int), ev)
        ∧ captured_statuses ev
            = List.replicate [full_page].length SANE_Status.EOF ++ [SANE_Status.NO_DOCS]
        ∧ (Event.unlink ∈ ev ↔ container_pages ev 0 = 0)
        ∧ (Event.unlink ∈ ev ↔ three_page_config.multi = 0 ∨ [full_page] = []))
      ∧ (∃ ev, scan one_per_page_config ([full_page] ++ empty_feeder :: [])
          = Except.ok (SANE_Status.NO_DOCS, ([full_page].length : Int), ev)
        ∧ captured_statuses ev
            = List.replicate [full_page].length SANE_Status.EOF ++ [SANE_Status.NO_DOCS]
        ∧ (Event.unlink ∈ ev ↔ container_pages ev 0 = 0)
        ∧ (Event.unlink ∈ ev ↔ one_per_page_config.multi = 0 ∨ [full_page] = [])))
    ∧ ((∃ l, captured_statuses
          [Event.tiff_open 1, Event.capture 1 no_docs_page, Event.scanned 0, Event.unlink,
           Event.close] = l ++ [SANE_Status.NO_DOCS] ∧ SANE_Status.NO_DOCS ∉ l)
      ∧ SANE_Status.NO_DOCS = SANE_Status.NO_DOCS
      ∧ (Event.unlink ∈
          [Event.tiff_open 1, Event.capture 1 no_docs_page, Event.scanned 0, Event.unlink,
           Event.close]
        ↔ container_pages
          [Event.tiff_open 1, Event.capture 1 no_docs_page, Event.scanned 0, Event.unlink,
           Event.close] 0 = 0))
    ∧ main (scan_run zero_amount_config [empty_feeder])
        = Ended.exit 2 1 []
          (some (SANE_Status.NO_DOCS, 0,
            [Event.tiff_open 1, Event.capture 1 no_docs_page, Event.scanned 0,
             Event.unlink, Event.close])) :=
  ⟨⟨scan_no_docs.1 three_page_config [full_page] empty_feeder [] no_docs_page (by decide)
      (fun e he => by rw [List.mem_singleton.mp he]; exact full_page_succeeds _)
      (fun _ => by decide)
      (fun i h1 h2 => by
        have hi : i = 1 := by simp only [List.length_singleton] at h2; omega
        subst hi
        exact Or.inr (by decide))
      rfl (fun _ => rfl) (empty_feeder_page _) rfl,
    scan_no_docs.1 one_per_page_config [full_page] empty_feeder [] no_docs_page (by decide)
      (fun e he => by rw [List.mem_singleton.mp he]; exact full_page_succeeds _)
      (fun _ => by decide)
      (fun i h1 h2 => by
        have hi : i = 1 := by simp only [List.length_singleton] at h2; omega
        subst hi
        exact Or.inr (by decide))
      rfl (fun _ => rfl) (empty_feeder_page _) rfl⟩,
   scan_no_docs.2.1 zero_amount_config [empty_feeder] SANE_Status.NO_DOCS 0 _ (by decide)
      rfl (by decide),
   scan_no_docs.2.2 (scan_run zero_amount_config [empty_feeder]) "test:0".toList
      { mode := Mode.MODE_SCAN, batch := 1, vector_size := 0, actions := [] }
      { resolution_optind := -1, corners := [-1, -1, -1, -1], table := [] }
      [] empty_feeder [] no_docs_page (by decide) (by decide) rfl rfl rfl rfl
      (by decide) rfl rfl rfl (fun _ => rfl) rfl rfl⟩

/-- C16: `scan` at the failing input, the operator's input ending at the
first prompt.  No capture is made and the status returned is GOOD, as the
claim says, but the number in the "Batch terminated" message is
`n - batch_increment` (start - increment here), not the number of pages
captured so far, which is 0; the two agree only for start = increment. -/
theorem scan_prompt_end_of_input (cfg : Config) (env : PageEnv) (rest : List PageEnv)
    (hp : cfg.batch_prompt ≠ 0) (ho : env.open_ok = true) (hl : env.line = false) :
    scan cfg (env :: rest)
      = Except.ok (SANE_Status.GOOD, 0,
          [Event.tiff_open cfg.batch_start_at,
           Event.terminated (wrap32 (cfg.batch_start_at - cfg.batch_increment))]
          ++ (if cfg.batch ≠ 0 then [Event.scanned 0] else []) ++ [Event.close]) := by
  by_cases hb : cfg.batch ≠ 0 <;> simp [scan, page_loop, hp, ho, hl, hb]

/-- C16, at start 5 and increment 1: the message says 4 pages, none was
captured. -/
theorem scan_prompt_end_of_input_witness :
    scan prompting_config [end_of_input]
      = Except.ok (SANE_Status.GOOD, 0,
          [Event.tiff_open 5, Event.terminated 4, Event.scanned 0, Event.close]) :=
  scan_prompt_end_of_input prompting_config end_of_input [] (by decide) rfl rfl

/-! ## Properties of the option table -/

/-- The resolution knob after the table loop: the index of the last option
that the loop records, or the previous value when it records none. -/
theorem fetch_loop_resolution (opts : List Capability) :
    ∀ (i : Int) (r : Registry),
      ((∀ opt ∈ opts, records_resolution opt = false) →
        (fetch_loop opts i r).resolution_optind = r.resolution_optind)
      ∧ (∀ (k : Nat) (h : k < opts.length), records_resolution (opts.get ⟨k, h⟩) = true →
          (∀ (j : Nat) (hj : j < opts.length), k < j →
            records_resolution (opts.get ⟨j, hj⟩) = false) →
          (fetch_loop opts i r).resolution_optind = i + k) := by
  induction opts with
  | nil =>
    intro i r
    exact ⟨fun _ => rfl, fun k h => absurd h (by simp)⟩
  | cons opt rest ih =>
    intro i r
    constructor
    · intro hall
      have h0 : records_resolution opt = false := hall opt (List.mem_cons_self _ _)
      have hrest : ∀ o ∈ rest, records_resolution o = false :=
        fun o ho => hall o (List.mem_cons_of_mem _ ho)
      unfold fetch_loop
      split_ifs with h1 h2 h3
      · exact (ih (i + 1) r).1 hrest
      · exact (ih (i + 1) r).1 hrest
      · exfalso
        simp only [records_resolution, Bool.not_eq_true] at h1
        simp [records_resolution, h1, h3] at h0
      · rw [(ih (i + 1) _).1 hrest]
    · intro k hk hrec hlast
      match k, hk, hrec, hlast with
      | 0, _, hrec, hlast =>
        have hrest : ∀ o ∈ rest, records_resolution o = false := by
          intro o ho
          obtain ⟨j, hj, rfl⟩ := List.getElem_of_mem ho
          have := hlast (j + 1) (by simp only [List.length_cons]; omega) (by omega)
          simpa using this
        simp only [List.get_eq_getElem, List.getElem_cons_zero] at hrec
        have hc : SANE_OPTION_IS_SETTABLE opt.cap = true
            ∧ (opt.type = SANE_Value_Type.FIXED ∨ opt.type = SANE_Value_Type.INT)
            ∧ opt.size = 4 ∧ opt.unit = SANE_Unit.DPI
            ∧ opt.name = SANE_NAME_SCAN_RESOLUTION := by
          simpa [records_resolution] using hrec
        have hg : opt.type ≠ SANE_Value_Type.GROUP := by
          rcases hc.2.1 with h | h <;> rw [h] <;> decide
        unfold fetch_loop
        rw [if_neg (by simp [hc.1]), if_neg hg, if_pos hc.2, (ih (i + 1) _).1 hrest]
        simp
      | k + 1, hk, hrec, hlast =>
        simp only [List.length_cons] at hk
        have hk2 : k < rest.length := by omega
        have hrec2 : records_resolution (rest.get ⟨k, hk2⟩) = true := by
          simpa using hrec
        have hlast2 : ∀ (j : Nat) (hj : j < rest.length), k < j →
            records_resolution (rest.get ⟨j, hj⟩) = false := by
          intro j hj hkj
          have := hlast (j + 1) (by simp only [List.length_cons]; omega) (by omega)
          simpa using this
        have e : ∀ r2 : Registry,
            (fetch_loop rest (i + 1) r2).resolution_optind = i + ((k + 1 : Nat) : Int) := by
          intro r2
          rw [(ih (i + 1) r2).2 k hk2 hrec2 hlast2]
          push_cast; ring
        unfold fetch_loop
        split_ifs <;> exact e _

/-- C20, as stated, fails: with a settable Int-typed DPI option "x-resolution"
at index 0 and the option "resolution" at index 1 the recorded knob is 1, not
the first such option; and with the option "y-resolution" alone the knob
stays unset (-1) although a settable Int-typed DPI option exists. -/
theorem fetch_options_not_first_dpi :
    (fetch_options SANE_Status.GOOD true
        [dpi_option "x-resolution", dpi_option "resolution"] (-1)).map
      (fun reg => reg.resolution_optind) = some 1
    ∧ (fetch_options SANE_Status.GOOD true [dpi_option "y-resolution"] (-1)).map
      (fun reg => reg.resolution_optind) = some (-1) := by
  constructor <;> decide

/-- C20, amended: after `fetch_options` has enumerated the options (the count
query answered GOOD, the table allocated), the recorded resolution knob is
the index of the last option in enumeration order that is settable, Int- or
Fixed-typed, of size 4, with unit DPI and named "resolution"; it keeps its
previous value (-1 at program start) exactly when there is no such option. -/
theorem fetch_options_resolution (opts : List Capability) (before : Int) :
    ∃ reg, fetch_options SANE_Status.GOOD true opts before = some reg
      ∧ ((∀ opt ∈ opts, records_resolution opt = false) →
          reg.resolution_optind = before)
      ∧ (∀ (k : Nat) (h : k < opts.length), records_resolution (opts.get ⟨k, h⟩) = true →
          (∀ (j : Nat) (hj : j < opts.length), k < j →
            records_resolution (opts.get ⟨j, hj⟩) = false) →
          reg.resolution_optind = k) := by
  refine ⟨_, rfl, ?_, ?_⟩
  · exact (fetch_loop_resolution opts 0 _).1
  · intro k h h1 h2
    rw [(fetch_loop_resolution opts 0 _).2 k h h1 h2]
    simp

/-- C20, amended, at a device with the options "resolution" (index 0),
"y-resolution" and "resolution" again (index 2), where the knob is 2, and at
a device with the option "y-resolution" alone, where it stays -1. -/
theorem fetch_options_resolution_witness :
    (∃ reg, fetch_options SANE_Status.GOOD true
        [dpi_option "resolution", dpi_option "y-resolution", dpi_option "resolution"] (-1)
        = some reg ∧ reg.resolution_optind = 2)
    ∧ (∃ reg, fetch_options SANE_Status.GOOD true [dpi_option "y-resolution"] (-1)
        = some reg ∧ reg.resolution_optind = -1) :=
  ⟨match fetch_options_resolution
      [dpi_option "resolution", dpi_option "y-resolution", dpi_option "resolution"] (-1) with
    | ⟨reg, h1, _, h3⟩ =>
      ⟨reg, h1, h3 2 (by decide) (by decide)
        (fun j hj hk => absurd hj (by simp only [List.length_cons, List.length_nil]; omega))⟩,
   match fetch_options_resolution [dpi_option "y-resolution"] (-1) with
    | ⟨reg, h1, h2, _⟩ => ⟨reg, h1, h2 (by decide)⟩⟩

/-! ## Properties of the option engine -/

/-- An inactive option is ignored. -/
theorem process_backend_option_inactive (control : Action → SANE_Status) (alloc_ok : Bool)
    (d : Capability) (optnum : Int) (optarg : Option (List Char)) (batch : Int)
    (vector_size : Nat) (h : SANE_OPTION_IS_ACTIVE d.cap = false) :
    process_backend_option control alloc_ok (some d) optnum optarg batch vector_size
      = ⟨Applied.status SANE_Status.GOOD, batch, vector_size, []⟩ := by
  unfold process_backend_option
  dsimp only
  rw [if_pos h]

/-- An active option with the automatic-mode flag and an argument that starts
with "auto", letter case ignored, is set to automatic. -/
theorem process_backend_option_auto (control : Action → SANE_Status) (alloc_ok : Bool)
    (d : Capability) (optnum : Int) (arg : List Char) (batch : Int)
    (vector_size : Nat) (ha : SANE_OPTION_IS_ACTIVE d.cap = true)
    (h : d.cap &&& SANE_CAP_AUTOMATIC ≠ 0)
    (harg : (arg.take 4).map Char.toLower = "auto".toList) :
    process_backend_option control alloc_ok (some d) optnum (some arg) batch vector_size
      = ⟨Applied.status (control (Action.set_auto optnum)), batch, vector_size,
          [Action.set_auto optnum]⟩ := by
  unfold process_backend_option
  dsimp only
  rw [if_neg (by rw [ha]; decide), if_pos ⟨h, rfl, harg⟩]

/-- An active String-typed option without the automatic-mode flag: the
argument, cut to the size of the option, goes to `set_option`. -/
theorem process_backend_option_string (control : Action → SANE_Status)
    (d : Capability) (optnum : Int) (arg : List Char) (batch : Int)
    (vector_size : Nat) (ha : SANE_OPTION_IS_ACTIVE d.cap = true)
    (h : d.cap &&& SANE_CAP_AUTOMATIC = 0) (ht : d.type = SANE_Value_Type.STRING) :
    (process_backend_option control true (some d) optnum (some arg) batch
        vector_size).batch
      = (set_backend_option control (some d) optnum
          (Value.string (arg.take (d.size - 1).toNat)) batch).2.1 := by
  unfold process_backend_option
  dsimp only
  rw [if_neg (by rw [ha]; decide), if_neg (fun hc => hc.1 h), ht]
  rfl

/-- C14, as stated, fails: applying "Automatic Document Feeder" to a source
option that is inactive is ignored (no device call, batch stays 0), and
applying it to an active source option with the automatic-mode flag sets the
option to automatic, because the literal starts with "auto" when letter case
is ignored (one `SET_AUTO` call, batch stays 0). -/
theorem process_backend_option_feeder_ignored :
    process_backend_option (fun _ => SANE_Status.GOOD) true
        (some (source_option (SANE_CAP_SOFT_SELECT + SANE_CAP_INACTIVE))) 3
        (some ADF_STR) 0 0
      = { result := Applied.status SANE_Status.GOOD, batch := 0, vector_size := 0,
          actions := [] }
    ∧ process_backend_option (fun _ => SANE_Status.GOOD) true
        (some (source_option (SANE_CAP_SOFT_SELECT + SANE_CAP_AUTOMATIC))) 3
        (some ADF_STR) 0 0
      = { result := Applied.status SANE_Status.GOOD, batch := 0, vector_size := 0,
          actions := [Action.set_auto 3] } := by
  constructor <;> decide

/-- C14, amended: for a descriptor whose name starts with "source", every
prior value of the batch flag and every answer of the device, applying the
literal "Automatic Document Feeder" through `process_backend_option` leaves
batch = 1 when the option is active, lacks the automatic-mode flag, is
String-typed and has room for the literal (size ≥ 26, the allocation
succeeding); when the option is inactive or has the automatic-mode flag the
batch flag is left as it was. -/
theorem process_backend_option_feeder (control : Action → SANE_Status) (d : Capability)
    (optnum batch : Int) (vector_size : Nat)
    (hn : SANE_NAME_SCAN_SOURCE.isPrefixOf d.name = true) :
    (SANE_OPTION_IS_ACTIVE d.cap = true → d.cap &&& SANE_CAP_AUTOMATIC = 0 →
      d.type = SANE_Value_Type.STRING → 26 ≤ d.size →
      (process_backend_option control true (some d) optnum (some ADF_STR) batch
        vector_size).batch = 1)
    ∧ (SANE_OPTION_IS_ACTIVE d.cap = false ∨ d.cap &&& SANE_CAP_AUTOMATIC ≠ 0 →
      (process_backend_option control true (some d) optnum (some ADF_STR) batch
        vector_size).batch = batch) := by
  constructor
  · intro ha hauto ht hsize
    have htake : ADF_STR.take (d.size - 1).toNat = ADF_STR := by
      apply List.take_of_length_le
      have : ADF_STR.length = 25 := by decide
      omega
    have hself : ADF_STR.isPrefixOf ADF_STR = true := by decide
    rw [process_backend_option_string control d optnum ADF_STR batch vector_size ha hauto ht,
      htake]
    unfold set_backend_option
    simp only [hn, value_bytes, hself, if_true, ht]
    simp only [reduceCtorEq, false_and, if_false]
    split_ifs <;> rfl
  · intro h
    by_cases ha : SANE_OPTION_IS_ACTIVE d.cap = false
    · rw [process_backend_option_inactive _ _ _ _ _ _ _ ha]
    · rcases h with h | h
      · exact absurd h ha
      · rw [process_backend_option_auto _ _ _ _ ADF_STR _ _ (by simpa using ha) h
          (by decide)]

/-- C14, amended, at an active source option without the automatic-mode flag
(batch goes from 0 to 1 although the device rejects the value) and at an
inactive one (batch stays 0). -/
theorem process_backend_option_feeder_witness :
    (process_backend_option (fun _ => SANE_Status.INVAL) true
        (some (source_option SANE_CAP_SOFT_SELECT)) 3 (some ADF_STR) 0 0).batch = 1
    ∧ (process_backend_option (fun _ => SANE_Status.INVAL) true
        (some (source_option (SANE_CAP_SOFT_SELECT + SANE_CAP_INACTIVE))) 3
        (some ADF_STR) 0 0).batch = 0 :=
  ⟨(process_backend_option_feeder _ (source_option SANE_CAP_SOFT_SELECT) 3 0 0
      (by decide)).1 (by decide) (by decide) rfl (by decide),
   (process_backend_option_feeder _ (source_option (SANE_CAP_SOFT_SELECT + SANE_CAP_INACTIVE))
      3 0 0 (by decide)).2 (Or.inl (by decide))⟩

/-- Division of a double with a short significand by a power of two is exact. -/
theorem fdiv_pow2 (m : Int) (a b : Nat) (hm : m.natAbs < 2 ^ 53) (hab : b ≤ a + 1074) :
    fdiv (m * 2 ^ a) (2 ^ b) = m * 2 ^ (a + 1074 - b) := by
  have hpos : (0 : Int) < 2 ^ b := by positivity
  have hd : (0 : Nat) < 2 ^ b := by positivity
  have hna : ((2 : Int) ^ b).natAbs = 2 ^ b := by
    rw [Int.natAbs_pow]; rfl
  have := round_double_exact m (a + 1074 - b) (2 ^ b) hd hm
  unfold fdiv
  simp only [ne_of_gt hpos, hpos, if_true, if_false]
  have e : m * 2 ^ a * (UNIT : Int) = m * 2 ^ (a + 1074 - b) * ((2 ^ b : Nat) : Int) := by
    rw [UNIT_cast, Nat.cast_pow, Nat.cast_ofNat, mul_assoc, mul_assoc, ← pow_add, ← pow_add,
      show a + 1074 - b + b = a + 1074 by omega]
  rw [hna, e, this]

/-- Multiplication of a double with a short significand by a power of two is
exact. -/
theorem fmul_pow2 (m : Int) (a b : Nat) (hm : m.natAbs < 2 ^ 53) (hab : 1074 ≤ a + b) :
    fmul (m * 2 ^ a) (2 ^ b) = m * 2 ^ (a + b - 1074) := by
  have hU : 0 < UNIT := pow2_pos 1074
  have := round_double_exact m (a + b - 1074) UNIT hU hm
  have e : m * 2 ^ a * 2 ^ b = m * 2 ^ (a + b - 1074) * (UNIT : Int) := by
    rw [UNIT_cast, mul_assoc, mul_assoc, ← pow_add, ← pow_add,
      show a + b - 1074 + 1074 = a + b by omega]
  show round_double (m * 2 ^ a * 2 ^ b) UNIT = _
  rw [e, this]

/-- The double `1 << SANE_FIXED_SCALE_SHIFT`. -/
theorem fixed_scale : of_int ((1 <<< SANE_FIXED_SCALE_SHIFT : Nat) : Int) = 2 ^ 1090 := by
  have h : (((1 <<< SANE_FIXED_SCALE_SHIFT : Nat)) : Int) = 65536 := by decide
  rw [h, of_int_exact 65536 (by norm_num)]
  rw [show (65536 : Int) = 2 ^ 16 by norm_num, ← pow_add]

/-- `SANE_UNFIX` of a 32-bit word is exact: w / 2^16 is w * 2^1058 units. -/
theorem unfix_exact (w : Int) (h1 : -2147483648 ≤ w) (h2 : w < 2147483648) :
    fdiv (of_int w) (of_int (1 <<< SANE_FIXED_SCALE_SHIFT)) = w * 2 ^ 1058 := by
  have hw : w.natAbs < 2 ^ 53 := by omega
  rw [fixed_scale, of_int_exact w hw]
  exact fdiv_pow2 w 1074 1090 hw (by norm_num)

/-- `SANE_FIX` of the unfixed word gives the word back. -/
theorem fix_unfix (w : Int) (h1 : -2147483648 ≤ w) (h2 : w < 2147483648) :
    to_word (fmul (fdiv (of_int w) (of_int (1 <<< SANE_FIXED_SCALE_SHIFT)))
      (of_int (1 <<< SANE_FIXED_SCALE_SHIFT))) = some w := by
  have hw : w.natAbs < 2 ^ 53 := by omega
  rw [unfix_exact w h1 h2, fixed_scale]
  have := fmul_pow2 w 1058 1090 hw (by norm_num)
  rw [this]
  exact to_word_int w h1 h2

/-- An active word-sized Int or Fixed option without a request for automatic
mode: the argument is parsed into the one-word vector, which goes to
`set_option`. -/
theorem process_backend_option_word (control : Action → SANE_Status) (d : Capability)
    (optnum : Int) (arg : List Char) (batch : Int) (vector_size : Nat) (w : Int)
    (ha : SANE_OPTION_IS_ACTIVE d.cap = true)
    (h : d.cap &&& SANE_CAP_AUTOMATIC = 0)
    (ht : d.type = SANE_Value_Type.FIXED ∨ d.type = SANE_Value_Type.INT)
    (hs : d.size = 4)
    (hp : parse_vector d.toSANE_Option_Descriptor arg [0] = ([w], Outcome.returned)) :
    (process_backend_option control true (some d) optnum (some arg) batch
        vector_size).actions
      = (set_backend_option control (some d) optnum (Value.words [w]) batch).2.2
    ∧ (process_backend_option control true (some d) optnum (some arg) batch
        vector_size).result
      = (set_backend_option control (some d) optnum (Value.words [w]) batch).1 := by
  have hlen : (Int.tdiv d.size 4).toNat = 1 := by rw [hs]; rfl
  have hrep : List.replicate 1 (0 : Int) = [0] := rfl
  unfold process_backend_option
  dsimp only
  rw [if_neg (by rw [ha]; decide), if_neg (fun hc => hc.1 h)]
  rcases ht with ht | ht <;>
  · rw [ht]
    dsimp only
    rw [hlen, if_neg (by simp), hrep, hp]
    exact ⟨rfl, rfl⟩

/-- C22: the round trip of a word through `set_option` and
`sane_set_opt_word`.  For every 32-bit word w, `SANE_FIX(SANE_UNFIX(w))` is w
(both conversions are exact in binary64); so for a word-sized Fixed option
and for a word-sized Int option `set_option` makes exactly one device call,
`SET_VALUE` with the word w, and returns its status; and when
`process_backend_option` has parsed the argument of such an option into the
word w, that is the word sent to the device. -/
theorem set_option_word_round_trip (control : Action → SANE_Status) (d : Capability)
    (optnum w batch : Int) (ws : List Int)
    (h1 : -2147483648 ≤ w) (h2 : w < 2147483648)
    (ht : d.type = SANE_Value_Type.FIXED ∨ d.type = SANE_Value_Type.INT)
    (hs : d.size = 4) :
    to_word (fmul (fdiv (of_int w) (of_int (1 <<< SANE_FIXED_SCALE_SHIFT)))
      (of_int (1 <<< SANE_FIXED_SCALE_SHIFT))) = some w
    ∧ to_word (of_int w) = some w
    ∧ (set_backend_option control (some d) optnum (Value.words (w :: ws)) batch).1
        = Applied.status (control (Action.set_value optnum (Value.words [w])))
    ∧ (set_backend_option control (some d) optnum (Value.words (w :: ws)) batch).2.2
        = [Action.set_value optnum (Value.words [w])]
    ∧ (∀ (arg : List Char) (vector_size : Nat),
        SANE_OPTION_IS_ACTIVE d.cap = true → d.cap &&& SANE_CAP_AUTOMATIC = 0 →
        parse_vector d.toSANE_Option_Descriptor arg [0] = ([w], Outcome.returned) →
        (process_backend_option control true (some d) optnum (some arg) batch
            vector_size).actions = [Action.set_value optnum (Value.words [w])]
        ∧ (process_backend_option control true (some d) optnum (some arg) batch
            vector_size).result
          = Applied.status (control (Action.set_value optnum (Value.words [w])))) := by
  have hfix := fix_unfix w h1 h2
  have hint : to_word (of_int w) = some w := by
    rw [of_int_exact w (by omega)]
    exact to_word_int w h1 h2
  have hset : ∀ ws : List Int,
      (set_backend_option control (some d) optnum (Value.words (w :: ws)) batch).1
        = Applied.status (control (Action.set_value optnum (Value.words [w])))
      ∧ (set_backend_option control (some d) optnum (Value.words (w :: ws)) batch).2.2
        = [Action.set_value optnum (Value.words [w])] := by
    intro ws
    unfold set_backend_option
    dsimp only
    rcases ht with ht | ht
    · rw [if_neg (by rw [ht]; simp), if_pos ⟨ht, hs⟩]
      unfold sane_set_opt_word
      dsimp only
      rw [if_pos ht, hfix]
      exact ⟨rfl, rfl⟩
    · rw [if_pos ⟨ht, hs⟩]
      unfold sane_set_opt_word
      dsimp only
      rw [if_neg (by rw [ht]; simp), hint]
      exact ⟨rfl, rfl⟩
  refine ⟨hfix, hint, (hset ws).1, (hset ws).2, ?_⟩
  intro arg vector_size ha hauto hp
  have := process_backend_option_word control d optnum arg batch vector_size w ha hauto ht
    hs hp
  rw [this.1, this.2]
  exact ⟨(hset []).2, (hset []).1⟩

/-- C22, at the Fixed option "br-x" with the argument "2.5" (the word
163840 = 2.5 * 2^16 is parsed and sent) and at the Int option "resolution"
with the argument "300". -/
theorem set_option_word_round_trip_witness :
    ((process_backend_option (fun _ => SANE_Status.GOOD) true
        (some (word_option SANE_Value_Type.FIXED SANE_Unit.MM "br-x")) 5
        (some "2.5".toList) 0 0).actions = [Action.set_value 5 (Value.words [163840])]
      ∧ (process_backend_option (fun _ => SANE_Status.GOOD) true
        (some (word_option SANE_Value_Type.FIXED SANE_Unit.MM "br-x")) 5
        (some "2.5".toList) 0 0).result = Applied.status SANE_Status.GOOD)
    ∧ ((process_backend_option (fun _ => SANE_Status.GOOD) true
        (some (word_option SANE_Value_Type.INT SANE_Unit.DPI "resolution")) 2
        (some "300".toList) 0 0).actions = [Action.set_value 2 (Value.words [300])]
      ∧ (process_backend_option (fun _ => SANE_Status.GOOD) true
        (some (word_option SANE_Value_Type.INT SANE_Unit.DPI "resolution")) 2
        (some "300".toList) 0 0).result = Applied.status SANE_Status.GOOD) :=
  ⟨(set_option_word_round_trip (fun _ => SANE_Status.GOOD)
      (word_option SANE_Value_Type.FIXED SANE_Unit.MM "br-x") 5 163840 0 []
      (by decide) (by decide) (Or.inl rfl) rfl).2.2.2.2 "2.5".toList 0 (by decide)
      (by decide) (by decide!),
   (set_option_word_round_trip (fun _ => SANE_Status.GOOD)
      (word_option SANE_Value_Type.INT SANE_Unit.DPI "resolution") 2 300 0 []
      (by decide) (by decide) (Or.inr rfl) rfl).2.2.2.2 "300".toList 0 (by decide)
      (by decide) (by decide!)⟩

/-! ## Lengths in inches -/

/-- Error of a double product. -/
theorem fmul_error (x y : Int) (k : Nat) (h : (x * y).natAbs < UNIT * 2 ^ k) :
    -((UNIT : Int) * 2 ^ (k - 53)) ≤ 2 * (fmul x y * UNIT - x * y)
    ∧ 2 * (fmul x y * UNIT - x * y) ≤ (UNIT : Int) * 2 ^ (k - 53) :=
  round_double_error (x * y) UNIT k (pow2_pos 1074) h

/-- Error of the double nearest to the decimal m / 10^k, for m / 10^k below
2^11. -/
theorem of_decimal_error (m k : Nat) (hm : m < 2048 * 10 ^ k) :
    -(((10 ^ k : Nat) : Int) * 2 ^ 1032)
        ≤ 2 * (of_decimal m (0 - (k : Int)) * ((10 ^ k : Nat) : Int) - m * 2 ^ 1074)
    ∧ 2 * (of_decimal m (0 - (k : Int)) * ((10 ^ k : Nat) : Int) - m * 2 ^ 1074)
        ≤ ((10 ^ k : Nat) : Int) * 2 ^ 1032 := by
  have hD : 0 < 10 ^ k := by positivity
  have hn : ((m : Int) * UNIT).natAbs < 10 ^ k * 2 ^ 1085 := by
    rw [Int.natAbs_mul, Int.natAbs_ofNat, Int.natAbs_ofNat, UNIT_eq]
    have e : (2 : Nat) ^ 1085 = 2048 * 2 ^ 1074 := by
      rw [show (1085 : Nat) = 11 + 1074 by norm_num, pow_add]; norm_num
    rw [e]
    have : m * 2 ^ 1074 < 2048 * 10 ^ k * 2 ^ 1074 :=
      Nat.mul_lt_mul_of_pos_right hm (by positivity)
    calc m * 2 ^ 1074 < 2048 * 10 ^ k * 2 ^ 1074 := this
      _ = 10 ^ k * (2048 * 2 ^ 1074) := by ring
  have he := round_double_error ((m : Int) * UNIT) (10 ^ k) 1085 hD hn
  simp only [Nat.reduceSub] at he
  have hv : of_decimal m (0 - (k : Int)) = round_double ((m : Int) * UNIT) (10 ^ k) := by
    unfold of_decimal
    by_cases hk : k = 0
    · subst hk
      simp
    · have hneg : ¬ ((0 : Int) ≤ 0 - (k : Int)) := by omega
      rw [if_neg hneg]
      congr 2
      omega
  rw [hv, ← UNIT_cast]
  exact he

/-- Round-half-up of m * 33292288 / 10^(k+1) stays clear of the whole numbers:
the distance is at least 2^(k+1) parts of 2 * 10^(k+1). -/
theorem inch_margin (k : Nat) (hk : k ≤ 6) (m : Int) :
    ((m * 33292288 + 10 ^ (k + 1)) / (2 * 10 ^ (k + 1))) * (2 * 10 ^ (k + 1)) + 2 ^ (k + 1)
        ≤ m * 33292288 + 10 ^ (k + 1)
    ∧ m * 33292288 + 10 ^ (k + 1) + 2 ^ (k + 1)
        ≤ ((m * 33292288 + 10 ^ (k + 1)) / (2 * 10 ^ (k + 1)) + 1) * (2 * 10 ^ (k + 1)) := by
  interval_cases k <;> norm_num <;> omega

set_option exponentiation.threshold 3000 in
/-- The double nearest to a decimal m / 10^k up to 1290, scaled by 2^16, is
below 2^27. -/
theorem decimal_bound (k : Nat) (hk : k ≤ 6) (m v0 : Int) (hm0 : 0 ≤ m)
    (hm : m ≤ 1290 * 10 ^ k)
    (e0a : -(10 ^ k * 2 ^ 1032) ≤ 2 * (v0 * 10 ^ k - m * 2 ^ 1074))
    (e0b : 2 * (v0 * 10 ^ k - m * 2 ^ 1074) ≤ 10 ^ k * 2 ^ 1032) :
    (65536 * v0).natAbs < 2 ^ 1101 := by
  interval_cases k <;> norm_num at hm e0a e0b ⊢ <;> omega

set_option exponentiation.threshold 3000 in
/-- The arithmetic of a Fixed-typed length in inches: with the rounding errors
of the four double operations, the sum `v + 0.5` lies between the whole number
T and T + 1 whenever the exact value does so with the margin of
`inch_margin`. -/
theorem fixed_inch_arith (k : Nat) (hk : k ≤ 6) (m T v0 v1 p s : Int) (hm0 : 0 ≤ m)
    (hm : m ≤ 1290 * 10 ^ k)
    (hT1 : T * (2 * 10 ^ (k + 1)) + 2 ^ (k + 1) ≤ m * 33292288 + 10 ^ (k + 1))
    (hT2 : m * 33292288 + 10 ^ (k + 1) + 2 ^ (k + 1) ≤ (T + 1) * (2 * 10 ^ (k + 1)))
    (e0a : -(10 ^ k * 2 ^ 1032) ≤ 2 * (v0 * 10 ^ k - m * 2 ^ 1074))
    (e0b : 2 * (v0 * 10 ^ k - m * 2 ^ 1074) ≤ 10 ^ k * 2 ^ 1032)
    (e1a : -(2 ^ 1048) ≤ 2 * (v1 - 65536 * v0))
    (e1b : 2 * (v1 - 65536 * v0) ≤ 2 ^ 1048)
    (e2a : -(2 ^ 1074 * 2 ^ 1053) ≤ 2 * (p * 2 ^ 1074 - v1 * (7149464408450662 * 2 ^ 1026)))
    (e2b : 2 * (p * 2 ^ 1074 - v1 * (7149464408450662 * 2 ^ 1026)) ≤ 2 ^ 1074 * 2 ^ 1053)
    (e3a : -(2 ^ 1053) ≤ 2 * (s - (p + 2 ^ 1073)))
    (e3b : 2 * (s - (p + 2 ^ 1073)) ≤ 2 ^ 1053) :
    s / 2 ^ 1074 = T ∧ 0 ≤ s ∧ 0 ≤ T ∧ T < 2147483648 := by
  interval_cases k <;> norm_num at hm hT1 hT2 e0a e0b e1a e1b e2a e2b e3a e3b ⊢ <;> omega

set_option exponentiation.threshold 3000 in
theorem product_bound (v0 v1 : Int) (h0 : (65536 * v0).natAbs < 2 ^ 1101)
    (e1a : -(2 ^ 1048) ≤ 2 * (v1 - 65536 * v0))
    (e1b : 2 * (v1 - 65536 * v0) ≤ 2 ^ 1048) :
    (v1 * (7149464408450662 * 2 ^ 1026)).natAbs < UNIT * 2 ^ 1106 := by
  rw [UNIT_eq]
  norm_num at h0 e1a e1b ⊢
  omega

set_option exponentiation.threshold 3000 in
theorem sum_bound (v0 v1 p : Int) (h0 : (65536 * v0).natAbs < 2 ^ 1101)
    (e1a : -(2 ^ 1048) ≤ 2 * (v1 - 65536 * v0))
    (e1b : 2 * (v1 - 65536 * v0) ≤ 2 ^ 1048)
    (e2a : -(2 ^ 1074 * 2 ^ 1053) ≤ 2 * (p * 2 ^ 1074 - v1 * (7149464408450662 * 2 ^ 1026)))
    (e2b : 2 * (p * 2 ^ 1074 - v1 * (7149464408450662 * 2 ^ 1026)) ≤ 2 ^ 1074 * 2 ^ 1053) :
    (p + 2 ^ 1073).natAbs < 2 ^ 1106 := by
  have hb : -(2 ^ 1106) < p + 2 ^ 1073 ∧ p + 2 ^ 1073 < 2 ^ 1106 := by
    norm_num at h0 e1a e1b e2a e2b ⊢
    omega
  zify
  rw [abs_lt]
  exact hb

/-- The value that `parse_scalar` stores for a Fixed-typed length of
m / 10^k inches (k ≤ 6 digits after the point, at most 1290 inches): the
16.16 fixed-point word nearest to m / 10^k * 25.4 * 65536, halves rounded
up. -/
theorem fixed_inch_value (k m : Nat) (hk : k ≤ 6) (hm : m ≤ 1290 * 10 ^ k) :
    to_word (fadd (fmul (fmul (of_decimal m (0 - (k : Int)))
        (of_int ((1 <<< SANE_FIXED_SCALE_SHIFT : Nat) : Int))) (of_decimal 254 (-1))) half)
      = some (((m : Int) * 33292288 + 10 ^ (k + 1)) / (2 * 10 ^ (k + 1))) := by
  have hm' : (m : Int) ≤ 1290 * 10 ^ k := by exact_mod_cast hm
  have hpos : 0 < 10 ^ k := by positivity
  obtain ⟨e0a, e0b⟩ := of_decimal_error m k (by omega)
  rw [fixed_scale, inch_eq, half_eq]
  generalize of_decimal m (0 - (k : Int)) = v0 at *
  simp only [Nat.cast_pow, Nat.cast_ofNat] at e0a e0b
  have h0 := decimal_bound k hk m v0 (by omega) hm' e0a e0b
  have e16 : (2 : Int) ^ 1090 = 65536 * 2 ^ 1074 := by
    rw [show (1090 : Nat) = 16 + 1074 by norm_num, pow_add]; norm_num
  have hcomm : fmul v0 (2 ^ 1090) = fmul (65536 * 2 ^ 1074) v0 := by
    unfold fmul
    rw [e16, mul_comm]
  rw [hcomm]
  obtain ⟨e1a, e1b⟩ := fmul_int_error 65536 v0 1101 h0
  generalize fmul (65536 * 2 ^ 1074) v0 = v1 at *
  simp only [Nat.reduceSub] at e1a e1b
  have h1 := product_bound v0 v1 h0 e1a e1b
  obtain ⟨e2a, e2b⟩ := fmul_error v1 (7149464408450662 * 2 ^ 1026) 1106 h1
  generalize fmul v1 (7149464408450662 * 2 ^ 1026) = p at *
  simp only [Nat.reduceSub, UNIT_cast] at e2a e2b
  have h2 := sum_bound v0 v1 p h0 e1a e1b e2a e2b
  obtain ⟨e3a, e3b⟩ := fadd_error p (2 ^ 1073) 1106 h2
  generalize fadd p (2 ^ 1073) = s at *
  simp only [Nat.reduceSub] at e3a e3b
  obtain ⟨hT1, hT2⟩ := inch_margin k hk m
  have key := fixed_inch_arith k hk m _ v0 v1 p s (by omega) hm' hT1 hT2 e0a e0b e1a e1b
    e2a e2b e3a e3b
  unfold to_word
  simp only
  rw [Int.tdiv_eq_ediv key.2.1 (Int.ofNat_nonneg UNIT), UNIT_cast, key.1]
  have hlo : (-2147483648 : Int) ≤ ((m : Int) * 33292288 + 10 ^ (k + 1)) / (2 * 10 ^ (k + 1)) :=
    le_trans (by norm_num) key.2.2.1
  simp [hlo, key.2.2.2]

theorem digitChar_plain (d : Nat) (h : d < 10) :
    (Nat.digitChar d).toLower ≠ 'i' ∧ (Nat.digitChar d).toLower ≠ 'n'
    ∧ Nat.digitChar d ≠ 'x' ∧ Nat.digitChar d ≠ 'X' ∧ Nat.digitChar d ≠ '.' := by
  interval_cases d <;> decide

/-- A text that starts with a decimal digit is no spelling of an infinity or
of a NaN. -/
theorem special_literal_digit (d : Nat) (h : d < 10) (t : List Char) :
    special_literal (Nat.digitChar d :: t) = none := by
  have hp := digitChar_plain d h
  have e8 : "infinity".toList = ['i', 'n', 'f', 'i', 'n', 'i', 't', 'y'] := rfl
  have e3 : "inf".toList = ['i', 'n', 'f'] := rfl
  have e4 : "nan".toList = ['n', 'a', 'n'] := rfl
  unfold special_literal
  rw [e8, e3, e4]
  have h1 : ¬ (List.map Char.toLower (List.take 8 (Nat.digitChar d :: t))
      = ['i', 'n', 'f', 'i', 'n', 'i', 't', 'y']) := by
    intro he
    simp only [List.take_succ_cons, List.map_cons, List.cons.injEq] at he
    exact hp.1 he.1
  have h2 : ¬ (List.map Char.toLower (List.take 3 (Nat.digitChar d :: t))
      = ['i', 'n', 'f']) := by
    intro he
    simp only [List.take_succ_cons, List.map_cons, List.cons.injEq] at he
    exact hp.1 he.1
  have h3 : ¬ (List.map Char.toLower (List.take 3 (Nat.digitChar d :: t))
      = ['n', 'a', 'n']) := by
    intro he
    simp only [List.take_succ_cons, List.map_cons, List.cons.injEq] at he
    exact hp.2.1 he.1
  rw [if_neg h1, if_neg h2, if_neg h3]

/-- A text that starts with decimal digits followed by something other than
`x` is no hexadecimal literal. -/
theorem hex_literal_digits (d : Nat) (ds : List Nat) (hd : ∀ x ∈ d :: ds, x < 10)
    (rest : List Char) (hr : peek rest ≠ 'x' ∧ peek rest ≠ 'X') :
    hex_literal ((d :: ds).map Nat.digitChar ++ rest) = none := by
  unfold hex_literal
  split
  · rename_i x t heq
    have hx : ¬ (x = 'x' ∨ x = 'X') := by
      simp only [List.map_cons, List.cons_append, List.cons.injEq] at heq
      obtain ⟨_, h2⟩ := heq
      cases ds with
      | nil =>
        simp only [List.map_nil, List.nil_append] at h2
        rw [h2] at hr
        simpa [peek] using hr
      | cons d2 ds2 =>
        simp only [List.map_cons, List.cons_append, List.cons.injEq] at h2
        have hp := digitChar_plain d2 (hd d2 (by simp))
        rw [← h2.1]
        intro hc
        rcases hc with hc | hc
        · exact hp.2.2.1 hc
        · exact hp.2.2.2.1 hc
    rw [if_neg hx]
  · rfl

/-- `strtod` reads a decimal literal with digits after the point: the double
nearest to its value. -/
theorem strtod_decimal (d : Nat) (ds : List Nat) (hd : ∀ x ∈ d :: ds, x < 10)
    (F : List Nat) (hF : ∀ x ∈ F, x < 10) (rest : List Char)
    (hr : (peek rest).isDigit = false) (he : take_exponent rest = (0, rest)) :
    strtod ((d :: ds).map Nat.digitChar ++ '.' :: (F.map Nat.digitChar ++ rest))
      = some (of_decimal (digits_value F (digits_value (d :: ds) 0)) (0 - (F.length : Int)),
          rest) := by
  have hd0 := digitChar_isDigit d (hd d (by simp))
  have hskip : skip_space ((d :: ds).map Nat.digitChar ++ '.' :: (F.map Nat.digitChar ++ rest))
      = (d :: ds).map Nat.digitChar ++ '.' :: (F.map Nat.digitChar ++ rest) := by
    simp [skip_space, hd0.2.2.1]
  have hsign : take_sign ((d :: ds).map Nat.digitChar ++ '.' :: (F.map Nat.digitChar ++ rest))
      = (false, (d :: ds).map Nat.digitChar ++ '.' :: (F.map Nat.digitChar ++ rest)) := by
    simp only [List.map_cons, List.cons_append]
    unfold take_sign
    split
    · rename_i h; simp at h; exact absurd h.1 hd0.2.2.2.1
    · rename_i h; simp at h; exact absurd h.1 hd0.2.2.2.2
    · rfl
  have hspecial : special_literal
      ((d :: ds).map Nat.digitChar ++ '.' :: (F.map Nat.digitChar ++ rest)) = none :=
    special_literal_digit d (hd d (by simp)) _
  have hhex := hex_literal_digits d ds hd ('.' :: (F.map Nat.digitChar ++ rest))
    (by constructor <;> simp [peek])
  have ht1 := take_digits_map (d :: ds) hd ('.' :: (F.map Nat.digitChar ++ rest))
    (by simp [peek]) 0 0
  have ht2 := take_digits_map F hF rest hr (digits_value (d :: ds) 0) 0
  unfold strtod
  rw [hskip, hsign]
  simp only [hspecial, hhex]
  unfold decimal_literal
  simp only [ht1, ht2, he]
  have hne : ¬ (0 + (d :: ds).length + (0 + F.length) = 0) := by simp
  rw [if_neg hne]
  simp

/-- `strtod` reads a decimal literal without a point that is followed by the
inch unit: the double nearest to its value. -/
theorem strtod_whole (d : Nat) (ds : List Nat) (hd : ∀ x ∈ d :: ds, x < 10)
    (rest : List Char) (hu : rest = ['i', 'n'] ∨ rest = ['"']) :
    strtod ((d :: ds).map Nat.digitChar ++ rest)
      = some (of_decimal (digits_value (d :: ds) 0) (0 - ((0 : Nat) : Int)), rest) := by
  have hr : (peek rest).isDigit = false ∧ peek rest ≠ 'x' ∧ peek rest ≠ 'X' := by
    rcases hu with h | h <;> rw [h] <;> decide
  have hd0 := digitChar_isDigit d (hd d (by simp))
  have hskip : skip_space ((d :: ds).map Nat.digitChar ++ rest)
      = (d :: ds).map Nat.digitChar ++ rest := by
    simp [skip_space, hd0.2.2.1]
  have hsign : take_sign ((d :: ds).map Nat.digitChar ++ rest)
      = (false, (d :: ds).map Nat.digitChar ++ rest) := by
    simp only [List.map_cons, List.cons_append]
    unfold take_sign
    split
    · rename_i h; simp at h; exact absurd h.1 hd0.2.2.2.1
    · rename_i h; simp at h; exact absurd h.1 hd0.2.2.2.2
    · rfl
  have hspecial : special_literal ((d :: ds).map Nat.digitChar ++ rest) = none :=
    special_literal_digit d (hd d (by simp)) _
  have hhex := hex_literal_digits d ds hd rest hr.2
  have ht1 := take_digits_map (d :: ds) hd rest hr.1 0 0
  unfold strtod
  rw [hskip, hsign]
  simp only [hspecial, hhex]
  unfold decimal_literal
  simp only [ht1]
  rcases hu with h | h <;> subst h <;> simp [take_exponent]

/-- The conversion part of `parse_scalar` for a Fixed-typed descriptor. -/
theorem strtod_conv (opt : SANE_Option_Descriptor) (h : opt.type = SANE_Value_Type.FIXED)
    (str : List Char) :
    parse_scalar opt str =
      match strtod str with
      | none => Scalar.bad_value
      | some (x, s) =>
        match apply_unit opt.unit
            (fmul x (of_int ((1 <<< SANE_FIXED_SCALE_SHIFT : Nat) : Int))) s with
        | none => Scalar.illegal_unit
        | some (v, s) =>
          match to_word (fadd v half) with
          | none => Scalar.undefined
          | some value => Scalar.ok value s := by
  unfold parse_scalar
  simp only [h, if_true]
  cases strtod str with
  | none => rfl
  | some r => rfl

/-- The inch unit, in either spelling, against a Millimeter descriptor. -/
theorem apply_unit_inch (v : Int) (u : List Char) (hu : u = ['i', 'n'] ∨ u = ['"']) :
    apply_unit SANE_Unit.MM v u = some (fmul v (of_decimal 254 (-1)), []) := by
  rcases hu with h | h <;> subst h <;> simp [apply_unit, peek]

/-- A Fixed-typed Millimeter descriptor reading a decimal literal with k ≤ 6
digits after the point, at most 1290, followed by the inch unit. -/
theorem parse_scalar_fixed_decimal (I : Nat) (F : List Nat) (hF : ∀ x ∈ F, x < 10)
    (hk : F.length ≤ 6) (hm : digits_value F I ≤ 1290 * 10 ^ F.length)
    (u : List Char) (hu : u = ['i', 'n'] ∨ u = ['"']) :
    parse_scalar ⟨SANE_Value_Type.FIXED, SANE_Unit.MM⟩
        (Nat.toDigits 10 I ++ '.' :: (F.map Nat.digitChar ++ u))
      = Scalar.ok (((digits_value F I : Nat) * 33292288 + 10 ^ (F.length + 1))
          / (2 * 10 ^ (F.length + 1))) [] := by
  obtain ⟨d, ds, hd, hds, hv⟩ := toDigits_spec I
  have hr : (peek u).isDigit = false ∧ take_exponent u = (0, u) := by
    rcases hu with h | h <;> rw [h] <;> decide
  have hs := strtod_decimal d ds hd F hF u hr.1 hr.2
  rw [hv] at hs
  rw [strtod_conv _ rfl, hds, hs]
  simp only [apply_unit_inch _ u hu, fixed_inch_value F.length (digits_value F I) hk hm]

/-- A Fixed-typed Millimeter descriptor reading a whole number up to 1290
followed by the inch unit. -/
theorem parse_scalar_fixed_whole (N : Nat) (hN : N ≤ 1290)
    (u : List Char) (hu : u = ['i', 'n'] ∨ u = ['"']) :
    parse_scalar ⟨SANE_Value_Type.FIXED, SANE_Unit.MM⟩ (Nat.toDigits 10 N ++ u)
      = Scalar.ok (((N : Int) * 33292288 + 10) / 20) [] := by
  obtain ⟨d, ds, hd, hds, hv⟩ := toDigits_spec N
  have hs := strtod_whole d ds hd u hu
  rw [hv] at hs
  rw [strtod_conv _ rfl, hds, hs]
  have := fixed_inch_value 0 N (by norm_num) (by simpa using hN)
  simp only [zero_add, pow_one, pow_zero] at this
  simp only [apply_unit_inch _ u hu, this]
  norm_num

theorem int_literal_nat (n : Nat) : int_literal (n : Int) = Nat.toDigits 10 n := by
  unfold int_literal
  have : ¬ ((n : Int) < 0) := by omega
  rw [if_neg this, Int.natAbs_ofNat]

/-- C1, amended: against a Millimeter-unit descriptor a non-negative decimal
literal immediately followed by "in" (or by the inch mark) is accepted with
the whole text consumed as follows.  Int-typed descriptor: a whole number
N ≤ 84546600 gives round-half-up of N * 25.4, that is floor((254 N + 5) / 10);
a whole number followed by a decimal point is not accepted, whatever follows
(the illegal-unit error).  Fixed-typed descriptor: a literal with whole part
I and the digits F after the point (at most 6 of them), of value
V = `digits_value F I` / 10^k ≤ 1290 with k the number of digits in F, gives
the 16.16 fixed-point word round-half-up of V * 25.4 * 65536, that is
floor((V * 33292288 + 10) / 20); so does a whole number V ≤ 1290 without a
point; "2.5in" gives 4161536. -/
theorem parse_scalar_inch (N : Nat) (hN : N ≤ 84546600) :
    parse_scalar ⟨SANE_Value_Type.INT, SANE_Unit.MM⟩ (int_literal N ++ ['i', 'n'])
      = Scalar.ok ((254 * N + 5) / 10) []
    ∧ parse_scalar ⟨SANE_Value_Type.INT, SANE_Unit.MM⟩ (int_literal N ++ ['"'])
      = Scalar.ok ((254 * N + 5) / 10) []
    ∧ (∀ rest : List Char,
        parse_scalar ⟨SANE_Value_Type.INT, SANE_Unit.MM⟩ (int_literal N ++ '.' :: rest)
          = Scalar.illegal_unit)
    ∧ (∀ (I : Nat) (F : List Nat) (u : List Char), (∀ x ∈ F, x < 10) → F.length ≤ 6 →
        digits_value F I ≤ 1290 * 10 ^ F.length → (u = ['i', 'n'] ∨ u = ['"']) →
        parse_scalar ⟨SANE_Value_Type.FIXED, SANE_Unit.MM⟩
            (int_literal I ++ '.' :: (F.map Nat.digitChar ++ u))
          = Scalar.ok (((digits_value F I : Nat) * 33292288 + 10 ^ (F.length + 1))
              / (2 * 10 ^ (F.length + 1))) [])
    ∧ (∀ u : List Char, N ≤ 1290 → (u = ['i', 'n'] ∨ u = ['"']) →
        parse_scalar ⟨SANE_Value_Type.FIXED, SANE_Unit.MM⟩ (int_literal N ++ u)
          = Scalar.ok (((N : Int) * 33292288 + 10) / 20) [])
    ∧ parse_scalar ⟨SANE_Value_Type.FIXED, SANE_Unit.MM⟩ "2.5in".toList
      = Scalar.ok 4161536 [] := by
  have hv := inch_value N (by omega) (by omega)
  have hl : (N : Int) ≤ LONG_MAX := by unfold LONG_MAX; omega
  have hl' : -LONG_MAX - 1 ≤ (N : Int) := by unfold LONG_MAX; omega
  refine ⟨?_, ?_, ?_, ?_, ?_, by decide!⟩
  · have hs := strtol_int_literal N hl' hl ['i', 'n'] (by decide)
    rw [strtol_conv _ rfl, hs]
    simp only [apply_unit]
    have h1 : ¬ (['i', 'n'] = ([] : List Char)) := by decide
    have h2 : ¬ (['i', 'n'] = ['m', 'm']) := by decide
    have h3 : ¬ (['i', 'n'] = ['c', 'm']) := by decide
    have h4 : peek ['i', 'n'] ≠ '"' := by decide
    simp only [h1, h2, h3, h4, if_false, if_true, true_or, ne_eq, not_false_eq_true,
      List.tail_cons, hv]
  · have hs := strtol_int_literal N hl' hl ['"'] (by decide)
    rw [strtol_conv _ rfl, hs]
    simp only [apply_unit]
    have h1 : ¬ (['"'] = ([] : List Char)) := by decide
    have h2 : ¬ (['"'] = ['m', 'm']) := by decide
    have h3 : ¬ (['"'] = ['c', 'm']) := by decide
    have h4 : peek ['"'] = '"' := by decide
    simp only [h1, h2, h3, h4, if_false, if_true, or_true, ne_eq, not_true_eq_false,
      List.tail_cons, hv]
  · intro rest
    have hp : peek ('.' :: rest) = '.' := rfl
    exact parse_scalar_millimeter_rest N hl' hl ('.' :: rest) (by rw [hp]; decide)
      (by simp) (by simp) (by simp) (by simp) (by rw [hp]; decide)
  · intro I F u hF hk hm hu
    rw [int_literal_nat]
    exact parse_scalar_fixed_decimal I F hF hk hm u hu
  · intro u h hu
    rw [int_literal_nat]
    exact parse_scalar_fixed_whole N h u hu

/-- C1, amended, at "2in" against an Int-typed descriptor (51) and at "2.5in"
against a Fixed-typed one: whole part 2, digits [5], the word
(25 * 33292288 + 100) / 200 = 4161536. -/
theorem parse_scalar_inch_witness :
    parse_scalar ⟨SANE_Value_Type.INT, SANE_Unit.MM⟩ (int_literal (2 : Nat) ++ ['i', 'n'])
      = Scalar.ok ((254 * (2 : Nat) + 5) / 10) []
    ∧ parse_scalar ⟨SANE_Value_Type.FIXED, SANE_Unit.MM⟩
          (int_literal (2 : Nat) ++ '.' :: ([5].map Nat.digitChar ++ ['i', 'n']))
        = Scalar.ok (((digits_value [5] 2 : Nat) * 33292288 + 10 ^ ([5].length + 1))
            / (2 * 10 ^ ([5].length + 1))) [] :=
  ⟨(parse_scalar_inch 2 (by decide)).1,
   (parse_scalar_inch 2 (by decide)).2.2.2.1 2 [5] ['i', 'n'] (by decide) (by decide)
      (by decide) (Or.inl rfl)⟩

end Tiffscan
